import Mathlib

/-!
# OneWire over UART and the DS18B20 driver: a shallow embedding

The C sources `OneWire.c` and `Ds18B20.c` are embedded as pure functions with
explicit state passing.

* Machine integers are natural numbers (or integers for `int16_t`) with
  explicit reductions modulo `2^8` / `2^16` where the C code can overflow.
* The UART peripheral and whatever is attached to its pins are not part of the
  repository.  They are represented by a wire state `σ` and a transfer function
  `bus : σ → baud → sent byte → σ × Rx`; every function that touches the UART
  takes `bus` as a parameter.  The handle records the baud rate and a
  chronological log of what the driver did to the peripheral.
-/

namespace OneWire

/-! ## HAL side: status codes, the transport -/

/-- Return codes of the STM32 HAL (`stm32f1xx_hal_def.h`). -/
inductive HAL_StatusTypeDef where
  | HAL_OK
  | HAL_ERROR
  | HAL_BUSY
  | HAL_TIMEOUT
  deriving DecidableEq, Repr

open HAL_StatusTypeDef

/-- Outcome of one `HAL_UART_Receive(huart, &buf, 1, OW_TIMEOUT)`: either a
byte was observed on the wire, or the call timed out and the buffer keeps
whatever it held before (`stale` is that content when the buffer is an
uninitialised local variable). -/
inductive Rx where
  | byte (r : Nat)
  | timeout (stale : Nat)
  deriving DecidableEq, Repr

/-- Things the driver does to the UART peripheral, in the order they happen. -/
inductive Event where
  | uartReset
  | setBaud (bdr : Nat)
  | transmit (b : Nat)
  deriving DecidableEq, Repr

/-- The part of `UART_HandleTypeDef` the driver relies on, together with the
state of the wire attached to the peripheral. -/
structure UART_HandleTypeDef (σ : Type) where
  wire : σ
  BaudRate : Nat
  log : List Event

/-- Transfer function of the attached wire: state, baud rate, transmitted
byte give the new state and what the receiver sees. -/
abbrev Bus (σ : Type) := σ → Nat → Nat → σ × Rx

def WIRE_1 : Nat := 0xFF
def WIRE_0 : Nat := 0x00
def OW_RESET_SPEED : Nat := 9600
def OW_WORK_SPEED : Nat := 115200

def OW_CMD_RSCRATCHPAD : Nat := 0xBE
def OW_CMD_WSCRATCHPAD : Nat := 0x4E
def OW_CMD_SEARCHROM : Nat := 0xF0
def OW_CMD_MATCHROM : Nat := 0x55
def OW_CMD_SKIPROM : Nat := 0xCC

/-- The working structure `OneWire_t`. -/
structure OneWire_t (σ : Type) where
  LastDiscrepancy : Nat
  LastFamilyDiscrepancy : Nat
  LastDeviceFlag : Nat
  ROM_NO : List Nat
  huart : UART_HandleTypeDef σ
  status : HAL_StatusTypeDef

/-- The pair `HAL_UART_Transmit_IT(huart, &s, 1)` followed by
`HAL_UART_Receive(huart, &r, 1, OW_TIMEOUT)`: one byte goes out, the wire
answers. -/
def HAL_UART_exchange {σ : Type} (bus : Bus σ) (h : UART_HandleTypeDef σ) (s : Nat) :
    UART_HandleTypeDef σ × Rx :=
  let wr := bus h.wire h.BaudRate s
  ({ h with wire := wr.1, log := h.log ++ [Event.transmit s] }, wr.2)

/-- Status returned by `HAL_UART_Receive`. -/
def Rx.status : Rx → HAL_StatusTypeDef
  | Rx.byte _ => HAL_OK
  | Rx.timeout _ => HAL_TIMEOUT

/-- Content of the one-byte receive buffer after `HAL_UART_Receive`, where
`init` is what an initialised buffer held before the call. -/
def Rx.buffer (init : Option Nat) : Rx → Nat
  | Rx.byte r => r
  | Rx.timeout stale => init.getD stale

/-! ## OneWire.c -/

def OW_resetUART {σ : Type} (ow : OneWire_t σ) : OneWire_t σ :=
  { ow with
    huart := { ow.huart with BaudRate := 115200, log := ow.huart.log ++ [Event.uartReset] }
    status := HAL_OK }

def OW_init {σ : Type} (ow : OneWire_t σ) (huart : UART_HandleTypeDef σ) : OneWire_t σ :=
  { ow with huart := huart, status := HAL_OK }

/-- Loop of `bitsToByte`: `n` iterations left, `bits` is the rest of the array. -/
def bitsToByte_loop : Nat → List Nat → Nat → Nat
  | 0, _, target_byte => target_byte
  | n + 1, bits, target_byte =>
    let target_byte := target_byte >>> 1
    let target_byte := if bits.headD 0 ≠ WIRE_0 then target_byte ||| 0x80 else target_byte
    bitsToByte_loop n bits.tail target_byte

def bitsToByte (bits : List Nat) : Nat :=
  bitsToByte_loop 8 bits 0

/-- Loop of `byteToBits`: `n` iterations left; returns the bytes written. -/
def byteToBits_loop : Nat → Nat → List Nat
  | 0, _ => []
  | n + 1, ow_byte =>
    (if ow_byte &&& 0x01 ≠ 0 then WIRE_1 else WIRE_0) :: byteToBits_loop n (ow_byte >>> 1)

/-- The eight bytes `byteToBits(ow_byte, bits)` writes into `bits`. -/
def byteToBits (ow_byte : Nat) : List Nat :=
  byteToBits_loop 8 ow_byte

def OW_setBaudRate {σ : Type} (huart : UART_HandleTypeDef σ) (bdr : Nat) :
    UART_HandleTypeDef σ :=
  { huart with BaudRate := bdr, log := huart.log ++ [Event.setBaud bdr] }

def OW_reset {σ : Type} (bus : Bus σ) (ow : OneWire_t σ) : OneWire_t σ × Nat :=
  let ow := if ow.status ≠ HAL_OK then OW_resetUART ow else ow
  let reset := 0xF0
  let h := OW_setBaudRate ow.huart OW_RESET_SPEED
  let hr := HAL_UART_exchange bus h reset
  let resetBack := hr.2.buffer (some 0)
  let h := OW_setBaudRate hr.1 OW_WORK_SPEED
  ({ ow with huart := h, status := hr.2.status }, if reset ≠ resetBack then 1 else 0)

def OW_sendBit {σ : Type} (bus : Bus σ) (ow : OneWire_t σ) (b : Nat) : OneWire_t σ :=
  let s := if b ≠ 0 then WIRE_1 else WIRE_0
  let hr := HAL_UART_exchange bus ow.huart s
  { ow with huart := hr.1, status := hr.2.status }

def OW_receiveBit {σ : Type} (bus : Bus σ) (ow : OneWire_t σ) : OneWire_t σ × Nat :=
  let s := 0xFF
  let hr := HAL_UART_exchange bus ow.huart s
  let r := hr.2.buffer none
  ({ ow with huart := hr.1, status := hr.2.status }, if r = 0xFF then 1 else 0)

/-- The `for` loop of `OW_sendByte` over the remaining entries of `sendByte`. -/
def OW_sendByte_loop {σ : Type} (bus : Bus σ) : List Nat → OneWire_t σ → OneWire_t σ
  | [], ow => ow
  | b :: rest, ow => OW_sendByte_loop bus rest (OW_sendBit bus ow b)

def OW_sendByte {σ : Type} (bus : Bus σ) (ow : OneWire_t σ) (b : Nat) : OneWire_t σ :=
  OW_sendByte_loop bus (byteToBits b) ow

/-- `OW_sendBytes(ow, bytes, len)` with `len = bytes.length`. -/
def OW_sendBytes {σ : Type} (bus : Bus σ) : OneWire_t σ → List Nat → OneWire_t σ
  | ow, [] => ow
  | ow, b :: rest => OW_sendBytes bus (OW_sendByte bus ow b) rest

/-- The `for` loop of `OW_receiveByte`: `n` iterations left, `recvByte` holds
the entries written so far. -/
def OW_receiveByte_loop {σ : Type} (bus : Bus σ) :
    Nat → OneWire_t σ → List Nat → OneWire_t σ × List Nat
  | 0, ow, recvByte => (ow, recvByte)
  | n + 1, ow, recvByte =>
    let r := OW_receiveBit bus ow
    OW_receiveByte_loop bus n r.1 (recvByte ++ [r.2])

def OW_receiveByte {σ : Type} (bus : Bus σ) (ow : OneWire_t σ) : OneWire_t σ × Nat :=
  let r := OW_receiveByte_loop bus 8 ow []
  (r.1, bitsToByte r.2)

/-- `OW_receiveBytes(ow, bytes, len)`: returns the `len` bytes written. -/
def OW_receiveBytes {σ : Type} (bus : Bus σ) : Nat → OneWire_t σ → OneWire_t σ × List Nat
  | 0, ow => (ow, [])
  | len + 1, ow =>
    let r := OW_receiveByte bus ow
    let rest := OW_receiveBytes bus len r.1
    (rest.1, r.2 :: rest.2)

/-- Inner `for (i = 8; i; i--)` loop of `OW_CRC8`. -/
def OW_CRC8_bits : Nat → Nat → Nat → Nat
  | 0, crc, _ => crc
  | i + 1, crc, inbyte =>
    let mix := (crc ^^^ inbyte) &&& 0x01
    let crc := crc >>> 1
    let crc := if mix ≠ 0 then crc ^^^ 0x8C else crc
    OW_CRC8_bits i crc (inbyte >>> 1)

/-- Outer `while (len--)` loop of `OW_CRC8`; `addr` is the rest of the buffer. -/
def OW_CRC8_loop : Nat → List Nat → Nat → Nat
  | 0, _, crc => crc
  | len + 1, addr, crc => OW_CRC8_loop len addr.tail (OW_CRC8_bits 8 crc (addr.headD 0))

/-- `OW_CRC8(addr, len)`; the parameter `len` is a `uint8_t`. -/
def OW_CRC8 (addr : List Nat) (len : Nat) : Nat :=
  OW_CRC8_loop (len % 256) addr 0

def OW_resetSearch {σ : Type} (ow : OneWire_t σ) : OneWire_t σ :=
  { ow with LastDiscrepancy := 0, LastDeviceFlag := 0, LastFamilyDiscrepancy := 0 }

/-- Local variables of `OW_search` that live across iterations of its loop
(all `uint8_t`). -/
structure SearchLocals where
  id_bit_number : Nat
  last_zero : Nat
  rom_byte_number : Nat
  rom_byte_mask : Nat
  deriving DecidableEq, Repr

/-- One execution of the body of the `do { ... } while` loop of `OW_search`.
The Boolean is `true` when the body left through `break`. -/
def OW_search_body {σ : Type} (bus : Bus σ) (ow : OneWire_t σ) (v : SearchLocals) :
    (OneWire_t σ × SearchLocals) × Bool :=
  let r1 := OW_receiveBit bus ow
  let id_bit := r1.2
  let r2 := OW_receiveBit bus r1.1
  let cmp_id_bit := r2.2
  let ow := r2.1
  if id_bit = 1 ∧ cmp_id_bit = 1 then
    ((ow, v), true)
  else
    let d : Nat × Nat × OneWire_t σ :=
      if id_bit ≠ cmp_id_bit then
        (id_bit, v.last_zero, ow)
      else
        let search_direction : Nat :=
          if v.id_bit_number < ow.LastDiscrepancy then
            (if (ow.ROM_NO.getD v.rom_byte_number 0 &&& v.rom_byte_mask) > 0 then 1 else 0)
          else
            (if v.id_bit_number = ow.LastDiscrepancy then 1 else 0)
        if search_direction = 0 then
          let last_zero := v.id_bit_number
          (search_direction, last_zero,
            if last_zero < 9 then { ow with LastFamilyDiscrepancy := last_zero } else ow)
        else
          (search_direction, v.last_zero, ow)
    let search_direction := d.1
    let last_zero := d.2.1
    let ow := d.2.2
    let rom_byte := ow.ROM_NO.getD v.rom_byte_number 0
    let rom_byte :=
      if search_direction = 1 then rom_byte ||| v.rom_byte_mask
      else rom_byte &&& (0xFF ^^^ v.rom_byte_mask)
    let ow := { ow with ROM_NO := List.set ow.ROM_NO v.rom_byte_number rom_byte }
    let ow := OW_sendBit bus ow search_direction
    let id_bit_number := (v.id_bit_number + 1) % 256
    let rom_byte_mask := (v.rom_byte_mask <<< 1) % 256
    let v :=
      if rom_byte_mask = 0 then
        { id_bit_number := id_bit_number, last_zero := last_zero,
          rom_byte_number := (v.rom_byte_number + 1) % 256, rom_byte_mask := 1 }
      else
        { id_bit_number := id_bit_number, last_zero := last_zero,
          rom_byte_number := v.rom_byte_number, rom_byte_mask := rom_byte_mask }
    ((ow, v), false)

/-- The `do { ... } while (rom_byte_number < 8)` loop of `OW_search`, with a
bound on the number of iterations; `none` when the bound is used up before
the loop is left. -/
def OW_search_loop {σ : Type} (bus : Bus σ) :
    Nat → OneWire_t σ → SearchLocals → Option (OneWire_t σ × SearchLocals)
  | 0, _, _ => none
  | fuel + 1, ow, v =>
    let r := OW_search_body bus ow v
    if r.2 then some r.1
    else if r.1.2.rom_byte_number < 8 then OW_search_loop bus fuel r.1.1 r.1.2
    else some r.1

/-- `OW_search(ow, command)`.  The loop is run with a bound of 64 iterations
(`OW_search_loop_isSome` shows that the bound is never reached). -/
def OW_search {σ : Type} (bus : Bus σ) (ow : OneWire_t σ) (command : Nat) :
    Option (OneWire_t σ × Nat) :=
  let v : SearchLocals :=
    { id_bit_number := 1, last_zero := 0, rom_byte_number := 0, rom_byte_mask := 1 }
  let finish (ow : OneWire_t σ) (search_result : Nat) : OneWire_t σ × Nat :=
    if search_result = 0 ∨ ow.ROM_NO.getD 0 0 = 0 then (OW_resetSearch ow, 0)
    else (ow, search_result)
  if ow.LastDeviceFlag = 0 then
    let r := OW_reset bus ow
    if r.2 = 0 then
      some (OW_resetSearch r.1, 0)
    else
      let ow := OW_sendByte bus r.1 command
      match OW_search_loop bus 64 ow v with
      | none => none
      | some (ow, v) =>
        if ¬ (v.id_bit_number < 65) then
          let ow := { ow with LastDiscrepancy := v.last_zero }
          let ow := if ow.LastDiscrepancy = 0 then { ow with LastDeviceFlag := 1 } else ow
          some (finish ow 1)
        else
          some (finish ow 0)
  else
    some (finish ow 0)

def OW_first {σ : Type} (bus : Bus σ) (ow : OneWire_t σ) : Option (OneWire_t σ × Nat) :=
  OW_search bus (OW_resetSearch ow) OW_CMD_SEARCHROM

def OW_next {σ : Type} (bus : Bus σ) (ow : OneWire_t σ) : Option (OneWire_t σ × Nat) :=
  OW_search bus ow OW_CMD_SEARCHROM

def OW_getROM {σ : Type} (ow : OneWire_t σ) (index : Nat) : Nat :=
  ow.ROM_NO.getD index 0

/-- The eight bytes `OW_getFullROM` copies to `firstIndex`. -/
def OW_getFullROM {σ : Type} (ow : OneWire_t σ) : List Nat :=
  (List.range 8).map fun i => ow.ROM_NO.getD i 0

def OW_select {σ : Type} (bus : Bus σ) (ow : OneWire_t σ) (addr : List Nat) : OneWire_t σ :=
  let ow := OW_sendByte bus ow OW_CMD_MATCHROM
  OW_sendBytes bus ow ((List.range 8).map fun i => addr.getD i 0)

/-! ## Ds18B20.h / Ds18B20.c -/

def DS18B20_MEASUREALL : Nat := 0xff

def DS18B20_TEMP_NOT_READ : Int := -1000
def DS18B20_TEMP_ERROR : Int := -1500
def DS18B20_TEMP_CRC_ERROR : Int := -1550

def DS18B20_12BITS : Nat := 0b01111111
def DS18B20_11BITS : Nat := 0b01011111
def DS18B20_10BITS : Nat := 0b00111111
def DS18B20_9BITS : Nat := 0b00011111

def DS18B20_CMD_SKIPROM : Nat := 0xCC
def DS18B20_COVERTTEMP : Nat := 0x44

/-- The working structure `Ds18B20_t`; the three arrays have
`MAX_DS18B20_SENSORS` entries. -/
structure Ds18B20_t (σ : Type) where
  sensors_found : Nat
  correction : List Int
  lastTimeMeasured : List Nat
  ROMS : List (List Nat)
  timeNeeded : Nat
  ow : OneWire_t σ

/-- Conversion of an `int` to `int16_t` (two's complement wrap-around). -/
def toInt16 (x : Int) : Int :=
  (x + 32768) % 65536 - 32768

/-- Conversion to `int` (32-bit two's complement). -/
def toInt32 (x : Int) : Int :=
  (x + 2147483648) % 4294967296 - 2147483648

/-- The operator `~` on `int`. -/
def int_not (x : Int) : Int :=
  -x - 1

/-- The operator `&` on `int`: bitwise AND of the two 32-bit patterns. -/
def int_and (x y : Int) : Int :=
  toInt32 (((x % 4294967296).toNat &&& (y % 4294967296).toNat : Nat) : Int)

/-- The zero-fill loop at the head of `DS18B20_init`:
`for(; i < sizeof(Ds18B20_t); i++) p[i] = 0;` with `uint8_t i`, over the bytes
`p` of the structure.  The counter has 256 values, so a run that has not left
the loop after 257 tests never leaves it; this is reported as `none`. -/
def DS18B20_init_zeroFill (size : Nat) : Nat → Nat → List Nat → Option (List Nat)
  | 0, _, _ => none
  | fuel + 1, i, p =>
    if i < size then DS18B20_init_zeroFill size fuel ((i + 1) % 256) (List.set p i 0)
    else some p

/-- The structure all of whose bytes are zero (with `MAX` array entries); the
wire state `w` stands for the hardware, which the structure does not own. -/
def Ds18B20_zero {σ : Type} (MAX : Nat) (w : UART_HandleTypeDef σ) : Ds18B20_t σ :=
  { sensors_found := 0
    correction := List.replicate MAX 0
    lastTimeMeasured := List.replicate MAX 0
    ROMS := List.replicate MAX (List.replicate 8 0)
    timeNeeded := 0
    ow := { LastDiscrepancy := 0, LastFamilyDiscrepancy := 0, LastDeviceFlag := 0,
            ROM_NO := List.replicate 8 0, huart := w, status := HAL_OK } }

/-- The discovery loop of `DS18B20_init`,
`while (status && ds18B20->sensors_found < MAX_DS18B20_SENSORS)`, with a bound
on the number of iterations (`none` when the bound is used up). -/
def DS18B20_init_loop {σ : Type} (MAX : Nat) (bus : Bus σ) :
    Nat → Ds18B20_t σ → Nat → Option (Ds18B20_t σ)
  | 0, _, _ => none
  | fuel + 1, ds, status =>
    if status ≠ 0 ∧ ds.sensors_found < MAX then
      let ds := { ds with ROMS := List.set ds.ROMS ds.sensors_found (OW_getFullROM ds.ow) }
      let rom := ds.ROMS.getD ds.sensors_found []
      let ds :=
        if OW_CRC8 rom 7 = rom.getD 7 0 then
          { ds with sensors_found := (ds.sensors_found + 1) % 256 }
        else ds
      match OW_next bus ds.ow with
      | none => none
      | some r => DS18B20_init_loop MAX bus fuel { ds with ow := r.1 } r.2
    else some ds

/-- `DS18B20_init(ds18B20, huart, precision)`.  `MAX` is `MAX_DS18B20_SENSORS`,
`size` is `sizeof(Ds18B20_t)`, `mem` the bytes of `*ds18B20` before the call,
`fuel` bounds the iterations of the discovery loop. -/
def DS18B20_init {σ : Type} (MAX size : Nat) (bus : Bus σ) (fuel : Nat) (mem : List Nat)
    (huart : UART_HandleTypeDef σ) (precision : Nat) : Option (Ds18B20_t σ) :=
  match DS18B20_init_zeroFill size 257 0 mem with
  | none => none
  | some _ =>
    let ds : Ds18B20_t σ := Ds18B20_zero MAX huart
    let ds := { ds with ow := OW_init ds.ow huart }
    match OW_first bus ds.ow with
    | none => none
    | some r =>
      match DS18B20_init_loop MAX bus fuel { ds with ow := r.1 } r.2 with
      | none => none
      | some ds =>
        let data := [OW_CMD_SKIPROM, OW_CMD_WSCRATCHPAD, 0x7F, 0xFF, precision]
        let r := OW_reset bus ds.ow
        let ow := if r.2 ≠ 0 then OW_sendBytes bus r.1 data else r.1
        let timeNeeded :=
          if precision = DS18B20_11BITS then 380
          else if precision = DS18B20_10BITS then 195
          else if precision = DS18B20_9BITS then 100
          else 760
        some { ds with ow := ow, timeNeeded := timeNeeded }

def DS18B20_getSensorsAvailable {σ : Type} (ds : Ds18B20_t σ) : Nat :=
  ds.sensors_found

/-- `DS18B20_startMeasure`; `now` is the value `HAL_GetTick()` returns. -/
def DS18B20_startMeasure {σ : Type} (bus : Bus σ) (now : Nat) (ds : Ds18B20_t σ)
    (sensor : Nat) : Ds18B20_t σ :=
  if sensor < ds.sensors_found ∨ sensor = DS18B20_MEASUREALL then
    if sensor = DS18B20_MEASUREALL then
      let r := OW_reset bus ds.ow
      if r.2 ≠ 0 then
        let ow := OW_sendByte bus r.1 OW_CMD_SKIPROM
        let ow := OW_sendByte bus ow DS18B20_COVERTTEMP
        { ds with
          ow := ow
          lastTimeMeasured := (List.range ds.sensors_found).foldl
            (fun l i => List.set l i now) ds.lastTimeMeasured }
      else { ds with ow := r.1 }
    else
      let r := OW_reset bus ds.ow
      if r.2 ≠ 0 then
        let ow := OW_select bus r.1 (ds.ROMS.getD sensor [])
        let ow := OW_sendByte bus ow DS18B20_COVERTTEMP
        { ds with ow := ow, lastTimeMeasured := List.set ds.lastTimeMeasured sensor now }
      else { ds with ow := r.1 }
  else ds

/-- `DS18B20_isTempReady`; `now` is the value `HAL_GetTick()` returns; the
difference is taken in `uint32_t`. -/
def DS18B20_isTempReady {σ : Type} (now : Nat) (ds : Ds18B20_t σ) (sensor : Nat) : Nat :=
  if sensor ≠ DS18B20_MEASUREALL ∧ sensor ≥ ds.sensors_found then 0
  else
    let sensor := if sensor = DS18B20_MEASUREALL then 0 else sensor
    if (now + 2 ^ 32 - ds.lastTimeMeasured.getD sensor 0) % 2 ^ 32 ≥ ds.timeNeeded then 1
    else 0

/-- The receive loop of `DS18B20_getTempRaw`: `n` iterations left, `data` holds
the bytes stored so far, `s` is the `uint16_t` running sum. -/
def DS18B20_getTempRaw_loop {σ : Type} (bus : Bus σ) :
    Nat → OneWire_t σ → List Nat → Nat → OneWire_t σ × List Nat × Nat
  | 0, ow, data, s => (ow, data, s)
  | n + 1, ow, data, s =>
    let r := OW_receiveByte bus ow
    DS18B20_getTempRaw_loop bus n r.1 (data ++ [r.2]) ((s + r.2) % 65536)

def DS18B20_getTempRaw {σ : Type} (bus : Bus σ) (ds : Ds18B20_t σ) (sensor : Nat) :
    Ds18B20_t σ × Int :=
  if sensor ≠ DS18B20_MEASUREALL ∧ sensor ≥ ds.sensors_found then
    (ds, DS18B20_TEMP_NOT_READ)
  else
    let r := OW_reset bus ds.ow
    if r.2 = 0 then
      ({ ds with ow := r.1 }, DS18B20_TEMP_NOT_READ)
    else
      let ow :=
        if sensor = DS18B20_MEASUREALL then OW_sendByte bus r.1 DS18B20_CMD_SKIPROM
        else OW_select bus r.1 (ds.ROMS.getD sensor [])
      let ow := OW_sendByte bus ow OW_CMD_RSCRATCHPAD
      let rd := DS18B20_getTempRaw_loop bus 9 ow [] 0
      let ds := { ds with ow := rd.1 }
      let data := rd.2.1
      let s := rd.2.2
      if s = 0 then
        (ds, DS18B20_TEMP_CRC_ERROR)
      else if OW_CRC8 data 8 ≠ data.getD 8 0 then
        (ds, DS18B20_TEMP_ERROR)
      else
        let raw : Int := toInt16 (((data.getD 1 0 <<< 8) ||| data.getD 0 0 : Nat) : Int)
        let cfg := data.getD 4 0 &&& 0x60
        let raw :=
          if cfg = 0x00 then toInt16 (int_and raw (int_not 7))
          else if cfg = 0x20 then toInt16 (int_and raw (int_not 3))
          else if cfg = 0x40 then toInt16 (int_and raw (int_not 1))
          else raw
        (ds, toInt16 (raw + ds.correction.getD
          (if sensor = DS18B20_MEASUREALL then 0 else sensor) 0))

def DS18B20_setCorrection {σ : Type} (ds : Ds18B20_t σ) (sensor : Nat) (cor : Int) :
    Ds18B20_t σ :=
  if sensor ≥ ds.sensors_found then ds
  else { ds with correction := List.set ds.correction sensor cor }

/-! ## Environments and specification-side definitions -/

/-- A wire that replays a fixed tape of receive outcomes, one per exchange,
whatever is transmitted; past the end of the tape every receive times out. -/
def tapeBus : Bus (List Rx)
  | [], _, _ => ([], Rx.timeout 0)
  | r :: rest, _, _ => (rest, r)

/-- Session state at the point where `DS18B20_getTempRaw` starts to receive:
after the reset, the addressing of the target and the read-scratchpad
command. -/
def DS18B20_request {σ : Type} (bus : Bus σ) (ds : Ds18B20_t σ) (sensor : Nat) :
    OneWire_t σ :=
  let r := OW_reset bus ds.ow
  let ow :=
    if sensor = DS18B20_MEASUREALL then OW_sendByte bus r.1 DS18B20_CMD_SKIPROM
    else OW_select bus r.1 (ds.ROMS.getD sensor [])
  OW_sendByte bus ow OW_CMD_RSCRATCHPAD

/-- The nine scratchpad bytes the bus delivers, as nine `OW_receiveByte` calls
see them, in answer to the request of `DS18B20_getTempRaw`. -/
def DS18B20_scratchpad {σ : Type} (bus : Bus σ) (ds : Ds18B20_t σ) (sensor : Nat) :
    List Nat :=
  (OW_receiveBytes bus 9 (DS18B20_request bus ds sensor)).2

/-- Number of undefined low bits of a reading for configuration byte `cfg`
(scratchpad byte 4): 3, 2, 1, 0 for 9, 10, 11, 12 bit resolution. -/
def undefinedLowBits (cfg : Nat) : Nat :=
  if cfg &&& 0x60 = 0x00 then 3
  else if cfg &&& 0x60 = 0x20 then 2
  else if cfg &&& 0x60 = 0x40 then 1
  else 0

/-- A signed value with its `n` low bits cleared. -/
def clearLowBits (x : Int) (n : Nat) : Int :=
  x - x % 2 ^ n

/-- The serial bytes that carry `bytes` in read slots, least significant bit
first: `0xFF` for a one, `0x00` for a zero. -/
def slotsOfBytes (bytes : List Nat) : List Rx :=
  bytes.flatMap fun b => (List.range 8).map fun i => Rx.byte (if b.testBit i then 0xFF else 0x00)

/-- Feedback taps of the Dallas/Maxim polynomial `x^8 + x^5 + x^4 + 1` in
reflected form (`0x8C`), low bit first. -/
def dallasTaps : List Bool := [false, false, true, true, false, false, false, true]

/-- One clock of the Dallas/Maxim CRC-8 shift register `reg` (low bit first)
with input bit `bit`: the register moves one place towards the low end and
the taps are inverted when the bit shifted out differs from the input. -/
def dallasShift (reg : List Bool) (bit : Bool) : List Bool :=
  let feedback := xor (reg.headD false) bit
  let shifted := reg.tail ++ [false]
  if feedback then List.zipWith xor shifted dallasTaps else shifted

/-- The eight bits of a byte, least significant first. -/
def lowBitsFirst (b : Nat) : List Bool := (List.range 8).map b.testBit

/-- Value of a register given low bit first. -/
def registerValue : List Bool → Nat
  | [] => 0
  | b :: rest => b.toNat + 2 * registerValue rest

/-- Dallas/Maxim CRC-8 of a byte sequence: the register starts at zero, is
clocked once per message bit, each byte low bit first, and is read out with no
final inversion. -/
def dallasCRC8 (bytes : List Nat) : Nat :=
  registerValue ((bytes.flatMap lowBitsFirst).foldl dallasShift (List.replicate 8 false))

/-- Tape seen by a read of the scratchpad: the presence answer to the reset,
`slots` write slots read back unchanged (16 for skip ROM and read scratchpad,
80 for match ROM, eight address bytes and read scratchpad), then the read
slots carrying `scratch`. -/
def exampleTape (slots : Nat) (scratch : List Nat) : List Rx :=
  Rx.byte 0xE0 :: (List.replicate slots (Rx.byte 0xFF) ++ slotsOfBytes scratch)

/-- A registry with one sensor and correction `corr` for it, attached to a
wire that answers the next scratchpad read (with `slots` write slots) by
`scratch`. -/
def exampleSensors (corr : Int) (slots : Nat) (scratch : List Nat) : Ds18B20_t (List Rx) :=
  { sensors_found := 1
    correction := [corr, 0, 0]
    lastTimeMeasured := [0, 0, 0]
    ROMS := [[0x28, 1, 2, 3, 4, 5, 6, 0], List.replicate 8 0, List.replicate 8 0]
    timeNeeded := 760
    ow := { LastDiscrepancy := 0, LastFamilyDiscrepancy := 0, LastDeviceFlag := 0,
            ROM_NO := List.replicate 8 0,
            huart := { wire := exampleTape slots scratch, BaudRate := 115200, log := [] },
            status := HAL_OK } }

/-- A session on a tape wire, used for concrete evaluations. -/
def exampleSession (tape : List Rx) : OneWire_t (List Rx) :=
  { LastDiscrepancy := 0, LastFamilyDiscrepancy := 0, LastDeviceFlag := 0,
    ROM_NO := List.replicate 8 0,
    huart := { wire := tape, BaudRate := 115200, log := [] },
    status := HAL_OK }

/-! ### A simulated 1-Wire bus with search-capable devices -/

/-- Bit `i` (0..63) of an 8-byte ROM code in transmission order: byte `i / 8`,
bit `i % 8`, so the least significant bit of the family code comes first. -/
def romBit (rom : List Nat) (i : Nat) : Bool :=
  (rom.getD (i / 8) 0).testBit (i % 8)

/-- Where the devices of the simulated bus are in the dialogue. -/
inductive SimPhase where
  /-- Not addressed: the devices leave the line alone. -/
  | idle
  /-- After a reset: `n` bits of the ROM command received, with value `acc`. -/
  | command (n acc : Nat)
  /-- Search ROM, position `i`: the devices are about to send bit `i`. -/
  | searchBit (i : Nat)
  /-- Search ROM, position `i`: the devices are about to send the complement. -/
  | searchCmp (i : Nat)
  /-- Search ROM, position `i`: the devices are about to read the direction. -/
  | searchDir (i : Nat)
  deriving DecidableEq, Repr

/-- State of the simulated bus: the ROM codes attached, those still taking
part in the running search, and the phase. -/
structure SimWire where
  devices : List (List Nat)
  active : List (List Nat)
  phase : SimPhase
  deriving DecidableEq, Repr

/-- A wired-AND 1-Wire bus with the devices `w.devices`, seen through the
UART.  An exchange at the reset speed is a reset pulse: every device answers
with a presence pulse (the byte read back differs from the one sent) and
waits for a ROM command.  At working speed every exchange is one time slot:
the line shows the transmitted byte unless a device pulls it low, in which
case `0x00` is read.  After the command `0xF0` (search ROM) the devices still
active send bit `i` of their ROM code, then its complement, then read the
direction written by the master and drop out when it differs from their bit.
The bus never times out. -/
def simBus : Bus SimWire := fun w baud tx =>
  if baud = OW_RESET_SPEED then
    ({ w with active := w.devices, phase := SimPhase.command 0 0 },
      Rx.byte (if w.devices = [] then tx else 0xE0))
  else
    match w.phase with
    | SimPhase.idle => (w, Rx.byte tx)
    | SimPhase.command n acc =>
      let acc := acc + (if tx = 0xFF then 2 ^ n else 0)
      if n + 1 < 8 then ({ w with phase := SimPhase.command (n + 1) acc }, Rx.byte tx)
      else if acc = OW_CMD_SEARCHROM then ({ w with phase := SimPhase.searchBit 0 }, Rx.byte tx)
      else ({ w with phase := SimPhase.idle }, Rx.byte tx)
    | SimPhase.searchBit i =>
      ({ w with phase := SimPhase.searchCmp i },
        Rx.byte (if w.active.all (fun rom => romBit rom i) then tx else 0x00))
    | SimPhase.searchCmp i =>
      ({ w with phase := SimPhase.searchDir i },
        Rx.byte (if w.active.all (fun rom => !romBit rom i) then tx else 0x00))
    | SimPhase.searchDir i =>
      ({ w with
          active := w.active.filter (fun rom => romBit rom i == decide (tx = 0xFF))
          phase := if i + 1 < 64 then SimPhase.searchBit (i + 1) else SimPhase.idle },
        Rx.byte tx)

/-- A freshly attached simulated bus with the given devices. -/
def simWire (devices : List (List Nat)) : SimWire :=
  { devices := devices, active := [], phase := SimPhase.idle }

/-- A session on the simulated bus. -/
def simSession (devices : List (List Nat)) : OneWire_t SimWire :=
  { LastDiscrepancy := 0, LastFamilyDiscrepancy := 0, LastDeviceFlag := 0,
    ROM_NO := List.replicate 8 0,
    huart := { wire := simWire devices, BaudRate := 115200, log := [] },
    status := HAL_OK }

/-- Results of `OW_first` followed by `n - 1` calls of `OW_next`: for each call
the value returned and the content of `ROM_NO` afterwards (`first` tells
whether the next call is the first one). -/
def searchCalls {σ : Type} (bus : Bus σ) : Nat → Bool → OneWire_t σ → List (Nat × List Nat)
  | 0, _, _ => []
  | n + 1, first, ow =>
    match (if first then OW_first bus ow else OW_next bus ow) with
    | none => []
    | some r => (r.2, r.1.ROM_NO) :: searchCalls bus n false r.1

/-- ROM code `a` comes before `b` in the lexicographic order of the 64 bits
read in transmission order, a zero before a one. -/
def romLt (a b : List Nat) : Prop :=
  ∃ i < 64, (∀ j < i, romBit a j = romBit b j) ∧ romBit a i = false ∧ romBit b i = true

/-- A well-formed ROM code: eight bytes. -/
def romWellFormed (a : List Nat) : Prop :=
  a.length = 8 ∧ ∀ x ∈ a, x < 256

/-- ROM code `q` has the same bits as `t` at the positions below `i`. -/
def agreeUpTo (t : List Nat) (i : Nat) (q : List Nat) : Bool :=
  (List.range i).all fun j => romBit q j == romBit t j

/-- Among the devices that share the first `i` bits of `t`, some device
differs from `t` at position `i`: a search that follows `t` meets a
discrepancy there. -/
def discrepancyAt (devices : List (List Nat)) (t : List Nat) (i : Nat) : Bool :=
  devices.any fun q => agreeUpTo t i q && (romBit q i != romBit t i)

/-- The last position (counted from 1) below or at `i` where a search that
follows `t` meets a discrepancy and takes the zero branch; 0 when there is
none. -/
def lastZeroUpTo (devices : List (List Nat)) (t : List Nat) : Nat → Nat
  | 0 => 0
  | i + 1 =>
    if discrepancyAt devices t i && !romBit t i then i + 1 else lastZeroUpTo devices t i

/-- Values of the loop variables of `OW_search` when `i` bits have been
processed and `last_zero` is `lz`. -/
def searchLocalsAt (i lz : Nat) : SearchLocals :=
  { id_bit_number := i + 1, last_zero := lz, rom_byte_number := i / 8,
    rom_byte_mask := 2 ^ (i % 8) }

/-- The addresses reported by `OW_first` and then `OW_next`, for at most `n`
calls, up to the first call that reports no device (`first` tells whether the
next call is the first one). -/
def searchAddresses {σ : Type} (bus : Bus σ) : Nat → Bool → OneWire_t σ → List (List Nat)
  | 0, _, _ => []
  | n + 1, first, ow =>
    match (if first then OW_first bus ow else OW_next bus ow) with
    | none => []
    | some r =>
      if r.2 = 0 then [] else OW_getFullROM r.1 :: searchAddresses bus n false r.1

/-- The eighth byte of a ROM code is the CRC-8 of the first seven. -/
def crcValid (rom : List Nat) : Bool :=
  decide (OW_CRC8 rom 7 = rom.getD 7 0)

instance romLt_decidable : DecidableRel romLt := fun a b => by
  unfold romLt; infer_instance

instance romWellFormed_decidable : DecidablePred romWellFormed := fun a => by
  unfold romWellFormed; infer_instance

/-- Coefficients of `x^7 .. x^0` of the generator `x^8 + x^5 + x^4 + 1`. -/
def generatorLow : List Bool := [false, false, true, true, false, false, false, true]

/-- One step of the long division of a bit stream by the generator over
GF(2): the remainder `rem` (coefficients of `x^7 .. x^0`) is multiplied by
`x`, the next coefficient `c` of the dividend is brought down, and the
generator is subtracted when the coefficient of `x^8` is one. -/
def gf2DivStep (rem : List Bool) (c : Bool) : List Bool :=
  let shifted := rem.tail ++ [c]
  if rem.headD false then List.zipWith xor shifted generatorLow else shifted

/-- Remainder of the polynomial with coefficients `bits` (highest degree
first) modulo `x^8 + x^5 + x^4 + 1`. -/
def gf2Remainder (bits : List Bool) : List Bool :=
  bits.foldl gf2DivStep (List.replicate 8 false)

/-- CRC-8 as a polynomial remainder: the message bits (each byte low bit
first) are the coefficients of a polynomial, highest degree first; it is
multiplied by `x^8` and reduced modulo the generator; the coefficient of
`x^7` of the remainder is bit 0 of the result (reflected register). -/
def crc8Remainder (bytes : List Nat) : Nat :=
  registerValue (gf2Remainder (bytes.flatMap lowBitsFirst ++ List.replicate 8 false))

/-- Entry `k` of a tape of receive outcomes; past the end of the tape every receive times
out. -/
def tapeAt (tape : List Rx) (k : Nat) : Rx :=
  tape.getD k (Rx.timeout 0)

/-- One call of a bit or byte transfer function of `OneWire.c`, as an entry of a sequence
of calls. -/
inductive BusOp where
  | sendBit (b : Nat)
  | receiveBit
  | sendByte (b : Nat)
  | receiveByte
  deriving DecidableEq, Repr

/-- The session after the call `op`. -/
def BusOp.run {σ : Type} (bus : Bus σ) (ow : OneWire_t σ) : BusOp → OneWire_t σ
  | BusOp.sendBit b => OW_sendBit bus ow b
  | BusOp.receiveBit => (OW_receiveBit bus ow).1
  | BusOp.sendByte b => OW_sendByte bus ow b
  | BusOp.receiveByte => (OW_receiveByte bus ow).1

/-- Number of transmit/receive exchanges a call makes: one per bit. -/
def BusOp.exchanges : BusOp → Nat
  | BusOp.sendBit _ => 1
  | BusOp.receiveBit => 1
  | BusOp.sendByte _ => 8
  | BusOp.receiveByte => 8

/-- The session after a sequence of calls, in order. -/
def runOps {σ : Type} (bus : Bus σ) (ow : OneWire_t σ) (ops : List BusOp) : OneWire_t σ :=
  ops.foldl (BusOp.run bus) ow

/-- Number of exchanges a sequence of calls makes. -/
def exchangeCount (ops : List BusOp) : Nat :=
  (ops.map BusOp.exchanges).sum

/-- Bit that `OW_receiveBit` reads from the outcome of its receive: 1 exactly when the
receive buffer holds `0xFF`. -/
def slotBit (rx : Rx) : Nat :=
  if rx.buffer none = 0xFF then 1 else 0

/-- In a search pass on a tape wire (entry 0 answers the reset, entries 1 to 8 the command
bits, then three entries per address bit: the bit, its complement, the echo of the
direction written), position `i` (counted from 0) is a discrepancy, both the bit and its
complement read 0, and the pass took the 0 branch there: bit `i` of the resulting address
`rom` is 0. -/
def zeroBranchAt (tape : List Rx) (rom : List Nat) (i : Nat) : Bool :=
  slotBit (tapeAt tape (9 + 3 * i)) == 0 && slotBit (tapeAt tape (10 + 3 * i)) == 0
    && !romBit rom i

/-- The last position (counted from 1) among the first `n` at which the pass met a
discrepancy and took the 0 branch; 0 when there is none. -/
def lastZeroBranch (tape : List Rx) (rom : List Nat) : Nat → Nat
  | 0 => 0
  | n + 1 => if zeroBranchAt tape rom n then n + 1 else lastZeroBranch tape rom n

/-- The state a search call leaves, `r` being the session after the call and the value
returned: either 1 was returned, the first address byte is non-zero, `LastDiscrepancy` is
the position of the last discrepancy at which this pass took the 0 branch, and
`LastDeviceFlag` is 1 exactly when `LastDiscrepancy` is 0; or 0 was returned and the three
search fields are 0. -/
def searchPost (tape : List Rx) (r : OneWire_t (List Rx) × Nat) : Prop :=
  (r.2 = 1 ∧ r.1.ROM_NO.getD 0 0 ≠ 0 ∧
    r.1.LastDiscrepancy = lastZeroBranch tape r.1.ROM_NO 64 ∧ r.1.LastDiscrepancy ≤ 64 ∧
    (r.1.LastDeviceFlag = 1 ↔ r.1.LastDiscrepancy = 0)) ∨
  (r.2 = 0 ∧ r.1.LastDiscrepancy = 0 ∧ r.1.LastFamilyDiscrepancy = 0 ∧
    r.1.LastDeviceFlag = 0)

instance searchPost_decidable (tape : List Rx) (r : OneWire_t (List Rx) × Nat) :
    Decidable (searchPost tape r) := by
  unfold searchPost; infer_instance

/-- Tape seen by a search pass that meets a single device with address `rom`: presence,
eight command bits read back, then for each address bit the bit, its complement and the
echo of the direction. -/
def deviceTape (rom : List Nat) : List Rx :=
  Rx.byte 0xE0 :: (List.replicate 8 (Rx.byte 0xFF) ++
    (List.range 64).flatMap fun i =>
      [Rx.byte (if romBit rom i then 0xFF else 0x00),
       Rx.byte (if romBit rom i then 0x00 else 0xFF), Rx.byte 0xFF])

/-- The values of the loop variables of `OW_search` at the start of each execution of the
body of its `do { ... } while` loop, in order (the loop is that of `OW_search_loop`, run for
at most `fuel` iterations).  Every access to `ROM_NO` inside the body uses the index
`rom_byte_number` of the entry for that iteration. -/
def OW_search_loop_trace {σ : Type} (bus : Bus σ) :
    Nat → OneWire_t σ → SearchLocals → List SearchLocals
  | 0, _, _ => []
  | fuel + 1, ow, v =>
    let r := OW_search_body bus ow v
    v :: (if r.2 then []
      else if r.1.2.rom_byte_number < 8 then OW_search_loop_trace bus fuel r.1.1 r.1.2
      else [])

/-- The block with bit `k` flipped, bits counted from the least significant bit of the first
byte: bit `k % 8` of byte `k / 8`. -/
def flipBit (block : List Nat) (k : Nat) : List Nat :=
  List.set block (k / 8) (block.getD (k / 8) 0 ^^^ 2 ^ (k % 8))

/-- Two sessions that agree on everything but the address buffer `ROM_NO`: same UART handle
(wire, baud rate, log), same status, same search fields. -/
def sameButROM {σ : Type} (a b : OneWire_t σ) : Prop :=
  a.huart = b.huart ∧ a.status = b.status ∧ a.LastDiscrepancy = b.LastDiscrepancy ∧
  a.LastFamilyDiscrepancy = b.LastFamilyDiscrepancy ∧ a.LastDeviceFlag = b.LastDeviceFlag

/-! ## Theorems -/

/-! ### Bit codec and byte transfer -/

theorem byteToBits_loop_eq (n : Nat) : ∀ b : Nat,
    byteToBits_loop n b = (List.range n).map (fun i => if b.testBit i then WIRE_1 else WIRE_0) := by
  induction n with
  | zero => intro b; rfl
  | succ n ih =>
    intro b
    rw [byteToBits_loop, ih, List.range_succ_eq_map, List.map_cons, List.map_map]
    congr 1
    · rcases Nat.mod_two_eq_zero_or_one b with h | h <;>
        simp [Nat.testBit, Nat.and_one_is_mod, h]
    · apply List.map_congr_left
      intro i _
      simp [Nat.testBit_shiftRight, Nat.add_comm]

theorem OW_sendBit_log {σ : Type} (bus : Bus σ) (ow : OneWire_t σ) (b : Nat) :
    (OW_sendBit bus ow b).huart.log
      = ow.huart.log ++ [Event.transmit (if b ≠ 0 then WIRE_1 else WIRE_0)] := rfl

theorem OW_sendByte_loop_log {σ : Type} (bus : Bus σ) (bits : List Nat) :
    ∀ ow : OneWire_t σ, (OW_sendByte_loop bus bits ow).huart.log
      = ow.huart.log ++ bits.map (fun b => Event.transmit (if b ≠ 0 then WIRE_1 else WIRE_0)) := by
  induction bits with
  | nil => intro ow; simp [OW_sendByte_loop]
  | cons b rest ih =>
    intro ow
    rw [OW_sendByte_loop, ih, OW_sendBit_log]
    simp

/-- Claim C6. `OW_sendByte(b)` performs exactly eight exchanges and nothing
else on the UART: the log grows by eight transmissions, the `i`-th of which is
`0xFF` when bit `i` of `b` is set and `0x00` when it is clear (least
significant bit first). -/
theorem OW_sendByte_transmits {σ : Type} (bus : Bus σ) (ow : OneWire_t σ) (b : Nat) :
    (OW_sendByte bus ow b).huart.log
      = ow.huart.log ++ (List.range 8).map
          (fun i => Event.transmit (if b.testBit i then 0xFF else 0x00)) := by
  rw [OW_sendByte, OW_sendByte_loop_log, byteToBits, byteToBits_loop_eq, List.map_map]
  congr 1
  apply List.map_congr_left
  intro i _
  by_cases h : b.testBit i <;> simp [h, WIRE_1, WIRE_0]

theorem OW_receiveByte_loop_tape (rs : List Nat) :
    ∀ (rest : List Rx) (ow : OneWire_t (List Rx)) (acc : List Nat),
    ow.huart.wire = rs.map Rx.byte ++ rest →
    (OW_receiveByte_loop tapeBus rs.length ow acc).2
        = acc ++ rs.map (fun r => if r = 0xFF then 1 else 0) ∧
    (OW_receiveByte_loop tapeBus rs.length ow acc).1.huart.log
        = ow.huart.log ++ List.replicate rs.length (Event.transmit 0xFF) ∧
    (OW_receiveByte_loop tapeBus rs.length ow acc).1.huart.wire = rest := by
  induction rs with
  | nil => intro rest ow acc h; simpa [OW_receiveByte_loop] using h
  | cons r rs ih =>
    intro rest ow acc h
    have hstep : (OW_receiveBit tapeBus ow).1.huart.wire = rs.map Rx.byte ++ rest := by
      simp [OW_receiveBit, HAL_UART_exchange, h, tapeBus]
    have hval : (OW_receiveBit tapeBus ow).2 = if r = 0xFF then 1 else 0 := by
      simp [OW_receiveBit, HAL_UART_exchange, h, tapeBus, Rx.buffer]
    have hlog : (OW_receiveBit tapeBus ow).1.huart.log
        = ow.huart.log ++ [Event.transmit 0xFF] := rfl
    obtain ⟨h1, h2, h3⟩ := ih rest (OW_receiveBit tapeBus ow).1
      (acc ++ [(OW_receiveBit tapeBus ow).2]) hstep
    simp only [List.length_cons, OW_receiveByte_loop]
    refine ⟨?_, ?_, h3⟩
    · rw [h1, hval]; simp
    · rw [h2, hlog]; simp [List.replicate_succ]

set_option maxRecDepth 100000 in
theorem bitsToByte_bits : ∀ b0 b1 b2 b3 b4 b5 b6 b7 : Bool,
    bitsToByte ([b0, b1, b2, b3, b4, b5, b6, b7].map Bool.toNat) < 256 ∧
    (List.range 8).map (bitsToByte ([b0, b1, b2, b3, b4, b5, b6, b7].map Bool.toNat)).testBit
      = [b0, b1, b2, b3, b4, b5, b6, b7] := by
  decide

/-- Claim C5. When the wire delivers the eight bytes `rs` (no timeout),
`OW_receiveByte` performs exactly eight exchanges, each transmitting `0xFF`,
consumes exactly those eight answers, and returns a byte whose bit `i` is set
exactly when the `i`-th observed byte is `0xFF`. -/
theorem OW_receiveByte_decodes (rs : List Nat) (rest : List Rx) (ow : OneWire_t (List Rx))
    (hlen : rs.length = 8) (hwire : ow.huart.wire = rs.map Rx.byte ++ rest) :
    (OW_receiveByte tapeBus ow).1.huart.log
        = ow.huart.log ++ List.replicate 8 (Event.transmit 0xFF) ∧
    (OW_receiveByte tapeBus ow).1.huart.wire = rest ∧
    (OW_receiveByte tapeBus ow).2 < 256 ∧
    ∀ i < 8, (OW_receiveByte tapeBus ow).2.testBit i = decide (rs.getD i 0 = 0xFF) := by
  obtain ⟨h1, h2, h3⟩ := OW_receiveByte_loop_tape rs rest ow [] hwire
  rw [hlen] at h1 h2 h3
  refine ⟨h2, h3, ?_⟩
  simp only [OW_receiveByte, h1, List.nil_append]
  match rs, hlen with
  | [r0, r1, r2, r3, r4, r5, r6, r7], _ =>
    have hb := bitsToByte_bits (decide (r0 = 0xFF)) (decide (r1 = 0xFF)) (decide (r2 = 0xFF))
      (decide (r3 = 0xFF)) (decide (r4 = 0xFF)) (decide (r5 = 0xFF)) (decide (r6 = 0xFF))
      (decide (r7 = 0xFF))
    have hm : ∀ r : Nat, (if r = 0xFF then 1 else 0) = (decide (r = 0xFF)).toNat := by
      intro r; by_cases h : r = 0xFF <;> simp [h]
    simp only [List.map_cons, List.map_nil, hm]
    simp only [List.map_cons, List.map_nil] at hb
    refine ⟨hb.1, ?_⟩
    intro i hi
    have := congrArg (fun l => l.getD i false) hb.2
    interval_cases i <;> simpa using this

set_option maxRecDepth 100000 in
/-- Witness for C5: the observed bytes `FF 00 FE FF FF 00 FF 00` decode to
`0b01011001`, and the ninth answer is left on the wire. -/
theorem OW_receiveByte_decodes_witness :
    (OW_receiveByte tapeBus (exampleSession
        ([0xFF, 0x00, 0xFE, 0xFF, 0xFF, 0x00, 0xFF, 0x00].map Rx.byte ++ [Rx.byte 0x12]))).2
      = 0b01011001 ∧
    (OW_receiveByte tapeBus (exampleSession
        ([0xFF, 0x00, 0xFE, 0xFF, 0xFF, 0x00, 0xFF, 0x00].map Rx.byte
          ++ [Rx.byte 0x12]))).1.huart.wire
      = [Rx.byte 0x12] := by
  have h := OW_receiveByte_decodes [0xFF, 0x00, 0xFE, 0xFF, 0xFF, 0x00, 0xFF, 0x00]
    [Rx.byte 0x12] (exampleSession
        ([0xFF, 0x00, 0xFE, 0xFF, 0xFF, 0x00, 0xFF, 0x00].map Rx.byte ++ [Rx.byte 0x12]))
    (by decide) rfl
  exact ⟨by decide, h.2.1⟩

set_option maxRecDepth 100000 in
theorem bitsToByte_byteToBits : ∀ x < 256, bitsToByte (byteToBits x) = x := by
  decide

/-- Claim C7. Codec round trip: for every byte `x`, `bitsToByte` applied to the
eight serial bytes written by `byteToBits x` gives `x` back; and for a bit `b`,
the serial byte `s` that `OW_sendBit` transmits decodes to `b`, both by the
rule "`0xFF` is one, anything else is zero" and through `OW_receiveBit` when
`s` is what the wire shows. -/
theorem codec_round_trip {σ : Type} (bus : Bus σ) (ow : OneWire_t σ) (x b : Nat)
    (hx : x < 256) (hb : b = 0 ∨ b = 1) :
    bitsToByte (byteToBits x) = x ∧
    ∃ s, (OW_sendBit bus ow b).huart.log = ow.huart.log ++ [Event.transmit s] ∧
      (if s = 0xFF then 1 else 0) = b ∧
      ∀ (rx : OneWire_t (List Rx)) (rest : List Rx), rx.huart.wire = Rx.byte s :: rest →
        (OW_receiveBit tapeBus rx).2 = b := by
  refine ⟨bitsToByte_byteToBits x hx, (if b ≠ 0 then WIRE_1 else WIRE_0), rfl, ?_, ?_⟩
  · rcases hb with rfl | rfl <;> simp [WIRE_1, WIRE_0]
  · intro rx rest hw
    rcases hb with rfl | rfl <;>
      simp [OW_receiveBit, HAL_UART_exchange, hw, tapeBus, Rx.buffer, WIRE_1, WIRE_0]

/-- Witness for C7 at the byte `0x69` and the bit `1`. -/
theorem codec_round_trip_witness :
    bitsToByte (byteToBits 0x69) = 0x69 ∧
    ∃ s, (OW_sendBit tapeBus (exampleSession [Rx.byte 0xFF]) 1).huart.log
        = (exampleSession [Rx.byte 0xFF]).huart.log ++ [Event.transmit s] ∧
      (if s = 0xFF then 1 else 0) = 1 ∧
      ∀ (rx : OneWire_t (List Rx)) (rest : List Rx), rx.huart.wire = Rx.byte s :: rest →
        (OW_receiveBit tapeBus rx).2 = 1 :=
  codec_round_trip tapeBus (exampleSession [Rx.byte 0xFF]) 0x69 1 (by decide) (Or.inr rfl)

/-! ### CRC-8 -/

set_option maxRecDepth 100000 in
theorem crc_step_refines : ∀ crc < 256, ∀ b < 2,
    (if (crc ^^^ b) &&& 0x01 ≠ 0 then (crc >>> 1) ^^^ 0x8C else crc >>> 1) < 256 ∧
    lowBitsFirst (if (crc ^^^ b) &&& 0x01 ≠ 0 then (crc >>> 1) ^^^ 0x8C else crc >>> 1)
      = dallasShift (lowBitsFirst crc) (decide (b = 1)) := by
  decide

theorem xor_and_one (c x : Nat) : (c ^^^ x) &&& 1 = (c ^^^ (x % 2)) &&& 1 := by
  simp only [Nat.and_one_is_mod]
  rw [Nat.xor_mod_two_eq, Nat.xor_mod_two_eq]
  simp

theorem OW_CRC8_bits_refines (n : Nat) : ∀ (crc inbyte : Nat), crc < 256 →
    OW_CRC8_bits n crc inbyte < 256 ∧
    lowBitsFirst (OW_CRC8_bits n crc inbyte)
      = ((List.range n).map inbyte.testBit).foldl dallasShift (lowBitsFirst crc) := by
  induction n with
  | zero => intro crc inbyte h; simpa [OW_CRC8_bits] using h
  | succ n ih =>
    intro crc inbyte h
    have hb : inbyte % 2 < 2 := Nat.mod_lt _ (by decide)
    have hs := crc_step_refines crc h (inbyte % 2) hb
    rw [← xor_and_one] at hs
    have := ih _ (inbyte >>> 1) hs.1
    simp only [OW_CRC8_bits]
    refine ⟨this.1, ?_⟩
    rw [this.2, hs.2, List.range_succ_eq_map, List.map_cons, List.foldl_cons, List.map_map]
    congr 2
    · rcases Nat.mod_two_eq_zero_or_one inbyte with h2 | h2 <;>
        simp [Nat.testBit, Nat.and_one_is_mod, h2]
    · funext i
      simp [Nat.testBit_shiftRight, Nat.add_comm]

theorem OW_CRC8_loop_refines (addr : List Nat) : ∀ (crc : Nat), crc < 256 →
    lowBitsFirst (OW_CRC8_loop addr.length addr crc)
      = (addr.flatMap lowBitsFirst).foldl dallasShift (lowBitsFirst crc) := by
  induction addr with
  | nil => intro crc _; rfl
  | cons a rest ih =>
    intro crc h
    have hs := OW_CRC8_bits_refines 8 crc a h
    simp only [List.length_cons, OW_CRC8_loop, List.headD_cons, List.tail_cons,
      List.flatMap_cons, List.foldl_append]
    rw [ih _ hs.1, hs.2]
    rfl

theorem OW_CRC8_loop_lt (n : Nat) : ∀ (addr : List Nat) (crc : Nat), crc < 256 →
    OW_CRC8_loop n addr crc < 256 := by
  induction n with
  | zero => intro _ crc h; simpa [OW_CRC8_loop] using h
  | succ n ih =>
    intro addr crc h
    exact ih _ _ (OW_CRC8_bits_refines 8 crc _ h).1

theorem OW_CRC8_lt (addr : List Nat) (len : Nat) : OW_CRC8 addr len < 256 :=
  OW_CRC8_loop_lt _ addr 0 (by decide)

set_option maxRecDepth 100000 in
theorem registerValue_lowBitsFirst : ∀ c < 256, registerValue (lowBitsFirst c) = c := by
  decide

set_option maxRecDepth 100000 in
theorem gf2_flush_commute : ∀ b0 b1 b2 b3 b4 b5 b6 b7 c : Bool,
    dallasShift ((List.replicate 8 false).foldl gf2DivStep [b0, b1, b2, b3, b4, b5, b6, b7]) c
      = (List.replicate 8 false).foldl gf2DivStep
          (gf2DivStep [b0, b1, b2, b3, b4, b5, b6, b7] c) := by
  decide

theorem gf2DivStep_length (rem : List Bool) (c : Bool) (h : rem.length = 8) :
    (gf2DivStep rem c).length = 8 := by
  unfold gf2DivStep
  simp only []
  split <;> simp [generatorLow, h]

theorem foldl_gf2DivStep_length (bits : List Bool) : ∀ rem : List Bool, rem.length = 8 →
    (bits.foldl gf2DivStep rem).length = 8 := by
  induction bits with
  | nil => intro rem h; exact h
  | cons b bits ih => intro rem h; exact ih _ (gf2DivStep_length rem b h)

theorem dallasShift_eq_remainder (bits : List Bool) :
    bits.foldl dallasShift (List.replicate 8 false)
      = gf2Remainder (bits ++ List.replicate 8 false) := by
  unfold gf2Remainder
  induction bits using List.reverseRecOn with
  | nil => decide
  | append_singleton bits b ih =>
    rw [List.foldl_append, List.foldl_cons, List.foldl_nil, ih, List.foldl_append,
      List.foldl_append, List.foldl_append, List.foldl_cons, List.foldl_nil]
    have hlen := foldl_gf2DivStep_length bits (List.replicate 8 false) (by simp)
    generalize bits.foldl gf2DivStep (List.replicate 8 false) = r at hlen ⊢
    match r, hlen with
    | [b0, b1, b2, b3, b4, b5, b6, b7], _ => exact gf2_flush_commute b0 b1 b2 b3 b4 b5 b6 b7 b

theorem dallasCRC8_eq_remainder (bytes : List Nat) : dallasCRC8 bytes = crc8Remainder bytes := by
  unfold dallasCRC8 crc8Remainder
  rw [dallasShift_eq_remainder]

set_option maxRecDepth 100000 in
/-- Claim C2. For every byte sequence of length at most 255, `OW_CRC8` returns
the Dallas/Maxim CRC-8: the content of the shift register with feedback `0x8C`
(initial value zero, bytes consumed low bit first, no final inversion), which
is the remainder of the message polynomial times `x^8` modulo
`x^8 + x^5 + x^4 + 1` in reflected form; and for the ROM
`02 1C B8 01 00 00 00` the result is `0xA2`. -/
theorem OW_CRC8_eq_dallasCRC8 (bytes : List Nat) (hlen : bytes.length ≤ 255) :
    OW_CRC8 bytes bytes.length = dallasCRC8 bytes ∧
    OW_CRC8 bytes bytes.length = crc8Remainder bytes ∧
    OW_CRC8 [0x02, 0x1C, 0xB8, 0x01, 0x00, 0x00, 0x00] 7 = 0xA2 := by
  have h : OW_CRC8 bytes bytes.length = dallasCRC8 bytes := by
    unfold OW_CRC8 dallasCRC8
    rw [Nat.mod_eq_of_lt (by omega)]
    rw [← registerValue_lowBitsFirst _ (OW_CRC8_loop_lt _ bytes 0 (by decide)),
      OW_CRC8_loop_refines bytes 0 (by decide)]
    rfl
  exact ⟨h, h.trans (dallasCRC8_eq_remainder bytes), by decide⟩

set_option maxRecDepth 100000 in
/-- Witness for C2 at the ROM `02 1C B8 01 00 00 00`, whose CRC is `0xA2` by
the shift register and by polynomial division. -/
theorem OW_CRC8_eq_dallasCRC8_witness :
    dallasCRC8 [0x02, 0x1C, 0xB8, 0x01, 0x00, 0x00, 0x00] = 0xA2 ∧
    crc8Remainder [0x02, 0x1C, 0xB8, 0x01, 0x00, 0x00, 0x00] = 0xA2 ∧
    OW_CRC8 [0x02, 0x1C, 0xB8, 0x01, 0x00, 0x00, 0x00]
        [0x02, 0x1C, 0xB8, 0x01, 0x00, 0x00, 0x00].length
      = dallasCRC8 [0x02, 0x1C, 0xB8, 0x01, 0x00, 0x00, 0x00] :=
  ⟨by decide, by decide,
    (OW_CRC8_eq_dallasCRC8 [0x02, 0x1C, 0xB8, 0x01, 0x00, 0x00, 0x00] (by decide)).1⟩

/-! ### Reading the scratchpad -/


theorem nat_and_clear (u k : Nat) (hk : k ≤ 32) (hu : u < 2 ^ 32) :
    u &&& (2 ^ 32 - 2 ^ k) = u - u % 2 ^ k := by
  have h1 : u - u % 2 ^ k = 2 ^ k * (u / 2 ^ k) := by
    have := Nat.div_add_mod u (2 ^ k); omega
  have h2 : 2 ^ 32 - 2 ^ k = 2 ^ k * (2 ^ (32 - k) - 1) := by
    rw [Nat.mul_sub, ← Nat.pow_add, Nat.add_sub_cancel' hk]; simp
  rw [h1, h2, ← Nat.shiftRight_eq_div_pow]
  apply Nat.eq_of_testBit_eq
  intro i
  rw [Nat.testBit_land, Nat.testBit_mul_pow_two, Nat.testBit_mul_pow_two,
    Nat.testBit_two_pow_sub_one, Nat.testBit_shiftRight]
  by_cases hi : k ≤ i
  · by_cases hi2 : i < 32
    · have : i - k < 32 - k := by omega
      simp [hi, this, Nat.add_sub_cancel' hi]
    · have hf : u.testBit i = false :=
        Nat.testBit_lt_two_pow (lt_of_lt_of_le hu (Nat.pow_le_pow_right (by decide) (by omega)))
      have : ¬ (i - k < 32 - k) := by omega
      simp [hi, this, hf, Nat.add_sub_cancel' hi]
  · simp [hi]

theorem int_and_clear (x : Int) (k : Nat) (hk : k ≤ 3) (hlo : -32768 ≤ x) (hhi : x ≤ 32767) :
    toInt16 (int_and x (int_not (2 ^ k - 1))) = clearLowBits x k := by
  obtain ⟨u, hu⟩ : ∃ u : Nat, (u : Int) = x % 4294967296 :=
    ⟨(x % 4294967296).toNat, Int.toNat_of_nonneg (Int.emod_nonneg _ (by decide))⟩
  have hu32 : u < 2 ^ 32 := by
    have := Int.emod_lt_of_pos x (show (0 : Int) < 4294967296 by decide)
    omega
  have hland := nat_and_clear u k (by omega) hu32
  have hm : ((int_not (2 ^ k - 1)) % 4294967296).toNat = 2 ^ 32 - 2 ^ k := by
    interval_cases k <;> simp [int_not]
  have hx : (x % 4294967296).toNat = u := by rw [← hu]; simp
  simp only [int_and, hm, hx, hland, toInt32, toInt16, clearLowBits]
  have hle : u % 2 ^ k ≤ u := Nat.mod_le _ _
  rw [Nat.cast_sub hle]
  push_cast
  interval_cases k <;> omega


theorem bitsToByte_loop_lt (n : Nat) : ∀ (bits : List Nat) (t : Nat), t < 256 →
    bitsToByte_loop n bits t < 256 := by
  induction n with
  | zero => intro _ t h; simpa [bitsToByte_loop] using h
  | succ n ih =>
    intro bits t h
    simp only [bitsToByte_loop]
    apply ih
    have h1 : t >>> 1 < 2 ^ 8 := by
      rw [Nat.shiftRight_eq_div_pow]; omega
    split
    · exact Nat.or_lt_two_pow h1 (by decide)
    · exact h1

theorem OW_receiveByte_lt {σ : Type} (bus : Bus σ) (ow : OneWire_t σ) :
    (OW_receiveByte bus ow).2 < 256 :=
  bitsToByte_loop_lt 8 _ 0 (by decide)

theorem OW_receiveBytes_spec {σ : Type} (bus : Bus σ) (n : Nat) : ∀ ow : OneWire_t σ,
    (OW_receiveBytes bus n ow).2.length = n ∧ ∀ x ∈ (OW_receiveBytes bus n ow).2, x < 256 := by
  induction n with
  | zero => intro ow; simp [OW_receiveBytes]
  | succ n ih =>
    intro ow
    obtain ⟨h1, h2⟩ := ih (OW_receiveByte bus ow).1
    simp only [OW_receiveBytes, List.length_cons, h1, List.mem_cons, true_and]
    rintro x (rfl | hx)
    · exact OW_receiveByte_lt bus ow
    · exact h2 x hx

theorem DS18B20_getTempRaw_loop_eq {σ : Type} (bus : Bus σ) (n : Nat) :
    ∀ (ow : OneWire_t σ) (data : List Nat) (s : Nat), s < 65536 →
    DS18B20_getTempRaw_loop bus n ow data s
      = ((OW_receiveBytes bus n ow).1, data ++ (OW_receiveBytes bus n ow).2,
          (s + (OW_receiveBytes bus n ow).2.sum) % 65536) := by
  induction n with
  | zero => intro ow data s hs; simp [DS18B20_getTempRaw_loop, OW_receiveBytes]; omega
  | succ n ih =>
    intro ow data s hs
    simp only [DS18B20_getTempRaw_loop, OW_receiveBytes]
    rw [ih _ _ _ (Nat.mod_lt _ (by decide))]
    simp only [List.append_assoc, List.singleton_append, List.sum_cons, Prod.mk.injEq, true_and]
    omega

theorem sum_lt_of_bytes (l : List Nat) (h : ∀ x ∈ l, x < 256) : l.sum < 256 * l.length + 1 := by
  induction l with
  | nil => simp
  | cons a l ih =>
    have ha := h a (List.mem_cons_self _ _)
    have := ih (fun x hx => h x (List.mem_cons_of_mem _ hx))
    simp only [List.sum_cons, List.length_cons]
    omega

theorem sum_eq_zero_iff_all_zero (l : List Nat) : l.sum = 0 ↔ ∀ x ∈ l, x = 0 := by
  induction l with
  | nil => simp
  | cons a l ih => simp [List.sum_cons, ih]

theorem shift_or_bytes (hi lo : Nat) (hlo : lo < 256) : (hi <<< 8) ||| lo = hi * 256 + lo := by
  rw [Nat.shiftLeft_eq, Nat.mul_comm, ← Nat.mul_add_lt_is_or (by simpa using hlo)]

theorem toInt16_range (x : Int) : -32768 ≤ toInt16 x ∧ toInt16 x ≤ 32767 := by
  unfold toInt16; omega

/-- What `DS18B20_getTempRaw` returns for a valid target that answers the
reset, in terms of the nine scratchpad bytes. -/
theorem DS18B20_getTempRaw_eq {σ : Type} (bus : Bus σ) (ds : Ds18B20_t σ) (sensor : Nat)
    (hvalid : sensor < ds.sensors_found ∨ sensor = DS18B20_MEASUREALL)
    (hpres : (OW_reset bus ds.ow).2 ≠ 0) :
    (DS18B20_getTempRaw bus ds sensor).2 =
      if ∀ x ∈ DS18B20_scratchpad bus ds sensor, x = 0 then DS18B20_TEMP_CRC_ERROR
      else if OW_CRC8 (DS18B20_scratchpad bus ds sensor) 8
          ≠ (DS18B20_scratchpad bus ds sensor).getD 8 0 then DS18B20_TEMP_ERROR
      else toInt16 (clearLowBits
            (toInt16 (((DS18B20_scratchpad bus ds sensor).getD 1 0 * 256
              + (DS18B20_scratchpad bus ds sensor).getD 0 0 : Nat) : Int))
            (undefinedLowBits ((DS18B20_scratchpad bus ds sensor).getD 4 0))
          + ds.correction.getD (if sensor = DS18B20_MEASUREALL then 0 else sensor) 0) := by
  have hnot : ¬ (sensor ≠ DS18B20_MEASUREALL ∧ sensor ≥ ds.sensors_found) := by
    rintro ⟨h1, h2⟩; rcases hvalid with h | h
    · omega
    · exact h1 h
  have hspec := OW_receiveBytes_spec bus 9 (DS18B20_request bus ds sensor)
  unfold DS18B20_getTempRaw DS18B20_scratchpad
  rw [if_neg hnot, if_neg hpres]
  simp only [DS18B20_getTempRaw_loop_eq bus 9 _ [] 0 (by decide), List.nil_append, Nat.zero_add]
  have hreq : OW_sendByte bus
      (if sensor = DS18B20_MEASUREALL then OW_sendByte bus (OW_reset bus ds.ow).1 DS18B20_CMD_SKIPROM
        else OW_select bus (OW_reset bus ds.ow).1 (ds.ROMS.getD sensor []))
      OW_CMD_RSCRATCHPAD = DS18B20_request bus ds sensor := rfl
  simp only [hreq]
  generalize OW_receiveBytes bus 9 (DS18B20_request bus ds sensor) = r at hspec ⊢
  obtain ⟨ow1, d⟩ := r
  obtain ⟨hlen, hbytes⟩ := hspec
  simp only at hlen hbytes ⊢
  have hsum := sum_lt_of_bytes _ hbytes
  rw [hlen] at hsum
  have hd0 : d.getD 0 0 < 256 := by
    rw [List.getD_eq_getElem _ _ (by omega)]
    exact hbytes _ (List.getElem_mem _)
  have hs0 : d.sum % 65536 = 0 ↔ ∀ x ∈ d, x = 0 := by
    rw [Nat.mod_eq_of_lt (by omega), sum_eq_zero_iff_all_zero]
  by_cases hz : ∀ x ∈ d, x = 0
  · simp only [hs0, if_pos hz]
  · simp only [hs0, if_neg hz]
    by_cases hc : OW_CRC8 d 8 ≠ d.getD 8 0
    · simp only [if_pos hc]
    · simp only [if_neg hc, shift_or_bytes _ _ hd0]
      obtain ⟨hlo, hhi⟩ := toInt16_range ((d.getD 1 0 * 256 + d.getD 0 0 : Nat) : Int)
      have hmask : ∀ raw : Int, -32768 ≤ raw → raw ≤ 32767 →
          (if d.getD 4 0 &&& 96 = 0 then toInt16 (int_and raw (int_not 7))
            else if d.getD 4 0 &&& 96 = 32 then toInt16 (int_and raw (int_not 3))
            else if d.getD 4 0 &&& 96 = 64 then toInt16 (int_and raw (int_not 1))
            else raw) = clearLowBits raw (undefinedLowBits (d.getD 4 0)) := by
        intro raw h1 h2
        unfold undefinedLowBits
        split
        · exact int_and_clear _ 3 (by decide) h1 h2
        · split
          · exact int_and_clear _ 2 (by decide) h1 h2
          · split
            · exact int_and_clear _ 1 (by decide) h1 h2
            · simp [clearLowBits]
      rw [hmask _ hlo hhi]

/-- Claim C3. For a valid target that answers the reset, when the nine
scratchpad bytes are not all zero and the CRC of the first eight equals the
ninth, `DS18B20_getTempRaw` returns, as a 16-bit two's complement value,
`(raw AND mask) + correction[k]`: `raw` is the signed 16-bit value
`d1 * 256 + d0`, the mask clears the low 3, 2, 1, 0 bits for
`d4 AND 0x60 = 0x00, 0x20, 0x40, 0x60`, and `k` is the sensor index (0 for
`DS18B20_MEASUREALL`); the bits are cleared before the correction is added. -/
theorem DS18B20_getTempRaw_reading {σ : Type} (bus : Bus σ) (ds : Ds18B20_t σ) (sensor : Nat)
    (hvalid : sensor < ds.sensors_found ∨ sensor = DS18B20_MEASUREALL)
    (hpres : (OW_reset bus ds.ow).2 = 1)
    (hnz : ∃ x ∈ DS18B20_scratchpad bus ds sensor, x ≠ 0)
    (hcrc : OW_CRC8 (DS18B20_scratchpad bus ds sensor) 8
      = (DS18B20_scratchpad bus ds sensor).getD 8 0) :
    (DS18B20_getTempRaw bus ds sensor).2 =
      toInt16 (clearLowBits
          (toInt16 (((DS18B20_scratchpad bus ds sensor).getD 1 0 * 256
            + (DS18B20_scratchpad bus ds sensor).getD 0 0 : Nat) : Int))
          (undefinedLowBits ((DS18B20_scratchpad bus ds sensor).getD 4 0))
        + ds.correction.getD (if sensor = DS18B20_MEASUREALL then 0 else sensor) 0) := by
  rw [DS18B20_getTempRaw_eq bus ds sensor hvalid (by omega), if_neg (by simpa using hnz),
    if_neg (by simpa using hcrc)]

set_option maxRecDepth 1000000 in
/-- Witness for C3: scratchpad `50 05 7F FF 7F ..` gives `0x0550` with
correction 0 and `0x0540` with correction -16; raw `0x07D0` and raw `0x07D7`
under a 9-bit configuration byte both give `0x07D0` before the correction
(here 0 and 5) is added. -/
theorem DS18B20_getTempRaw_reading_witness :
    (DS18B20_getTempRaw tapeBus
      (exampleSensors 0 16 [0x50, 0x05, 0x7F, 0xFF, 0x7F, 0xFF, 0x0C, 0x10, 0x91]) 0xFF).2 = 0x0550 ∧
    (DS18B20_getTempRaw tapeBus
      (exampleSensors (-16) 80 [0x50, 0x05, 0x7F, 0xFF, 0x7F, 0xFF, 0x0C, 0x10, 0x91]) 0).2
        = 0x0540 ∧
    (DS18B20_getTempRaw tapeBus
      (exampleSensors 0 16 [0xD0, 0x07, 0x7F, 0xFF, 0x1F, 0xFF, 0x0C, 0x10, 0xE9]) 0xFF).2 = 0x07D0 ∧
    (DS18B20_getTempRaw tapeBus
      (exampleSensors 5 16 [0xD7, 0x07, 0x7F, 0xFF, 0x1F, 0xFF, 0x0C, 0x10, 0x39]) 0xFF).2
        = 0x07D5 :=
  ⟨(DS18B20_getTempRaw_reading tapeBus _ 0xFF (Or.inr rfl) (by decide) (by decide)
      (by decide)).trans (by decide),
   (DS18B20_getTempRaw_reading tapeBus _ 0 (Or.inl (by decide)) (by decide) (by decide)
      (by decide)).trans (by decide),
   (DS18B20_getTempRaw_reading tapeBus _ 0xFF (Or.inr rfl) (by decide) (by decide)
      (by decide)).trans (by decide),
   (DS18B20_getTempRaw_reading tapeBus _ 0xFF (Or.inr rfl) (by decide) (by decide)
      (by decide)).trans (by decide)⟩

/-- Claim C9. For a valid target that answers the reset, when the nine
scratchpad bytes are not all zero and the CRC of the first eight differs from
the ninth, `DS18B20_getTempRaw` returns `DS18B20_TEMP_ERROR` whatever
corrections `corr` are stored. -/
theorem DS18B20_getTempRaw_crc_mismatch {σ : Type} (bus : Bus σ) (ds : Ds18B20_t σ)
    (sensor : Nat) (corr : List Int)
    (hvalid : sensor < ds.sensors_found ∨ sensor = DS18B20_MEASUREALL)
    (hpres : (OW_reset bus ds.ow).2 = 1)
    (hnz : ∃ x ∈ DS18B20_scratchpad bus ds sensor, x ≠ 0)
    (hcrc : OW_CRC8 (DS18B20_scratchpad bus ds sensor) 8
      ≠ (DS18B20_scratchpad bus ds sensor).getD 8 0) :
    (DS18B20_getTempRaw bus { ds with correction := corr } sensor).2 = DS18B20_TEMP_ERROR := by
  have hsp : DS18B20_scratchpad bus { ds with correction := corr } sensor
      = DS18B20_scratchpad bus ds sensor := rfl
  have h := DS18B20_getTempRaw_eq bus { ds with correction := corr } sensor hvalid
    (by show (OW_reset bus ds.ow).2 ≠ 0; omega)
  rw [h, hsp, if_neg (by simpa using hnz), if_pos hcrc]

set_option maxRecDepth 1000000 in
/-- Witness for C9: a scratchpad with a wrong ninth byte and a stored
correction of 1500 still reads as -1500. -/
theorem DS18B20_getTempRaw_crc_mismatch_witness :
    (DS18B20_getTempRaw tapeBus
      { exampleSensors 0 16 [0x50, 0x05, 0x7F, 0xFF, 0x7F, 0xFF, 0x0C, 0x10, 0x90]
        with correction := [1500, 0, 0] } 0xFF).2 = -1500 :=
  DS18B20_getTempRaw_crc_mismatch tapeBus
    (exampleSensors 0 16 [0x50, 0x05, 0x7F, 0xFF, 0x7F, 0xFF, 0x0C, 0x10, 0x90]) 0xFF
    [1500, 0, 0] (Or.inr rfl) (by decide) (by decide) (by decide)

/-- Claim C8, amended. For a valid target that answers the reset: if all nine
scratchpad bytes are zero the result is `DS18B20_TEMP_CRC_ERROR`, not 0 and
not `DS18B20_TEMP_ERROR`; and a scratchpad that is not all zero yields the
value -1550 only on the success path, when its CRC matches and
`(raw AND mask) + correction` is -1550 as a 16-bit value (so the zero-sum
test never fires on it). -/
theorem DS18B20_getTempRaw_degenerate {σ : Type} (bus : Bus σ) (ds : Ds18B20_t σ)
    (sensor : Nat)
    (hvalid : sensor < ds.sensors_found ∨ sensor = DS18B20_MEASUREALL)
    (hpres : (OW_reset bus ds.ow).2 = 1) :
    ((∀ x ∈ DS18B20_scratchpad bus ds sensor, x = 0) →
      (DS18B20_getTempRaw bus ds sensor).2 = DS18B20_TEMP_CRC_ERROR ∧
      (DS18B20_getTempRaw bus ds sensor).2 ≠ 0 ∧
      (DS18B20_getTempRaw bus ds sensor).2 ≠ DS18B20_TEMP_ERROR) ∧
    ((DS18B20_getTempRaw bus ds sensor).2 = DS18B20_TEMP_CRC_ERROR →
      (∃ x ∈ DS18B20_scratchpad bus ds sensor, x ≠ 0) →
      OW_CRC8 (DS18B20_scratchpad bus ds sensor) 8
          = (DS18B20_scratchpad bus ds sensor).getD 8 0 ∧
      toInt16 (clearLowBits
          (toInt16 (((DS18B20_scratchpad bus ds sensor).getD 1 0 * 256
            + (DS18B20_scratchpad bus ds sensor).getD 0 0 : Nat) : Int))
          (undefinedLowBits ((DS18B20_scratchpad bus ds sensor).getD 4 0))
        + ds.correction.getD (if sensor = DS18B20_MEASUREALL then 0 else sensor) 0)
        = DS18B20_TEMP_CRC_ERROR) := by
  have heq := DS18B20_getTempRaw_eq bus ds sensor hvalid (by omega)
  constructor
  · intro hz
    rw [heq, if_pos hz]
    decide
  · intro hres hnz
    rw [heq, if_neg (by simpa using hnz)] at hres
    by_cases hc : OW_CRC8 (DS18B20_scratchpad bus ds sensor) 8
        ≠ (DS18B20_scratchpad bus ds sensor).getD 8 0
    · rw [if_pos hc] at hres
      exact absurd hres (by decide)
    · rw [if_neg hc] at hres
      exact ⟨not_not.mp hc, hres⟩

set_option maxRecDepth 1000000 in
/-- Witness for C8: the all-zero scratchpad reads as -1550. -/
theorem DS18B20_getTempRaw_degenerate_witness :
    (DS18B20_getTempRaw tapeBus (exampleSensors 0 16 (List.replicate 9 0)) 0xFF).2 = -1550 :=
  ((DS18B20_getTempRaw_degenerate tapeBus (exampleSensors 0 16 (List.replicate 9 0)) 0xFF
    (Or.inr rfl) (by decide)).1 (by decide)).1

set_option maxRecDepth 1000000 in
/-- Counterexample to C8 as stated: the scratchpad `F2 F9 7F FF 7F FF 0C 10 6C`
is not all zero and has a matching CRC, its raw value `0xF9F2` is -1550, and
with correction 0 `DS18B20_getTempRaw` returns `DS18B20_TEMP_CRC_ERROR`. -/
theorem DS18B20_getTempRaw_degenerate_counterexample :
    (OW_reset tapeBus
      (exampleSensors 0 16 [0xF2, 0xF9, 0x7F, 0xFF, 0x7F, 0xFF, 0x0C, 0x10, 0x6C]).ow).2 = 1 ∧
    DS18B20_scratchpad tapeBus
      (exampleSensors 0 16 [0xF2, 0xF9, 0x7F, 0xFF, 0x7F, 0xFF, 0x0C, 0x10, 0x6C]) 0xFF
        = [0xF2, 0xF9, 0x7F, 0xFF, 0x7F, 0xFF, 0x0C, 0x10, 0x6C] ∧
    (¬ ∀ x ∈ DS18B20_scratchpad tapeBus
      (exampleSensors 0 16 [0xF2, 0xF9, 0x7F, 0xFF, 0x7F, 0xFF, 0x0C, 0x10, 0x6C]) 0xFF, x = 0) ∧
    (DS18B20_getTempRaw tapeBus
      (exampleSensors 0 16 [0xF2, 0xF9, 0x7F, 0xFF, 0x7F, 0xFF, 0x0C, 0x10, 0x6C]) 0xFF).2
        = DS18B20_TEMP_CRC_ERROR := by
  decide

/-- Claim C10, amended. The three error values are pairwise distinct, and for
a valid target that answers the reset with a scratchpad that passes the
zero-sum and CRC tests, if `(raw AND mask) + correction` lies in the range of
the device, -880 to 2000, the value returned is none of the three. -/
theorem DS18B20_getTempRaw_sentinels {σ : Type} (bus : Bus σ) (ds : Ds18B20_t σ)
    (sensor : Nat)
    (hvalid : sensor < ds.sensors_found ∨ sensor = DS18B20_MEASUREALL)
    (hpres : (OW_reset bus ds.ow).2 = 1)
    (hnz : ∃ x ∈ DS18B20_scratchpad bus ds sensor, x ≠ 0)
    (hcrc : OW_CRC8 (DS18B20_scratchpad bus ds sensor) 8
      = (DS18B20_scratchpad bus ds sensor).getD 8 0)
    (hlo : -880 ≤ clearLowBits
          (toInt16 (((DS18B20_scratchpad bus ds sensor).getD 1 0 * 256
            + (DS18B20_scratchpad bus ds sensor).getD 0 0 : Nat) : Int))
          (undefinedLowBits ((DS18B20_scratchpad bus ds sensor).getD 4 0))
        + ds.correction.getD (if sensor = DS18B20_MEASUREALL then 0 else sensor) 0)
    (hhi : clearLowBits
          (toInt16 (((DS18B20_scratchpad bus ds sensor).getD 1 0 * 256
            + (DS18B20_scratchpad bus ds sensor).getD 0 0 : Nat) : Int))
          (undefinedLowBits ((DS18B20_scratchpad bus ds sensor).getD 4 0))
        + ds.correction.getD (if sensor = DS18B20_MEASUREALL then 0 else sensor) 0 ≤ 2000) :
    (DS18B20_TEMP_NOT_READ ≠ DS18B20_TEMP_ERROR ∧
      DS18B20_TEMP_NOT_READ ≠ DS18B20_TEMP_CRC_ERROR ∧
      DS18B20_TEMP_ERROR ≠ DS18B20_TEMP_CRC_ERROR) ∧
    (DS18B20_getTempRaw bus ds sensor).2 ≠ DS18B20_TEMP_NOT_READ ∧
    (DS18B20_getTempRaw bus ds sensor).2 ≠ DS18B20_TEMP_ERROR ∧
    (DS18B20_getTempRaw bus ds sensor).2 ≠ DS18B20_TEMP_CRC_ERROR := by
  refine ⟨by decide, ?_⟩
  rw [DS18B20_getTempRaw_eq bus ds sensor hvalid (by omega), if_neg (by simpa using hnz),
    if_neg (by simpa using hcrc)]
  generalize clearLowBits _ _ + _ = v at hlo hhi
  simp only [toInt16, DS18B20_TEMP_NOT_READ, DS18B20_TEMP_ERROR, DS18B20_TEMP_CRC_ERROR]
  omega

set_option maxRecDepth 1000000 in
/-- Witness for C10: raw `0xFC90` (-880) with correction 8. -/
theorem DS18B20_getTempRaw_sentinels_witness :
    (DS18B20_getTempRaw tapeBus
      (exampleSensors 8 16 [0x90, 0xFC, 0x7F, 0xFF, 0x7F, 0xFF, 0x0C, 0x10, 0xC2]) 0xFF).2
        ≠ DS18B20_TEMP_NOT_READ :=
  (DS18B20_getTempRaw_sentinels tapeBus
      (exampleSensors 8 16 [0x90, 0xFC, 0x7F, 0xFF, 0x7F, 0xFF, 0x0C, 0x10, 0xC2]) 0xFF
      (Or.inr rfl) (by decide) (by decide) (by decide) (by decide) (by decide)).2.1

set_option maxRecDepth 1000000 in
/-- Counterexample to C10 as stated: the scratchpad `18 FC 7F FF 7F FF 0C 10 7A`
passes the zero-sum and CRC tests, and with correction 0 the value returned
on the success path is -1000, which is `DS18B20_TEMP_NOT_READ`. -/
theorem DS18B20_getTempRaw_sentinels_counterexample :
    (OW_reset tapeBus
      (exampleSensors 0 16 [0x18, 0xFC, 0x7F, 0xFF, 0x7F, 0xFF, 0x0C, 0x10, 0x7A]).ow).2 = 1 ∧
    (∃ x ∈ DS18B20_scratchpad tapeBus
      (exampleSensors 0 16 [0x18, 0xFC, 0x7F, 0xFF, 0x7F, 0xFF, 0x0C, 0x10, 0x7A]) 0xFF, x ≠ 0) ∧
    OW_CRC8 (DS18B20_scratchpad tapeBus
      (exampleSensors 0 16 [0x18, 0xFC, 0x7F, 0xFF, 0x7F, 0xFF, 0x0C, 0x10, 0x7A]) 0xFF) 8
      = (DS18B20_scratchpad tapeBus
      (exampleSensors 0 16 [0x18, 0xFC, 0x7F, 0xFF, 0x7F, 0xFF, 0x0C, 0x10, 0x7A]) 0xFF).getD 8 0 ∧
    (DS18B20_getTempRaw tapeBus
      (exampleSensors 0 16 [0x18, 0xFC, 0x7F, 0xFF, 0x7F, 0xFF, 0x0C, 0x10, 0x7A]) 0xFF).2
        = DS18B20_TEMP_NOT_READ := by
  decide

/-! ### ROM search -/

theorem and_two_pow_pos (x k : Nat) : (x &&& 2 ^ k > 0) ↔ x.testBit k = true := by
  rw [Nat.and_two_pow]
  cases h : x.testBit k <;> simp [Nat.two_pow_pos]

theorem testBit_or_two_pow (x k m : Nat) :
    (x ||| 2 ^ k).testBit m = (x.testBit m || decide (k = m)) := by
  rw [Nat.testBit_or, Nat.testBit_two_pow]

theorem testBit_and_not_two_pow (x k m : Nat) (hm : m < 8) :
    (x &&& (0xFF ^^^ 2 ^ k)).testBit m = (x.testBit m && !decide (k = m)) := by
  rw [Nat.testBit_and, Nat.testBit_xor, Nat.testBit_two_pow]
  have : (0xFF : Nat).testBit m = true := by
    have := Nat.testBit_two_pow_sub_one 8 m
    simpa [hm] using this
  rw [this]
  cases decide (k = m) <;> simp

theorem mask_shift (i : Nat) :
    (2 ^ (i % 8) <<< 1) % 256 = if i % 8 = 7 then 0 else 2 ^ ((i + 1) % 8) := by
  have h : i % 8 < 8 := Nat.mod_lt _ (by decide)
  have h2 : (i + 1) % 8 = (i % 8 + 1) % 8 := by omega
  rw [h2]
  generalize i % 8 = k at h ⊢
  interval_cases k <;> decide

/-- One iteration of the search loop that does not leave through `break`, in
terms of the two bits read and the direction `dir` it writes. -/
theorem OW_search_body_spec {σ : Type} (bus : Bus σ) (ow : OneWire_t σ) (v : SearchLocals)
    (id_bit cmp_id_bit dir : Nat)
    (h1 : (OW_receiveBit bus ow).2 = id_bit)
    (h2 : (OW_receiveBit bus (OW_receiveBit bus ow).1).2 = cmp_id_bit)
    (h : ¬ (id_bit = 1 ∧ cmp_id_bit = 1))
    (hdir : dir = if id_bit ≠ cmp_id_bit then id_bit
      else if v.id_bit_number < ow.LastDiscrepancy then
        (if (ow.ROM_NO.getD v.rom_byte_number 0 &&& v.rom_byte_mask) > 0 then 1 else 0)
      else (if v.id_bit_number = ow.LastDiscrepancy then 1 else 0)) :
    (OW_search_body bus ow v).2 = false ∧
    (OW_search_body bus ow v).1.2 =
      { id_bit_number := (v.id_bit_number + 1) % 256,
        last_zero := if id_bit = cmp_id_bit ∧ dir = 0 then v.id_bit_number else v.last_zero,
        rom_byte_number := if (v.rom_byte_mask <<< 1) % 256 = 0
          then (v.rom_byte_number + 1) % 256 else v.rom_byte_number,
        rom_byte_mask := if (v.rom_byte_mask <<< 1) % 256 = 0
          then 1 else (v.rom_byte_mask <<< 1) % 256 } ∧
    (OW_search_body bus ow v).1.1.ROM_NO = List.set ow.ROM_NO v.rom_byte_number
      (if dir = 1 then ow.ROM_NO.getD v.rom_byte_number 0 ||| v.rom_byte_mask
        else ow.ROM_NO.getD v.rom_byte_number 0 &&& (0xFF ^^^ v.rom_byte_mask)) ∧
    (OW_search_body bus ow v).1.1.LastDiscrepancy = ow.LastDiscrepancy ∧
    (OW_search_body bus ow v).1.1.LastDeviceFlag = ow.LastDeviceFlag ∧
    (OW_search_body bus ow v).1.1.huart
      = (HAL_UART_exchange bus (OW_receiveBit bus (OW_receiveBit bus ow).1).1.huart
          (if dir ≠ 0 then WIRE_1 else WIRE_0)).1 := by
  subst h1 h2
  have hR1 : ∀ o : OneWire_t σ, (OW_receiveBit bus o).1.ROM_NO = o.ROM_NO := fun _ => rfl
  have hL1 : ∀ o : OneWire_t σ, (OW_receiveBit bus o).1.LastDiscrepancy = o.LastDiscrepancy :=
    fun _ => rfl
  unfold OW_search_body
  simp only [if_neg h]
  by_cases hm : (v.rom_byte_mask <<< 1) % 256 = 0
  · by_cases hne : (OW_receiveBit bus ow).2 ≠ (OW_receiveBit bus (OW_receiveBit bus ow).1).2
    · simp only [if_pos hne] at hdir ⊢
      subst hdir
      have hne2 : ¬ ((OW_receiveBit bus ow).2 = (OW_receiveBit bus (OW_receiveBit bus ow).1).2 ∧
          (OW_receiveBit bus ow).2 = 0) := fun hh => hne hh.1
      simp only [if_neg hne2, if_pos hm]
      and_intros <;> trivial
    · have heq := not_not.mp hne
      simp only [if_neg hne, hR1, hL1] at hdir ⊢
      rw [← hdir]
      by_cases hd0 : dir = 0
      · simp only [if_pos hd0, heq, true_and, if_pos hm]
        split <;> and_intros <;> trivial
      · simp only [if_neg hd0, heq, true_and, and_false, if_pos hm]
        and_intros <;> trivial
  · by_cases hne : (OW_receiveBit bus ow).2 ≠ (OW_receiveBit bus (OW_receiveBit bus ow).1).2
    · simp only [if_pos hne] at hdir ⊢
      subst hdir
      have hne2 : ¬ ((OW_receiveBit bus ow).2 = (OW_receiveBit bus (OW_receiveBit bus ow).1).2 ∧
          (OW_receiveBit bus ow).2 = 0) := fun hh => hne hh.1
      simp only [if_neg hne2, if_neg hm]
      and_intros <;> trivial
    · have heq := not_not.mp hne
      simp only [if_neg hne, hR1, hL1] at hdir ⊢
      rw [← hdir]
      by_cases hd0 : dir = 0
      · simp only [if_pos hd0, heq, true_and, if_neg hm]
        split <;> and_intros <;> trivial
      · simp only [if_neg hd0, heq, true_and, and_false, if_neg hm]
        and_intros <;> trivial

theorem searchLocalsAt_step (i lz : Nat) (hi : i < 64) :
    ({ id_bit_number := ((searchLocalsAt i 0).id_bit_number + 1) % 256,
       last_zero := lz,
       rom_byte_number := if ((searchLocalsAt i 0).rom_byte_mask <<< 1) % 256 = 0
          then ((searchLocalsAt i 0).rom_byte_number + 1) % 256
          else (searchLocalsAt i 0).rom_byte_number,
       rom_byte_mask := if ((searchLocalsAt i 0).rom_byte_mask <<< 1) % 256 = 0
          then 1 else ((searchLocalsAt i 0).rom_byte_mask <<< 1) % 256 } : SearchLocals)
      = searchLocalsAt (i + 1) lz := by
  simp only [searchLocalsAt, mask_shift]
  have hpos : 2 ^ ((i + 1) % 8) ≠ 0 := Nat.pos_iff_ne_zero.mp (Nat.two_pow_pos _)
  by_cases h7 : i % 8 = 7
  · have h0 : (i + 1) % 8 = 0 := by omega
    simp only [if_pos h7, if_true, h0, pow_zero]
    congr 1 <;> omega
  · simp only [if_neg h7, if_neg hpos]
    congr 1 <;> omega

theorem OW_search_body_locals {σ : Type} (bus : Bus σ) (ow : OneWire_t σ) (i lz : Nat)
    (hi : i < 64) :
    (OW_search_body bus ow (searchLocalsAt i lz)).2 = true ∨
    ((OW_search_body bus ow (searchLocalsAt i lz)).2 = false ∧
      ∃ lz2, (OW_search_body bus ow (searchLocalsAt i lz)).1.2 = searchLocalsAt (i + 1) lz2) := by
  by_cases hb : (OW_receiveBit bus ow).2 = 1 ∧ (OW_receiveBit bus (OW_receiveBit bus ow).1).2 = 1
  · left
    unfold OW_search_body; simp only [if_pos hb]
  · right
    obtain ⟨h1, h2, _⟩ := OW_search_body_spec bus ow (searchLocalsAt i lz) _ _ _ rfl rfl hb rfl
    exact ⟨h1, _, h2.trans (searchLocalsAt_step i _ hi)⟩

theorem OW_search_loop_isSome {σ : Type} (bus : Bus σ) (n : Nat) :
    ∀ (i : Nat) (ow : OneWire_t σ) (lz : Nat), i + n = 64 → 0 < n →
      (OW_search_loop bus n ow (searchLocalsAt i lz)).isSome = true := by
  induction n with
  | zero => intro i ow lz _ h; omega
  | succ n ih =>
    intro i ow lz hin _
    rw [OW_search_loop]
    rcases OW_search_body_locals bus ow i lz (by omega) with hb | ⟨hb, lz2, hv⟩
    · simp only [hb, if_true, Option.isSome_some]
    · simp only [hb, hv, Bool.false_eq_true, if_false]
      by_cases hlt : (searchLocalsAt (i + 1) lz2).rom_byte_number < 8
      · rw [if_pos hlt]
        apply ih (i + 1) _ _ (by omega)
        simp only [searchLocalsAt] at hlt
        omega
      · rw [if_neg hlt]; rfl

theorem OW_search_isSome {σ : Type} (bus : Bus σ) (ow : OneWire_t σ) (command : Nat) :
    (OW_search bus ow command).isSome = true := by
  have hl := OW_search_loop_isSome bus 64 0 (OW_sendByte bus (OW_reset bus ow).1 command) 0
    rfl (by decide)
  obtain ⟨p, hp⟩ := Option.isSome_iff_exists.mp hl
  have hp2 : OW_search_loop bus 64 (OW_sendByte bus (OW_reset bus ow).1 command)
      { id_bit_number := 1, last_zero := 0, rom_byte_number := 0, rom_byte_mask := 1 }
      = some p := hp
  unfold OW_search
  simp only [hp2]
  by_cases h1 : ow.LastDeviceFlag = 0
  · rw [if_pos h1]
    by_cases h2 : (OW_reset bus ow).2 = 0
    · rw [if_pos h2]; rfl
    · rw [if_neg h2]
      by_cases h3 : ¬ p.2.id_bit_number < 65
      · rw [if_pos h3]; rfl
      · rw [if_neg h3]; rfl
  · rw [if_neg h1]; rfl

theorem sim_receiveBit_searchBit (ow : OneWire_t SimWire) (devs A : List (List Nat)) (i : Nat)
    (hw : ow.huart.wire = { devices := devs, active := A, phase := SimPhase.searchBit i })
    (hb : ow.huart.BaudRate = 115200) :
    (OW_receiveBit simBus ow).2 = (if A.all (fun rom => romBit rom i) then 1 else 0) ∧
    (OW_receiveBit simBus ow).1.huart.wire
      = { devices := devs, active := A, phase := SimPhase.searchCmp i } ∧
    (OW_receiveBit simBus ow).1.huart.BaudRate = 115200 := by
  refine ⟨?_, ?_, hb⟩
  · simp only [OW_receiveBit, HAL_UART_exchange, simBus, hw, hb, OW_RESET_SPEED, Rx.buffer]
    by_cases h : A.all (fun rom => romBit rom i) = true <;> simp [h]
  · simp only [OW_receiveBit, HAL_UART_exchange, simBus, hw, hb, OW_RESET_SPEED]
    simp

theorem sim_receiveBit_searchCmp (ow : OneWire_t SimWire) (devs A : List (List Nat)) (i : Nat)
    (hw : ow.huart.wire = { devices := devs, active := A, phase := SimPhase.searchCmp i })
    (hb : ow.huart.BaudRate = 115200) :
    (OW_receiveBit simBus ow).2 = (if A.all (fun rom => !romBit rom i) then 1 else 0) ∧
    (OW_receiveBit simBus ow).1.huart.wire
      = { devices := devs, active := A, phase := SimPhase.searchDir i } ∧
    (OW_receiveBit simBus ow).1.huart.BaudRate = 115200 := by
  refine ⟨?_, ?_, hb⟩
  · simp only [OW_receiveBit, HAL_UART_exchange, simBus, hw, hb, OW_RESET_SPEED, Rx.buffer]
    by_cases h : A.all (fun rom => !romBit rom i) = true <;> simp [h]
  · simp only [OW_receiveBit, HAL_UART_exchange, simBus, hw, hb, OW_RESET_SPEED]
    simp

theorem sim_exchange_searchDir (h : UART_HandleTypeDef SimWire) (devs A : List (List Nat))
    (i : Nat) (b : Bool)
    (hw : h.wire = { devices := devs, active := A, phase := SimPhase.searchDir i })
    (hb : h.BaudRate = 115200) :
    (HAL_UART_exchange simBus h (if b.toNat ≠ 0 then WIRE_1 else WIRE_0)).1.wire
      = { devices := devs, active := A.filter (fun rom => romBit rom i == b),
          phase := if i + 1 < 64 then SimPhase.searchBit (i + 1) else SimPhase.idle } ∧
    (HAL_UART_exchange simBus h (if b.toNat ≠ 0 then WIRE_1 else WIRE_0)).1.BaudRate = 115200 := by
  refine ⟨?_, hb⟩
  simp only [HAL_UART_exchange, simBus, hw, hb, OW_RESET_SPEED]
  cases b <;> simp [WIRE_1, WIRE_0]

theorem romBit_set (rom : List Nat) (i j : Nat) (b : Bool) (hlen : rom.length = 8)
    (hi : i < 64) :
    romBit (List.set rom (i / 8)
      (if b.toNat = 1 then rom.getD (i / 8) 0 ||| 2 ^ (i % 8)
        else rom.getD (i / 8) 0 &&& (0xFF ^^^ 2 ^ (i % 8)))) j
      = if j = i then b else romBit rom j := by
  unfold romBit
  have hi8 : i / 8 < rom.length := by omega
  by_cases hbyte : j / 8 = i / 8
  · have hget : ∀ x : Nat, (List.set rom (i / 8) x).getD (j / 8) 0 = x := by
      intro x
      rw [hbyte, List.getD_eq_getElem _ _ (by simpa using hi8)]
      simp
    rw [hget]
    have hj8 : j % 8 < 8 := Nat.mod_lt _ (by decide)
    by_cases hji : j = i
    · subst hji
      cases b
      · simp [testBit_and_not_two_pow _ _ _ hj8]
      · simp [testBit_or_two_pow]
    · have hne : i % 8 ≠ j % 8 := by omega
      rw [if_neg hji, hbyte]
      cases b
      · simp [testBit_and_not_two_pow _ _ _ hj8, hne]
      · simp [testBit_or_two_pow, hne]
  · have hji : j ≠ i := fun h => hbyte (by rw [h])
    rw [if_neg hji]
    congr 1
    simp only [List.getD_eq_getElem?_getD]
    rw [List.getElem?_set_ne (Ne.symm hbyte)]

theorem rom_set_lt (rom : List Nat) (k m : Nat) (b : Bool) (hm : m < 8)
    (h : ∀ x ∈ rom, x < 256) :
    ∀ x ∈ List.set rom k
      (if b.toNat = 1 then rom.getD k 0 ||| 2 ^ m else rom.getD k 0 &&& (0xFF ^^^ 2 ^ m)),
      x < 256 := by
  intro x hx
  have hk : rom.getD k 0 < 2 ^ 8 := by
    rw [List.getD_eq_getElem?_getD]
    cases hg : rom[k]? with
    | none => simp
    | some y => exact h y (List.getElem?_mem hg)
  rcases List.mem_or_eq_of_mem_set hx with hx | hx
  · exact h x hx
  · subst hx
    split
    · exact Nat.or_lt_two_pow hk (Nat.pow_lt_pow_right (by decide) hm)
    · exact lt_of_le_of_lt Nat.and_le_left hk

theorem search_direction_eq (A : List (List Nat)) (t rom : List Nat) (i LD : Nat) (ht : t ∈ A)
    (hrule : A.any (fun q => romBit q i != romBit t i) = true →
      (i + 1 < LD → romBit rom i = romBit t i) ∧ (i + 1 = LD → romBit t i = true) ∧
      (LD < i + 1 → romBit t i = false)) :
    ¬ ((if A.all (fun q => romBit q i) then 1 else 0) = 1 ∧
       (if A.all (fun q => !romBit q i) then 1 else 0) = 1) ∧
    (romBit t i).toNat =
      (if (if A.all (fun q => romBit q i) then 1 else 0)
          ≠ (if A.all (fun q => !romBit q i) then 1 else 0)
        then (if A.all (fun q => romBit q i) then 1 else 0)
        else if i + 1 < LD then (if (rom.getD (i / 8) 0 &&& 2 ^ (i % 8)) > 0 then 1 else 0)
        else (if i + 1 = LD then 1 else 0)) ∧
    (((if A.all (fun q => romBit q i) then 1 else 0)
        = (if A.all (fun q => !romBit q i) then 1 else 0) ∧ (romBit t i).toNat = 0)
      ↔ (A.any (fun q => romBit q i != romBit t i) && !romBit t i) = true) := by
  have hbit : ((rom.getD (i / 8) 0 &&& 2 ^ (i % 8)) > 0) ↔ romBit rom i = true :=
    and_two_pow_pos _ _
  have hall1 : A.all (fun q => romBit q i) = true → romBit t i = true :=
    fun h => List.all_eq_true.mp h t ht
  have hall0 : A.all (fun q => !romBit q i) = true → romBit t i = false := by
    intro h
    have := List.all_eq_true.mp h t ht
    simpa using this
  cases hb : romBit t i
  · -- the target has a zero here
    have h1 : A.all (fun q => romBit q i) = false := by
      cases h : A.all (fun q => romBit q i)
      · rfl
      · rw [hall1 h] at hb; exact absurd hb (by decide)
    by_cases h0 : A.all (fun q => !romBit q i) = true
    · have hany : A.any (fun q => romBit q i != false) = false := by
        rw [List.any_eq_false]
        intro q hq
        have := List.all_eq_true.mp h0 q hq
        simpa using this
      simp only [h1, h0, hany]
      simp
    · have h0f : A.all (fun q => !romBit q i) = false := by simpa using h0
      have hany : A.any (fun q => romBit q i != false) = true := by
        rw [List.all_eq_false] at h0f
        obtain ⟨q, hq, hq2⟩ := h0f
        exact List.any_eq_true.mpr ⟨q, hq, by simpa using hq2⟩
      rw [hb] at hrule
      obtain ⟨r1, r2, r3⟩ := hrule hany
      simp only [h1, h0f, hany]
      refine ⟨by decide, ?_, by decide⟩
      by_cases c1 : i + 1 < LD
      · have : ¬ ((rom.getD (i / 8) 0 &&& 2 ^ (i % 8)) > 0) := by
          rw [hbit, r1 c1]; decide
        simp only [Bool.false_eq_true, if_false, ne_eq, not_true_eq_false, if_pos c1,
          if_neg this, Bool.toNat_false]
      · by_cases c2 : i + 1 = LD
        · exact absurd (r2 c2) (by decide)
        · simp [c1, c2]
  · -- the target has a one here
    have h0 : A.all (fun q => !romBit q i) = false := by
      cases h : A.all (fun q => !romBit q i)
      · rfl
      · rw [hall0 h] at hb; exact absurd hb (by decide)
    by_cases h1 : A.all (fun q => romBit q i) = true
    · simp only [h1, h0]
      simp
    · have h1f : A.all (fun q => romBit q i) = false := by simpa using h1
      have hany : A.any (fun q => romBit q i != true) = true := by
        rw [List.all_eq_false] at h1f
        obtain ⟨q, hq, hq2⟩ := h1f
        exact List.any_eq_true.mpr ⟨q, hq, by simpa using hq2⟩
      rw [hb] at hrule
      obtain ⟨r1, r2, r3⟩ := hrule hany
      simp only [h1f, h0, hany]
      refine ⟨by decide, ?_, by decide⟩
      by_cases c1 : i + 1 < LD
      · have : (rom.getD (i / 8) 0 &&& 2 ^ (i % 8)) > 0 := by
          rw [hbit, r1 c1]
        simp only [Bool.false_eq_true, if_false, ne_eq, not_true_eq_false, if_pos c1,
          if_pos this, Bool.toNat_true]
      · by_cases c2 : i + 1 = LD
        · simp [c2]
        · exact absurd (r3 (by omega)) (by decide)

theorem sim_search_body (devs A : List (List Nat)) (t : List Nat) (ow : OneWire_t SimWire)
    (i lz LD : Nat)
    (hw : ow.huart.wire = { devices := devs, active := A, phase := SimPhase.searchBit i })
    (hb : ow.huart.BaudRate = 115200) (ht : t ∈ A) (hi : i < 64)
    (hlen : ow.ROM_NO.length = 8) (hLD : ow.LastDiscrepancy = LD)
    (hrule : A.any (fun q => romBit q i != romBit t i) = true →
      (i + 1 < LD → romBit ow.ROM_NO i = romBit t i) ∧ (i + 1 = LD → romBit t i = true) ∧
      (LD < i + 1 → romBit t i = false)) :
    (OW_search_body simBus ow (searchLocalsAt i lz)).2 = false ∧
    (OW_search_body simBus ow (searchLocalsAt i lz)).1.2 = searchLocalsAt (i + 1)
      (if (A.any (fun q => romBit q i != romBit t i) && !romBit t i) = true
        then i + 1 else lz) ∧
    (∀ j, romBit (OW_search_body simBus ow (searchLocalsAt i lz)).1.1.ROM_NO j
      = if j = i then romBit t i else romBit ow.ROM_NO j) ∧
    (OW_search_body simBus ow (searchLocalsAt i lz)).1.1.ROM_NO.length = 8 ∧
    ((∀ x ∈ ow.ROM_NO, x < 256) →
      ∀ x ∈ (OW_search_body simBus ow (searchLocalsAt i lz)).1.1.ROM_NO, x < 256) ∧
    (OW_search_body simBus ow (searchLocalsAt i lz)).1.1.LastDiscrepancy = LD ∧
    (OW_search_body simBus ow (searchLocalsAt i lz)).1.1.LastDeviceFlag = ow.LastDeviceFlag ∧
    (OW_search_body simBus ow (searchLocalsAt i lz)).1.1.huart.wire
      = { devices := devs, active := A.filter (fun q => romBit q i == romBit t i),
          phase := if i + 1 < 64 then SimPhase.searchBit (i + 1) else SimPhase.idle } ∧
    (OW_search_body simBus ow (searchLocalsAt i lz)).1.1.huart.BaudRate = 115200 := by
  obtain ⟨h1v, h1w, h1b⟩ := sim_receiveBit_searchBit ow devs A i hw hb
  obtain ⟨h2v, h2w, h2b⟩ :=
    sim_receiveBit_searchCmp (OW_receiveBit simBus ow).1 devs A i h1w h1b
  obtain ⟨k1, k2, k3⟩ := search_direction_eq A t ow.ROM_NO i LD ht hrule
  obtain ⟨s1, s2, s3, s4, s5, s6⟩ := OW_search_body_spec simBus ow (searchLocalsAt i lz)
    _ _ (romBit t i).toNat h1v h2v k1 (by rw [hLD]; exact k2)
  obtain ⟨e1, e2⟩ := sim_exchange_searchDir
    (OW_receiveBit simBus (OW_receiveBit simBus ow).1).1.huart devs A i (romBit t i) h2w h2b
  refine ⟨s1, ?_, ?_, ?_, ?_, s4.trans hLD, s5, s6 ▸ e1, s6 ▸ e2⟩
  · rw [s2]
    have := searchLocalsAt_step i
      (if (A.any (fun q => romBit q i != romBit t i) && !romBit t i) = true
        then i + 1 else lz) hi
    rw [← this]
    congr 1
    by_cases hz : (A.any (fun q => romBit q i != romBit t i) && !romBit t i) = true
    · rw [if_pos hz, if_pos (k3.mpr hz)]; rfl
    · rw [if_neg hz, if_neg (fun h => hz (k3.mp h))]; rfl
  · intro j
    rw [s3]
    exact romBit_set ow.ROM_NO i j (romBit t i) hlen hi
  · rw [s3]; simpa using hlen
  · intro hx
    rw [s3]
    exact rom_set_lt ow.ROM_NO (i / 8) (i % 8) (romBit t i) (Nat.mod_lt _ (by decide)) hx

theorem agreeUpTo_self (t : List Nat) (i : Nat) : agreeUpTo t i t = true := by
  simp [agreeUpTo]

theorem agreeUpTo_succ (t q : List Nat) (i : Nat) :
    agreeUpTo t (i + 1) q = ((romBit q i == romBit t i) && agreeUpTo t i q) := by
  simp only [agreeUpTo, List.range_succ, List.all_append, List.all_cons, List.all_nil,
    Bool.and_true]
  rw [Bool.and_comm]

theorem agreeUpTo_iff (t q : List Nat) (i : Nat) :
    agreeUpTo t i q = true ↔ ∀ j < i, romBit q j = romBit t j := by
  simp [agreeUpTo]

theorem sim_search_loop (devs : List (List Nat)) (t rom0 : List Nat) (LD : Nat)
    (ht : t ∈ devs)
    (hrule : ∀ i < 64, discrepancyAt devs t i = true →
      (i + 1 < LD → romBit rom0 i = romBit t i) ∧ (i + 1 = LD → romBit t i = true) ∧
      (LD < i + 1 → romBit t i = false))
    (n : Nat) : ∀ (i : Nat) (ow : OneWire_t SimWire), i + n = 64 → 0 < n →
      ow.huart.wire = { devices := devs, active := devs.filter (agreeUpTo t i),
                        phase := SimPhase.searchBit i } →
      ow.huart.BaudRate = 115200 → ow.ROM_NO.length = 8 → (∀ x ∈ ow.ROM_NO, x < 256) →
      ow.LastDiscrepancy = LD → (∀ j < i, romBit ow.ROM_NO j = romBit t j) →
      (∀ j, i ≤ j → romBit ow.ROM_NO j = romBit rom0 j) →
      ∃ ow2, OW_search_loop simBus n ow (searchLocalsAt i (lastZeroUpTo devs t i))
          = some (ow2, searchLocalsAt 64 (lastZeroUpTo devs t 64)) ∧
        ow2.ROM_NO.length = 8 ∧ (∀ x ∈ ow2.ROM_NO, x < 256) ∧
        (∀ j < 64, romBit ow2.ROM_NO j = romBit t j) ∧
        ow2.LastDiscrepancy = LD ∧ ow2.LastDeviceFlag = ow.LastDeviceFlag ∧
        ow2.huart.wire.devices = devs := by
  induction n with
  | zero => intro i ow _ h; omega
  | succ n ih =>
    intro i ow hin _ hw hb hlen hbytes hLD hlow hhigh
    have hi : i < 64 := by omega
    have htA : t ∈ devs.filter (agreeUpTo t i) :=
      List.mem_filter.mpr ⟨ht, agreeUpTo_self t i⟩
    have hany : (devs.filter (agreeUpTo t i)).any (fun q => romBit q i != romBit t i)
        = discrepancyAt devs t i := by
      rw [List.any_filter]; rfl
    obtain ⟨b1, b2, b3, b4, b5, b6, b7, b8, b9⟩ := sim_search_body devs
      (devs.filter (agreeUpTo t i)) t ow i (lastZeroUpTo devs t i) LD hw hb htA hi hlen hLD
      (by
        rw [hany]
        intro hd
        obtain ⟨r1, r2, r3⟩ := hrule i hi hd
        exact ⟨fun h => (hhigh i (le_refl i)).trans (r1 h), r2, r3⟩)
    rw [hany] at b2
    have hlz : (if (discrepancyAt devs t i && !romBit t i) = true then i + 1
        else lastZeroUpTo devs t i) = lastZeroUpTo devs t (i + 1) := rfl
    rw [hlz] at b2
    have hfilter : (devs.filter (agreeUpTo t i)).filter (fun q => romBit q i == romBit t i)
        = devs.filter (agreeUpTo t (i + 1)) := by
      rw [List.filter_filter]
      apply List.filter_congr
      intro q _
      rw [agreeUpTo_succ]
    rw [hfilter] at b8
    have hlow2 : ∀ j < i + 1, romBit (OW_search_body simBus ow
        (searchLocalsAt i (lastZeroUpTo devs t i))).1.1.ROM_NO j = romBit t j := by
      intro j hj
      rw [b3 j]
      by_cases hji : j = i
      · rw [if_pos hji, hji]
      · rw [if_neg hji]; exact hlow j (by omega)
    rw [OW_search_loop]
    simp only [b1, b2, Bool.false_eq_true, if_false]
    by_cases hlast : i + 1 < 64
    · have hlt : (searchLocalsAt (i + 1) (lastZeroUpTo devs t (i + 1))).rom_byte_number < 8 := by
        simp only [searchLocalsAt]; omega
      rw [if_pos hlt]
      rw [if_pos hlast] at b8
      obtain ⟨ow2, c1, c2, c3, c4, c5, c6, c7⟩ := ih (i + 1) _ (by omega) (by omega) b8 b9 b4
        (b5 hbytes) b6 hlow2 (by
          intro j hj
          rw [b3 j, if_neg (by omega)]
          exact hhigh j (by omega))
      exact ⟨ow2, c1, c2, c3, c4, c5, c6.trans b7, c7⟩
    · have h63 : i + 1 = 64 := by omega
      have hlt : ¬ (searchLocalsAt (i + 1) (lastZeroUpTo devs t (i + 1))).rom_byte_number < 8 := by
        simp only [searchLocalsAt]; omega
      rw [if_neg hlt]
      refine ⟨_, ?_, b4, b5 hbytes, ?_, b6, b7, ?_⟩
      · rw [h63] at b2
        rw [← b2]
      · intro j hj; exact hlow2 j (by omega)
      · rw [b8]

theorem sim_reset (ow : OneWire_t SimWire) (devs : List (List Nat))
    (hdev : ow.huart.wire.devices = devs) (hne : devs ≠ []) :
    (OW_reset simBus ow).2 = 1 ∧
    (OW_reset simBus ow).1.huart.wire
      = { devices := devs, active := devs, phase := SimPhase.command 0 0 } ∧
    (OW_reset simBus ow).1.huart.BaudRate = 115200 ∧
    (OW_reset simBus ow).1.ROM_NO = ow.ROM_NO ∧
    (OW_reset simBus ow).1.LastDiscrepancy = ow.LastDiscrepancy ∧
    (OW_reset simBus ow).1.LastDeviceFlag = ow.LastDeviceFlag := by
  have hne2 : ¬ (ow.huart.wire.devices = []) := by rw [hdev]; exact hne
  by_cases hs : ow.status = HAL_OK
  · simp [OW_reset, hs, OW_setBaudRate, HAL_UART_exchange, simBus, OW_RESET_SPEED,
      OW_WORK_SPEED, hne2, Rx.buffer, hdev, hne]
  · simp [OW_reset, hs, OW_resetUART, OW_setBaudRate, HAL_UART_exchange, simBus, OW_RESET_SPEED,
      OW_WORK_SPEED, hne2, Rx.buffer, hdev, hne]

theorem sim_sendByte_search (ow : OneWire_t SimWire) (devs A : List (List Nat))
    (hw : ow.huart.wire = { devices := devs, active := A, phase := SimPhase.command 0 0 })
    (hb : ow.huart.BaudRate = 115200) :
    (OW_sendByte simBus ow OW_CMD_SEARCHROM).huart.wire
      = { devices := devs, active := A, phase := SimPhase.searchBit 0 } ∧
    (OW_sendByte simBus ow OW_CMD_SEARCHROM).huart.BaudRate = 115200 ∧
    (OW_sendByte simBus ow OW_CMD_SEARCHROM).ROM_NO = ow.ROM_NO ∧
    (OW_sendByte simBus ow OW_CMD_SEARCHROM).LastDiscrepancy = ow.LastDiscrepancy ∧
    (OW_sendByte simBus ow OW_CMD_SEARCHROM).LastDeviceFlag = ow.LastDeviceFlag := by
  have hbits : byteToBits OW_CMD_SEARCHROM = [0, 0, 0, 0, 0xFF, 0xFF, 0xFF, 0xFF] := by decide
  refine ⟨?_, ?_, ?_, ?_, ?_⟩
  · simp [OW_sendByte, hbits, OW_sendByte_loop, OW_sendBit, HAL_UART_exchange, simBus, hw, hb,
      OW_RESET_SPEED, WIRE_0, WIRE_1, OW_CMD_SEARCHROM]
  · simp [OW_sendByte, hbits, OW_sendByte_loop, OW_sendBit, HAL_UART_exchange, hb]
  · simp [OW_sendByte, hbits, OW_sendByte_loop, OW_sendBit]
  · simp [OW_sendByte, hbits, OW_sendByte_loop, OW_sendBit]
  · simp [OW_sendByte, hbits, OW_sendByte_loop, OW_sendBit]

theorem rom_ext (a b : List Nat) (ha : romWellFormed a) (hb : romWellFormed b)
    (h : ∀ j < 64, romBit a j = romBit b j) : a = b := by
  obtain ⟨ha1, ha2⟩ := ha
  obtain ⟨hb1, hb2⟩ := hb
  apply List.ext_getElem (by rw [ha1, hb1])
  intro k hk1 hk2
  apply Nat.eq_of_testBit_eq
  intro m
  by_cases hm : m < 8
  · have := h (8 * k + m) (by omega)
    unfold romBit at this
    have e1 : (8 * k + m) / 8 = k := by omega
    have e2 : (8 * k + m) % 8 = m := by omega
    rw [e1, e2, List.getD_eq_getElem _ _ hk1, List.getD_eq_getElem _ _ hk2] at this
    exact this
  · have hp : 2 ^ 8 ≤ 2 ^ m := Nat.pow_le_pow_right (by decide) (by omega)
    rw [Nat.testBit_lt_two_pow (lt_of_lt_of_le (ha2 _ (List.getElem_mem _)) hp),
      Nat.testBit_lt_two_pow (lt_of_lt_of_le (hb2 _ (List.getElem_mem _)) hp)]

/-- One search pass on the simulated bus finds `t`. -/
theorem sim_search_pass (devs : List (List Nat)) (t : List Nat) (ow : OneWire_t SimWire)
    (ht : t ∈ devs) (hwf : romWellFormed t) (hnz : t.getD 0 0 ≠ 0)
    (hdev : ow.huart.wire.devices = devs) (hflag : ow.LastDeviceFlag = 0)
    (hrom : romWellFormed ow.ROM_NO)
    (hrule : ∀ i < 64, discrepancyAt devs t i = true →
      (i + 1 < ow.LastDiscrepancy → romBit ow.ROM_NO i = romBit t i) ∧
      (i + 1 = ow.LastDiscrepancy → romBit t i = true) ∧
      (ow.LastDiscrepancy < i + 1 → romBit t i = false)) :
    ∃ ow2, OW_search simBus ow OW_CMD_SEARCHROM = some (ow2, 1) ∧ ow2.ROM_NO = t ∧
      ow2.LastDiscrepancy = lastZeroUpTo devs t 64 ∧
      ow2.LastDeviceFlag = (if lastZeroUpTo devs t 64 = 0 then 1 else 0) ∧
      ow2.huart.wire.devices = devs := by
  have hne : devs ≠ [] := List.ne_nil_of_mem ht
  obtain ⟨r1, r2, r3, r4, r5, r6⟩ := sim_reset ow devs hdev hne
  obtain ⟨s1, s2, s3, s4, s5⟩ := sim_sendByte_search (OW_reset simBus ow).1 devs devs r2 r3
  have hfilter0 : devs.filter (agreeUpTo t 0) = devs := by
    apply List.filter_eq_self.mpr
    intro q _; rfl
  have s1' : (OW_sendByte simBus (OW_reset simBus ow).1 OW_CMD_SEARCHROM).huart.wire
      = { devices := devs, active := devs.filter (agreeUpTo t 0),
          phase := SimPhase.searchBit 0 } := by rw [hfilter0]; exact s1
  obtain ⟨ow2, l1, l2, l3, l4, l5, l6, l7⟩ := sim_search_loop devs t ow.ROM_NO ow.LastDiscrepancy
    ht hrule 64 0 (OW_sendByte simBus (OW_reset simBus ow).1 OW_CMD_SEARCHROM) rfl (by decide)
    s1' s2 (by rw [s3, r4]; exact hrom.1) (by rw [s3, r4]; exact hrom.2) (by rw [s4, r5])
    (by intro j hj; omega) (by intro j _; rw [s3, r4])
  have hromeq : ow2.ROM_NO = t := rom_ext _ _ ⟨l2, l3⟩ hwf l4
  have hflag2 : ow2.LastDeviceFlag = 0 := by rw [l6, s5, r6, hflag]
  have l1' : OW_search_loop simBus 64 (OW_sendByte simBus (OW_reset simBus ow).1 OW_CMD_SEARCHROM)
      { id_bit_number := 1, last_zero := 0, rom_byte_number := 0, rom_byte_mask := 1 }
      = some (ow2, searchLocalsAt 64 (lastZeroUpTo devs t 64)) := l1
  have hnz1 : ¬ ow2.ROM_NO.getD 0 0 = 0 := by rw [hromeq]; exact hnz
  have hnz2 : ¬ ow2.ROM_NO[0]?.getD 0 = 0 := by simpa using hnz1
  unfold OW_search
  simp only [hflag, if_true, r1, l1']
  simp only [searchLocalsAt]
  by_cases hlz : lastZeroUpTo devs t 64 = 0
  · refine ⟨{ ow2 with LastDiscrepancy := lastZeroUpTo devs t 64, LastDeviceFlag := 1 },
      ?_, hromeq, rfl, by simp [hlz], l7⟩
    simp [hlz, hnz2]
  · refine ⟨{ ow2 with LastDiscrepancy := lastZeroUpTo devs t 64 },
      ?_, hromeq, rfl, by simp [hlz, hflag2], l7⟩
    simp [hlz, hnz2]

theorem romLt_irrefl (a : List Nat) : ¬ romLt a a := by
  rintro ⟨i, _, _, h0, h1⟩
  rw [h0] at h1; exact absurd h1 (by decide)

theorem romLt_asymm (a b : List Nat) (hab : romLt a b) (hba : romLt b a) : False := by
  obtain ⟨i, _, hi, ha0, hb1⟩ := hab
  obtain ⟨j, _, hj, hb0, ha1⟩ := hba
  rcases Nat.lt_trichotomy i j with h | h | h
  · have := hj i h
    rw [ha0, hb1] at this; exact absurd this (by decide)
  · subst h
    rw [ha0] at ha1; exact absurd ha1 (by decide)
  · have := hi j h
    rw [ha1, hb0] at this; exact absurd this (by decide)

theorem discrepancyAt_iff (devs : List (List Nat)) (t : List Nat) (i : Nat) :
    discrepancyAt devs t i = true ↔
      ∃ q ∈ devs, (∀ j < i, romBit q j = romBit t j) ∧ romBit q i ≠ romBit t i := by
  simp only [discrepancyAt, List.any_eq_true, Bool.and_eq_true, agreeUpTo_iff, bne_iff_ne]

theorem lastZeroUpTo_eq_zero (devs : List (List Nat)) (t : List Nat) (n : Nat)
    (h : ∀ i < n, ¬ (discrepancyAt devs t i = true ∧ romBit t i = false)) :
    lastZeroUpTo devs t n = 0 := by
  induction n with
  | zero => rfl
  | succ n ih =>
    have hn := h n (Nat.lt_succ_self n)
    have : ¬ ((discrepancyAt devs t n && !romBit t n) = true) := by
      simpa using hn
    rw [lastZeroUpTo, if_neg this]
    exact ih (fun i hi => h i (Nat.lt_succ_of_lt hi))

theorem lastZeroUpTo_eq (devs : List (List Nat)) (t : List Nat) (d n : Nat) (hd : d < n)
    (hdisc : discrepancyAt devs t d = true) (hbit : romBit t d = false)
    (h : ∀ j, d < j → j < n → ¬ (discrepancyAt devs t j = true ∧ romBit t j = false)) :
    lastZeroUpTo devs t n = d + 1 := by
  induction n with
  | zero => omega
  | succ n ih =>
    by_cases hdn : d = n
    · subst hdn
      rw [lastZeroUpTo, if_pos (by simp [hdisc, hbit])]
    · have hn := h n (by omega) (Nat.lt_succ_self n)
      have : ¬ ((discrepancyAt devs t n && !romBit t n) = true) := by
        simpa using hn
      rw [lastZeroUpTo, if_neg this]
      exact ih (by omega) (fun j h1 h2 => h j h1 (Nat.lt_succ_of_lt h2))

/-- Position of an element of an ascending list relative to the entry `p`. -/
theorem sorted_cases (pre rest : List (List Nat)) (p q : List Nat)
    (hs : (pre ++ p :: rest).Pairwise romLt) (hq : q ∈ pre ++ p :: rest) :
    (q ∈ pre ∧ romLt q p) ∨ q = p ∨ (q ∈ rest ∧ romLt p q) := by
  rw [List.pairwise_append] at hs
  obtain ⟨_, h2, h3⟩ := hs
  rw [List.pairwise_cons] at h2
  rcases List.mem_append.mp hq with h | h
  · exact Or.inl ⟨h, h3 q h p (List.mem_cons_self _ _)⟩
  · rcases List.mem_cons.mp h with h | h
    · exact Or.inr (Or.inl h)
    · exact Or.inr (Or.inr ⟨h, h2.1 q h⟩)

/-- No element of an ascending list lies strictly between two neighbours. -/
theorem sorted_between (pre rest : List (List Nat)) (p p2 q : List Nat)
    (hs : (pre ++ p :: p2 :: rest).Pairwise romLt) (hq : q ∈ pre ++ p :: p2 :: rest)
    (h1 : romLt p q) (h2 : romLt q p2) : False := by
  rcases sorted_cases pre (p2 :: rest) p q hs hq with ⟨_, h⟩ | h | ⟨h, _⟩
  · exact romLt_asymm _ _ h1 h
  · subst h; exact romLt_irrefl _ h1
  · rcases List.mem_cons.mp h with h | h
    · subst h; exact romLt_irrefl _ h2
    · have hs2 : (pre ++ p :: p2 :: rest).Pairwise romLt := hs
      rw [List.pairwise_append] at hs2
      have := hs2.2.1
      rw [List.pairwise_cons, List.pairwise_cons] at this
      exact romLt_asymm _ _ h2 (this.2.1 q h)

/-- After the greatest device no zero branch is left. -/
theorem lastZeroUpTo_last (devs pre : List (List Nat)) (p : List Nat)
    (hperm : (pre ++ [p]).Perm devs) (hs : (pre ++ [p]).Pairwise romLt) :
    lastZeroUpTo devs p 64 = 0 := by
  apply lastZeroUpTo_eq_zero
  rintro i hi ⟨hd, hb⟩
  obtain ⟨q, hq, hagree, hne⟩ := (discrepancyAt_iff devs p i).mp hd
  have hq1 : romBit q i = true := by
    rw [hb] at hne; simpa using hne
  have hlt : romLt p q := ⟨i, hi, fun j hj => (hagree j hj).symm, hb, hq1⟩
  rcases sorted_cases pre [] p q hs (hperm.mem_iff.mpr hq) with ⟨_, h⟩ | h | ⟨h, _⟩
  · exact romLt_asymm _ _ hlt h
  · subst h; exact romLt_irrefl _ hlt
  · simp at h

/-- The last zero branch on the way to `p` is where its successor leaves it. -/
theorem lastZeroUpTo_succ (devs pre rest : List (List Nat)) (p p2 : List Nat)
    (hperm : (pre ++ p :: p2 :: rest).Perm devs)
    (hs : (pre ++ p :: p2 :: rest).Pairwise romLt) :
    ∃ d < 64, lastZeroUpTo devs p 64 = d + 1 ∧ (∀ j < d, romBit p j = romBit p2 j) ∧
      romBit p d = false ∧ romBit p2 d = true := by
  have hpp : romLt p p2 := by
    have := hs
    rw [List.pairwise_append] at this
    have h2 := this.2.1
    rw [List.pairwise_cons] at h2
    exact h2.1 p2 (List.mem_cons_self _ _)
  obtain ⟨d, hd, hagree, hp, hp2⟩ := hpp
  refine ⟨d, hd, ?_, hagree, hp, hp2⟩
  apply lastZeroUpTo_eq devs p d 64 hd
  · rw [discrepancyAt_iff]
    refine ⟨p2, hperm.mem_iff.mp (by simp), fun j hj => (hagree j hj).symm, ?_⟩
    rw [hp, hp2]; decide
  · exact hp
  · rintro j hdj hj ⟨hdisc, hb⟩
    obtain ⟨q, hq, hqa, hne⟩ := (discrepancyAt_iff devs p j).mp hdisc
    have hq1 : romBit q j = true := by
      rw [hb] at hne; simpa using hne
    have h1 : romLt p q := ⟨j, hj, fun k hk => (hqa k hk).symm, hb, hq1⟩
    have h2 : romLt q p2 :=
      ⟨d, hd, fun k hk => (hqa k (by omega)).trans (hagree k hk), (hqa d hdj).trans hp, hp2⟩
    exact sorted_between pre rest p p2 q hs (hperm.mem_iff.mpr hq) h1 h2

/-- The successor of `p` is what the next pass follows. -/
theorem search_rule_succ (devs pre rest : List (List Nat)) (p p2 : List Nat) (d : Nat)
    (hperm : (pre ++ p :: p2 :: rest).Perm devs)
    (hs : (pre ++ p :: p2 :: rest).Pairwise romLt) (hd : d < 64)
    (hagree : ∀ j < d, romBit p j = romBit p2 j)
    (hp : romBit p d = false) (hp2 : romBit p2 d = true) :
    ∀ i < 64, discrepancyAt devs p2 i = true →
      (i + 1 < d + 1 → romBit p i = romBit p2 i) ∧
      (i + 1 = d + 1 → romBit p2 i = true) ∧
      (d + 1 < i + 1 → romBit p2 i = false) := by
  intro i hi hdisc
  refine ⟨fun h => hagree i (by omega), fun h => by rw [show i = d by omega]; exact hp2, ?_⟩
  intro hdi
  by_contra hb
  have hb1 : romBit p2 i = true := by simpa using hb
  obtain ⟨q, hq, hqa, hne⟩ := (discrepancyAt_iff devs p2 i).mp hdisc
  have hq0 : romBit q i = false := by
    rw [hb1] at hne; simpa using hne
  have h2 : romLt q p2 := ⟨i, hi, hqa, hq0, hb1⟩
  have h1 : romLt p q :=
    ⟨d, hd, fun k hk => (hagree k hk).trans (hqa k (by omega)).symm, hp,
      (hqa d (by omega)).trans hp2⟩
  exact sorted_between pre rest p p2 q hs (hperm.mem_iff.mpr hq) h1 h2

/-- The least device is what the first pass follows. -/
theorem search_rule_first (devs rest : List (List Nat)) (p rom0 : List Nat)
    (hperm : (p :: rest).Perm devs) (hs : (p :: rest).Pairwise romLt) :
    ∀ i < 64, discrepancyAt devs p i = true →
      (i + 1 < 0 → romBit rom0 i = romBit p i) ∧
      (i + 1 = 0 → romBit p i = true) ∧
      (0 < i + 1 → romBit p i = false) := by
  intro i hi hdisc
  refine ⟨fun h => by omega, fun h => by omega, ?_⟩
  intro _
  by_contra hb
  have hb1 : romBit p i = true := by simpa using hb
  obtain ⟨q, hq, hqa, hne⟩ := (discrepancyAt_iff devs p i).mp hdisc
  have hq0 : romBit q i = false := by
    rw [hb1] at hne; simpa using hne
  have h2 : romLt q p := ⟨i, hi, hqa, hq0, hb1⟩
  rcases sorted_cases [] rest p q hs (hperm.mem_iff.mpr hq) with ⟨h, _⟩ | h | ⟨_, h⟩
  · simp at h
  · subst h; exact romLt_irrefl _ h2
  · exact romLt_asymm _ _ h2 h

theorem sim_search_rest (devs : List (List Nat))
    (hwf : ∀ a ∈ devs, romWellFormed a ∧ a.getD 0 0 ≠ 0) :
    ∀ (rest pre : List (List Nat)) (p : List Nat) (ow : OneWire_t SimWire),
      (pre ++ p :: rest).Perm devs → (pre ++ p :: rest).Pairwise romLt →
      ow.huart.wire.devices = devs → ow.ROM_NO = p →
      ow.LastDiscrepancy = lastZeroUpTo devs p 64 →
      ow.LastDeviceFlag = (if lastZeroUpTo devs p 64 = 0 then 1 else 0) →
      searchCalls simBus (rest.length + 1) false ow
        = rest.map (fun a => (1, a)) ++ [(0, (p :: rest).getLast (by simp))] := by
  intro rest
  induction rest with
  | nil =>
    intro pre p ow hperm hs hdev hrom hLD hflag
    have hz := lastZeroUpTo_last devs pre p hperm hs
    rw [hz] at hflag
    have hf : ¬ ow.LastDeviceFlag = 0 := by rw [hflag]; decide
    simp [searchCalls, OW_next, OW_search, hf, OW_resetSearch, hrom]
  | cons p2 rest ih =>
    intro pre p ow hperm hs hdev hrom hLD hflag
    obtain ⟨d, hd, hz, hagree, hp, hp2⟩ := lastZeroUpTo_succ devs pre rest p p2 hperm hs
    rw [hz] at hLD hflag
    have hf : ow.LastDeviceFlag = 0 := by rw [hflag]; simp
    have hp2mem : p2 ∈ devs := hperm.mem_iff.mp (by simp)
    have hpmem : p ∈ devs := hperm.mem_iff.mp (by simp)
    obtain ⟨ow2, e1, e2, e3, e4, e5⟩ := sim_search_pass devs p2 ow hp2mem (hwf p2 hp2mem).1
      (hwf p2 hp2mem).2 hdev hf (by rw [hrom]; exact (hwf p hpmem).1)
      (by
        rw [hLD, hrom]
        exact search_rule_succ devs pre rest p p2 d hperm hs hd hagree hp hp2)
    have hperm2 : ((pre ++ [p]) ++ p2 :: rest).Perm devs := by simpa using hperm
    have hs2 : ((pre ++ [p]) ++ p2 :: rest).Pairwise romLt := by simpa using hs
    have := ih (pre ++ [p]) p2 ow2 hperm2 hs2 e5 e2 e3 e4
    rw [List.length_cons, searchCalls]
    simp only [OW_next, e1, Bool.false_eq_true, if_false, e2]
    rw [this]
    simp

/-- Claim C1. On the simulated wired-AND bus with the devices `devs` (distinct
well-formed ROM codes with a non-zero first byte, `sorted` being their
ascending arrangement in the lexicographic order of the 64 bits read least
significant bit first, zero before one), whatever the session state before:
`OW_first` followed by `OW_next` returns 1 exactly `sorted.length` times with
`ROM_NO` holding the devices in ascending order, each once, and the call after
the last one returns 0. -/
theorem OW_search_enumerates (devs sorted : List (List Nat)) (ow : OneWire_t SimWire)
    (hdev : ow.huart.wire.devices = devs) (hrom : romWellFormed ow.ROM_NO)
    (hwf : ∀ a ∈ devs, romWellFormed a ∧ a.getD 0 0 ≠ 0)
    (hperm : sorted.Perm devs) (hsorted : sorted.Pairwise romLt) (hne : sorted ≠ []) :
    searchCalls simBus (sorted.length + 1) true ow
      = sorted.map (fun a => (1, a)) ++ [(0, sorted.getLast hne)] := by
  match sorted, hne with
  | p :: rest, _ =>
    have hpmem : p ∈ devs := hperm.mem_iff.mp (by simp)
    obtain ⟨ow2, e1, e2, e3, e4, e5⟩ := sim_search_pass devs p (OW_resetSearch ow) hpmem
      (hwf p hpmem).1 (hwf p hpmem).2 hdev rfl hrom
      (search_rule_first devs rest p ow.ROM_NO hperm hsorted)
    have := sim_search_rest devs hwf rest [] p ow2 hperm hsorted e5 e2 e3 e4
    rw [List.length_cons, searchCalls]
    simp only [OW_first, e1, if_true, e2]
    rw [this]
    simp

set_option maxRecDepth 1000000 in
/-- Witness for C1: three devices attached in arbitrary order are reported in
ascending order, and the fourth call returns 0. -/
theorem OW_search_enumerates_witness :
    searchCalls simBus 4 true
      (simSession [[0x28, 0xFF, 1, 2, 3, 4, 5, 0x11], [0x10, 0, 0, 0, 0, 0, 0, 0x33],
        [0x28, 0x01, 1, 2, 3, 4, 5, 0x22]])
      = [(1, [0x10, 0, 0, 0, 0, 0, 0, 0x33]), (1, [0x28, 0x01, 1, 2, 3, 4, 5, 0x22]),
         (1, [0x28, 0xFF, 1, 2, 3, 4, 5, 0x11]), (0, [0x28, 0xFF, 1, 2, 3, 4, 5, 0x11])] :=
  OW_search_enumerates
    [[0x28, 0xFF, 1, 2, 3, 4, 5, 0x11], [0x10, 0, 0, 0, 0, 0, 0, 0x33],
      [0x28, 0x01, 1, 2, 3, 4, 5, 0x22]]
    [[0x10, 0, 0, 0, 0, 0, 0, 0x33], [0x28, 0x01, 1, 2, 3, 4, 5, 0x22],
      [0x28, 0xFF, 1, 2, 3, 4, 5, 0x11]]
    (simSession _) rfl (by decide) (by decide) (by decide) (by decide) (by decide)

/-! ### Discovery -/

theorem DS18B20_init_zeroFill_isSome (size : Nat) (hsize : size ≤ 255) (fuel : Nat) :
    ∀ (i : Nat) (p : List Nat), i ≤ size → size - i < fuel →
      (DS18B20_init_zeroFill size fuel i p).isSome = true := by
  induction fuel with
  | zero => intro i p _ h; omega
  | succ fuel ih =>
    intro i p hi hf
    rw [DS18B20_init_zeroFill]
    by_cases h : i < size
    · rw [if_pos h, Nat.mod_eq_of_lt (by omega)]
      exact ih (i + 1) _ (by omega) (by omega)
    · rw [if_neg h]; rfl

theorem DS18B20_init_zeroFill_none (size : Nat) (hsize : 256 ≤ size) (fuel : Nat) :
    ∀ (i : Nat) (p : List Nat), i < 256 → DS18B20_init_zeroFill size fuel i p = none := by
  induction fuel with
  | zero => intro i p _; rfl
  | succ fuel ih =>
    intro i p hi
    rw [DS18B20_init_zeroFill, if_pos (by omega)]
    exact ih _ _ (Nat.mod_lt _ (by decide))

theorem OW_next_isSome {σ : Type} (bus : Bus σ) (ow : OneWire_t σ) :
    ∃ r, OW_next bus ow = some r :=
  Option.isSome_iff_exists.mp (OW_search_isSome bus ow OW_CMD_SEARCHROM)

theorem OW_first_isSome {σ : Type} (bus : Bus σ) (ow : OneWire_t σ) :
    ∃ r, OW_first bus ow = some r :=
  Option.isSome_iff_exists.mp (OW_search_isSome bus (OW_resetSearch ow) OW_CMD_SEARCHROM)

/-- The discovery loop returns when the enumeration ends within the bound. -/
theorem DS18B20_init_loop_isSome {σ : Type} (MAX : Nat) (bus : Bus σ) (fuel : Nat) :
    ∀ (ds : Ds18B20_t σ) (status : Nat),
      (status ≠ 0 → (searchAddresses bus fuel false ds.ow).length < fuel) →
      (DS18B20_init_loop MAX bus (fuel + 1) ds status).isSome = true := by
  induction fuel with
  | zero =>
    intro ds status h
    have hs : status = 0 := by
      by_contra hne
      have := h hne
      omega
    simp [DS18B20_init_loop, hs]
  | succ fuel ih =>
    intro ds status h
    rw [DS18B20_init_loop]
    by_cases hc : status ≠ 0 ∧ ds.sensors_found < MAX
    · rw [if_pos hc]
      simp only []
      have hlen := h hc.1
      rw [searchAddresses] at hlen
      simp only [Bool.false_eq_true, if_false] at hlen
      split
      · rename_i hnone
        obtain ⟨r, hr⟩ := OW_next_isSome bus
          (if OW_CRC8 ((List.set ds.ROMS ds.sensors_found (OW_getFullROM ds.ow)).getD
                ds.sensors_found []) 7
              = ((List.set ds.ROMS ds.sensors_found (OW_getFullROM ds.ow)).getD
                ds.sensors_found []).getD 7 0 then
            ({ ds with ROMS := List.set ds.ROMS ds.sensors_found (OW_getFullROM ds.ow),
                       sensors_found := (ds.sensors_found + 1) % 256 } : Ds18B20_t σ)
          else { ds with ROMS := List.set ds.ROMS ds.sensors_found (OW_getFullROM ds.ow) }).ow
        rw [hr] at hnone
        exact absurd hnone (by simp)
      · rename_i r hr
        apply ih
        intro hr2
        have how : (if OW_CRC8 ((List.set ds.ROMS ds.sensors_found (OW_getFullROM ds.ow)).getD
                ds.sensors_found []) 7
              = ((List.set ds.ROMS ds.sensors_found (OW_getFullROM ds.ow)).getD
                ds.sensors_found []).getD 7 0 then
            ({ ds with ROMS := List.set ds.ROMS ds.sensors_found (OW_getFullROM ds.ow),
                       sensors_found := (ds.sensors_found + 1) % 256 } : Ds18B20_t σ)
          else { ds with ROMS := List.set ds.ROMS ds.sensors_found (OW_getFullROM ds.ow) }).ow
            = ds.ow := by split <;> rfl
        rw [how] at hr
        rw [hr] at hlen
        simp only [if_neg hr2, List.length_cons] at hlen
        simpa using hlen
    · rw [if_neg hc]; rfl

theorem DS18B20_init_loop_step {σ : Type} (MAX : Nat) (bus : Bus σ) (fuel : Nat)
    (ds : Ds18B20_t σ) (status : Nat) (r : OneWire_t σ × Nat)
    (hs : status ≠ 0) (hf : ds.sensors_found < MAX) (hlen : ds.ROMS.length = MAX)
    (hr : OW_next bus ds.ow = some r) :
    DS18B20_init_loop MAX bus (fuel + 1) ds status
      = DS18B20_init_loop MAX bus fuel
          { ds with
            ROMS := List.set ds.ROMS ds.sensors_found (OW_getFullROM ds.ow)
            sensors_found := if crcValid (OW_getFullROM ds.ow) = true
              then (ds.sensors_found + 1) % 256 else ds.sensors_found
            ow := r.1 } r.2 := by
  have hget : (List.set ds.ROMS ds.sensors_found (OW_getFullROM ds.ow)).getD ds.sensors_found []
      = OW_getFullROM ds.ow := by
    rw [List.getD_eq_getElem _ _ (by simpa [hlen] using hf)]
    simp
  rw [DS18B20_init_loop, if_pos ⟨hs, hf⟩]
  simp only [hget]
  by_cases hc : OW_CRC8 (OW_getFullROM ds.ow) 7 = (OW_getFullROM ds.ow).getD 7 0
  · have hv : crcValid (OW_getFullROM ds.ow) = true := by simpa [crcValid] using hc
    simp only [if_pos hc, hv, if_true, hr]
  · have hv : ¬ crcValid (OW_getFullROM ds.ow) = true := by simpa [crcValid] using hc
    simp only [if_neg hc, if_neg hv, hr]

theorem take_set_succ {α : Type} (a : α) : ∀ (l : List α) (i : Nat), i < l.length →
    (List.set l i a).take (i + 1) = l.take i ++ [a] := by
  intro l
  induction l with
  | nil => intro i h; simp at h
  | cons x l ih =>
    intro i h
    cases i with
    | zero => simp
    | succ i =>
      simp only [List.set_cons_succ, List.take_succ_cons, List.cons_append, List.cons.injEq,
        true_and]
      exact ih i (by simpa using h)

theorem take_set_same {α : Type} (a : α) : ∀ (l : List α) (i : Nat),
    (List.set l i a).take i = l.take i := by
  intro l
  induction l with
  | nil => intro i; simp
  | cons x l ih =>
    intro i
    cases i with
    | zero => simp
    | succ i => simp only [List.set_cons_succ, List.take_succ_cons, ih i]

theorem DS18B20_init_loop_spec {σ : Type} (MAX : Nat) (hMAX : MAX ≤ 255) (bus : Bus σ)
    (fuel : Nat) : ∀ (ds : Ds18B20_t σ) (status : Nat) (d : Ds18B20_t σ),
      DS18B20_init_loop MAX bus fuel ds status = some d →
      ds.sensors_found ≤ MAX → ds.ROMS.length = MAX →
      d.sensors_found ≤ MAX ∧ d.ROMS.length = MAX ∧
      ∀ n, fuel ≤ n → d.ROMS.take d.sensors_found
        = ds.ROMS.take ds.sensors_found
          ++ (((if status ≠ 0 then OW_getFullROM ds.ow :: searchAddresses bus n false ds.ow
                else []).filter crcValid).take (MAX - ds.sensors_found)) := by
  induction fuel with
  | zero => intro ds status d h; simp [DS18B20_init_loop] at h
  | succ fuel ih =>
    intro ds status d h hfound hlen
    by_cases hc : status ≠ 0 ∧ ds.sensors_found < MAX
    · obtain ⟨hs, hf⟩ := hc
      obtain ⟨r, hr⟩ := OW_next_isSome bus ds.ow
      rw [DS18B20_init_loop_step MAX bus fuel ds status r hs hf hlen hr] at h
      have hflt : ds.sensors_found < ds.ROMS.length := by omega
      obtain ⟨i1, i2, i3⟩ := ih _ _ d h
        (by
          simp only []
          split
          · rw [Nat.mod_eq_of_lt (by omega)]; omega
          · omega)
        (by simpa using hlen)
      refine ⟨i1, i2, ?_⟩
      intro n hn
      obtain ⟨m, rfl⟩ : ∃ m, n = m + 1 := ⟨n - 1, by omega⟩
      rw [i3 m (by omega)]
      simp only [if_pos hs]
      have hpend : searchAddresses bus (m + 1) false ds.ow
          = (if r.2 ≠ 0 then OW_getFullROM r.1 :: searchAddresses bus m false r.1 else []) := by
        rw [searchAddresses]
        simp only [Bool.false_eq_true, if_false, hr]
        by_cases h0 : r.2 = 0
        · simp [h0]
        · simp [h0]
      rw [hpend]
      by_cases hv : crcValid (OW_getFullROM ds.ow) = true
      · simp only [hv, if_true]
        rw [Nat.mod_eq_of_lt (by omega), take_set_succ _ _ _ hflt, List.filter_cons_of_pos hv]
        obtain ⟨k, hk⟩ : ∃ k, MAX - ds.sensors_found = k + 1 :=
          ⟨MAX - ds.sensors_found - 1, by omega⟩
        have hk2 : MAX - (ds.sensors_found + 1) = k := by omega
        rw [hk, hk2, List.take_succ_cons]
        simp
      · simp only [hv, Bool.false_eq_true, if_false]
        rw [take_set_same, List.filter_cons_of_neg hv]
    · rw [DS18B20_init_loop, if_neg hc] at h
      cases h
      refine ⟨hfound, hlen, ?_⟩
      intro n _
      by_cases hs : status ≠ 0
      · have : MAX - ds.sensors_found = 0 := by
          have : ¬ ds.sensors_found < MAX := fun h => hc ⟨hs, h⟩
          omega
        simp [this]
      · simp [hs]

/-- Claim C4. `DS18B20_init` with capacity `MAX`, for a structure of `size`
bytes (at least `MAX`, as it holds arrays of `MAX` entries): it returns as soon
as the zero-fill loop terminates (`size ≤ 255`) and the enumeration by
`OW_first` / `OW_next` ends within the bound; and whenever it returns,
`sensors_found ≤ MAX`, the entries `ROMS[0 .. sensors_found)` are exactly the
addresses returned by the search whose CRC byte is right, in enumeration
order, cut to the first `MAX` of them, and every address in the registry has
a right CRC byte. -/
theorem DS18B20_init_registry {σ : Type} (MAX size : Nat) (bus : Bus σ) (mem : List Nat)
    (huart : UART_HandleTypeDef σ) (precision : Nat) (hlayout : MAX ≤ size) :
    (∀ fuel, size ≤ 255 →
      (searchAddresses bus fuel true (OW_init (Ds18B20_zero MAX huart).ow huart)).length < fuel →
      (DS18B20_init MAX size bus fuel mem huart precision).isSome = true) ∧
    (∀ fuel d, DS18B20_init MAX size bus fuel mem huart precision = some d →
      d.sensors_found ≤ MAX ∧
      (∀ n, fuel < n → d.ROMS.take d.sensors_found
        = ((searchAddresses bus n true (OW_init (Ds18B20_zero MAX huart).ow huart)).filter
            crcValid).take MAX) ∧
      ∀ rom ∈ d.ROMS.take d.sensors_found, OW_CRC8 rom 7 = rom.getD 7 0) := by
  obtain ⟨r, hr⟩ := OW_first_isSome bus (OW_init (Ds18B20_zero MAX huart).ow huart)
  have hfirst : ∀ n, searchAddresses bus (n + 1) true (OW_init (Ds18B20_zero MAX huart).ow huart)
      = (if r.2 ≠ 0 then OW_getFullROM r.1 :: searchAddresses bus n false r.1 else []) := by
    intro n
    rw [searchAddresses]
    simp only [if_true, hr]
    by_cases h0 : r.2 = 0
    · simp [h0]
    · simp [h0]
  constructor
  · intro fuel hsize hlen
    obtain ⟨p, hp⟩ := Option.isSome_iff_exists.mp
      (DS18B20_init_zeroFill_isSome size hsize 257 0 mem (Nat.zero_le _) (by omega))
    obtain ⟨f, rfl⟩ : ∃ f, fuel = f + 1 := ⟨fuel - 1, by omega⟩
    rw [hfirst] at hlen
    have hloop := DS18B20_init_loop_isSome MAX bus f
      { Ds18B20_zero MAX huart with ow := r.1 } r.2
      (by
        intro h0
        rw [if_pos h0] at hlen
        simpa using hlen)
    obtain ⟨d1, hd1⟩ := Option.isSome_iff_exists.mp hloop
    unfold DS18B20_init
    simp only [hp, hr]
    have hd1' : DS18B20_init_loop MAX bus (f + 1)
        { sensors_found := (Ds18B20_zero MAX huart).sensors_found,
          correction := (Ds18B20_zero MAX huart).correction,
          lastTimeMeasured := (Ds18B20_zero MAX huart).lastTimeMeasured,
          ROMS := (Ds18B20_zero MAX huart).ROMS,
          timeNeeded := (Ds18B20_zero MAX huart).timeNeeded, ow := r.1 } r.2 = some d1 := hd1
    simp only [hd1', Option.isSome_some]
  · intro fuel d hd
    unfold DS18B20_init at hd
    cases hz : DS18B20_init_zeroFill size 257 0 mem with
    | none => simp [hz] at hd
    | some p =>
      have hMAX : MAX ≤ 255 := by
        by_contra hbig
        rw [DS18B20_init_zeroFill_none size (by omega) 257 0 mem (by decide)] at hz
        exact absurd hz (by simp)
      simp only [hz, hr] at hd
      cases hl : DS18B20_init_loop MAX bus fuel
        { sensors_found := (Ds18B20_zero MAX huart).sensors_found,
          correction := (Ds18B20_zero MAX huart).correction,
          lastTimeMeasured := (Ds18B20_zero MAX huart).lastTimeMeasured,
          ROMS := (Ds18B20_zero MAX huart).ROMS,
          timeNeeded := (Ds18B20_zero MAX huart).timeNeeded, ow := r.1 } r.2 with
      | none => simp [hl] at hd
      | some d1 =>
        simp only [hl, Option.some.injEq] at hd
        obtain ⟨s1, s2, s3⟩ := DS18B20_init_loop_spec MAX hMAX bus fuel _ r.2 d1 hl
          (Nat.zero_le _) (by simp [Ds18B20_zero])
        have hROMS : d.ROMS = d1.ROMS := by rw [← hd]
        have hfound : d.sensors_found = d1.sensors_found := by rw [← hd]
        have htake : ∀ n, fuel < n → d.ROMS.take d.sensors_found
            = ((searchAddresses bus n true (OW_init (Ds18B20_zero MAX huart).ow huart)).filter
                crcValid).take MAX := by
          intro n hn
          obtain ⟨m, rfl⟩ : ∃ m, n = m + 1 := ⟨n - 1, by omega⟩
          rw [hROMS, hfound, s3 m (by omega), hfirst]
          simp [Ds18B20_zero]
        refine ⟨by rw [hfound]; exact s1, htake, ?_⟩
        intro rom hrom
        rw [htake (fuel + 1) (Nat.lt_succ_self _)] at hrom
        have := (List.mem_filter.mp (List.mem_of_mem_take hrom)).2
        simpa [crcValid] using this

set_option maxRecDepth 1000000 in
/-- Witness for C4: of three devices found by the search, the one with a
corrupted CRC byte (`10 00 .. 33`) is left out of the registry. -/
theorem DS18B20_init_registry_witness :
    (DS18B20_init 3 68 simBus 5 (List.replicate 68 0xAA)
      (simSession [[0x28, 0xFF, 1, 2, 3, 4, 5, 0x62], [0x10, 0, 0, 0, 0, 0, 0, 0x33],
        [0x28, 0x01, 1, 2, 3, 4, 5, 0x03]]).huart DS18B20_12BITS).isSome = true ∧
    (DS18B20_init 3 68 simBus 5 (List.replicate 68 0xAA)
      (simSession [[0x28, 0xFF, 1, 2, 3, 4, 5, 0x62], [0x10, 0, 0, 0, 0, 0, 0, 0x33],
        [0x28, 0x01, 1, 2, 3, 4, 5, 0x03]]).huart DS18B20_12BITS).map
        (fun d => (d.sensors_found, d.ROMS.take d.sensors_found))
      = some (2, [[0x28, 0x01, 1, 2, 3, 4, 5, 0x03], [0x28, 0xFF, 1, 2, 3, 4, 5, 0x62]]) ∧
    searchAddresses simBus 5 true (OW_init (Ds18B20_zero 3
      (simSession [[0x28, 0xFF, 1, 2, 3, 4, 5, 0x62], [0x10, 0, 0, 0, 0, 0, 0, 0x33],
        [0x28, 0x01, 1, 2, 3, 4, 5, 0x03]]).huart).ow
      (simSession [[0x28, 0xFF, 1, 2, 3, 4, 5, 0x62], [0x10, 0, 0, 0, 0, 0, 0, 0x33],
        [0x28, 0x01, 1, 2, 3, 4, 5, 0x03]]).huart)
      = [[0x10, 0, 0, 0, 0, 0, 0, 0x33], [0x28, 0x01, 1, 2, 3, 4, 5, 0x03],
         [0x28, 0xFF, 1, 2, 3, 4, 5, 0x62]] :=
  ⟨(DS18B20_init_registry 3 68 simBus _ _ DS18B20_12BITS (by decide)).1 5 (by decide)
      (by decide), by decide, by decide⟩

/-! ### Reset, presence and the early exits of the search -/

/-- What `OW_reset` does to the UART, whatever the wire answers: the peripheral is
re-initialised first when the status is not `HAL_OK`, then the baud rate goes to 9600, the
byte `0xF0` is transmitted, and the baud rate goes back to 115200. -/
theorem OW_reset_log {σ : Type} (bus : Bus σ) (ow : OneWire_t σ) :
    (OW_reset bus ow).1.huart.log
      = ow.huart.log ++ (if ow.status ≠ HAL_OK then [Event.uartReset] else [])
          ++ [Event.setBaud OW_RESET_SPEED, Event.transmit 0xF0, Event.setBaud OW_WORK_SPEED] := by
  by_cases h : ow.status ≠ HAL_OK
  · simp [OW_reset, h, OW_resetUART, OW_setBaudRate, HAL_UART_exchange]
  · simp [OW_reset, h, OW_setBaudRate, HAL_UART_exchange]

/-- Claim C14. `OW_reset` transmits exactly one byte, the reset byte `0xF0`, at 9600 baud
(after re-initialising the peripheral when the status was not `HAL_OK`); after the call the
session status is the result of the single receive of that slot; and for every byte `r`
observed on the wire in that slot the status is `HAL_OK` and the call returns 1 if and only
if `r` differs from `0xF0` (and 0 if and only if `r = 0xF0`). -/
theorem OW_reset_presence {σ : Type} (bus : Bus σ) (ow : OneWire_t σ) :
    (OW_reset bus ow).1.huart.log
      = ow.huart.log ++ (if ow.status ≠ HAL_OK then [Event.uartReset] else [])
          ++ [Event.setBaud OW_RESET_SPEED, Event.transmit 0xF0, Event.setBaud OW_WORK_SPEED] ∧
    (OW_reset bus ow).1.status = (bus ow.huart.wire OW_RESET_SPEED 0xF0).2.status ∧
    (∀ r, (bus ow.huart.wire OW_RESET_SPEED 0xF0).2 = Rx.byte r →
      (OW_reset bus ow).1.status = HAL_OK ∧
      ((OW_reset bus ow).2 = 1 ↔ r ≠ 0xF0) ∧ ((OW_reset bus ow).2 = 0 ↔ r = 0xF0)) := by
  refine ⟨OW_reset_log bus ow, ?_, ?_⟩
  · by_cases h : ow.status ≠ HAL_OK
    · simp [OW_reset, h, OW_resetUART, OW_setBaudRate, HAL_UART_exchange]
    · simp [OW_reset, h, OW_setBaudRate, HAL_UART_exchange]
  · intro r hr
    by_cases h : ow.status ≠ HAL_OK
    · by_cases h0 : r = 0xF0 <;>
        simp [OW_reset, h, OW_resetUART, OW_setBaudRate, HAL_UART_exchange, hr, Rx.status,
          Rx.buffer, h0, eq_comm]
    · by_cases h0 : r = 0xF0 <;>
        simp [OW_reset, h, OW_setBaudRate, HAL_UART_exchange, hr, Rx.status, Rx.buffer, h0,
          eq_comm]

set_option maxRecDepth 100000 in
/-- Witness for C14: a wire that answers the reset byte by `0xE0` gives presence, a wire
that returns `0xF0` unchanged gives none. -/
theorem OW_reset_presence_witness :
    (OW_reset tapeBus (exampleSession [Rx.byte 0xE0])).2 = 1 ∧
    (OW_reset tapeBus (exampleSession [Rx.byte 0xF0])).2 = 0 :=
  ⟨((OW_reset_presence tapeBus (exampleSession [Rx.byte 0xE0])).2.2 0xE0 rfl).2.1.mpr
      (by decide),
   ((OW_reset_presence tapeBus (exampleSession [Rx.byte 0xF0])).2.2 0xF0 rfl).2.2.mpr rfl⟩

/-- Claim C13. When `LastDeviceFlag` is set at the call, `OW_next` (and `OW_search` with any
command) returns 0 and the UART handle is untouched: the wire state, the baud rate and the
log of UART operations are what they were, so no reset pulse, no baud-rate change and no bit
exchange took place; the session status is unchanged as well. -/
theorem OW_next_exhausted {σ : Type} (bus : Bus σ) (ow : OneWire_t σ) (command : Nat)
    (hflag : ow.LastDeviceFlag ≠ 0) :
    OW_next bus ow = some (OW_resetSearch ow, 0) ∧
    OW_search bus ow command = some (OW_resetSearch ow, 0) ∧
    (OW_resetSearch ow).huart = ow.huart ∧
    (OW_resetSearch ow).huart.log = ow.huart.log ∧
    (OW_resetSearch ow).status = ow.status := by
  refine ⟨?_, ?_, rfl, rfl, rfl⟩
  · simp [OW_next, OW_search, hflag]
  · simp [OW_search, hflag]

set_option maxRecDepth 100000 in
/-- Witness for C13: with the flag set, `OW_next` returns 0, logs nothing and leaves the
tape where it was. -/
theorem OW_next_exhausted_witness :
    (OW_next tapeBus { exampleSession [Rx.byte 0xE0] with LastDeviceFlag := 1 }).map
        (fun r => (r.2, r.1.huart.log, r.1.huart.wire))
      = some (0, [], [Rx.byte 0xE0]) := by
  rw [(OW_next_exhausted tapeBus { exampleSession [Rx.byte 0xE0] with LastDeviceFlag := 1 }
    OW_CMD_SEARCHROM (by decide)).1]
  decide

/-- Claim C12, amended. When the bus reset inside `OW_search` detects no presence, the call
(through `OW_search` or `OW_next` with `LastDeviceFlag = 0`, or through `OW_first`) returns
0 with nothing on the UART beyond the reset itself (no search command, no further bit), and
with `LastDiscrepancy`, `LastFamilyDiscrepancy` and `LastDeviceFlag` all zero; the address
buffer `ROM_NO` is not cleared: it keeps the content it had before the call. -/
theorem OW_search_no_presence {σ : Type} (bus : Bus σ) (ow : OneWire_t σ) (command : Nat)
    (hpres : (OW_reset bus ow).2 = 0) :
    (ow.LastDeviceFlag = 0 →
      OW_search bus ow command = some (OW_resetSearch (OW_reset bus ow).1, 0) ∧
      OW_next bus ow = some (OW_resetSearch (OW_reset bus ow).1, 0)) ∧
    OW_first bus ow = some (OW_resetSearch (OW_reset bus ow).1, 0) ∧
    (OW_resetSearch (OW_reset bus ow).1).huart.log
      = ow.huart.log ++ (if ow.status ≠ HAL_OK then [Event.uartReset] else [])
          ++ [Event.setBaud OW_RESET_SPEED, Event.transmit 0xF0, Event.setBaud OW_WORK_SPEED] ∧
    (OW_resetSearch (OW_reset bus ow).1).LastDiscrepancy = 0 ∧
    (OW_resetSearch (OW_reset bus ow).1).LastFamilyDiscrepancy = 0 ∧
    (OW_resetSearch (OW_reset bus ow).1).LastDeviceFlag = 0 ∧
    (OW_resetSearch (OW_reset bus ow).1).ROM_NO = ow.ROM_NO := by
  have hrom : (OW_reset bus ow).1.ROM_NO = ow.ROM_NO := by
    unfold OW_reset; simp only []; split <;> rfl
  refine ⟨?_, ?_, OW_reset_log bus ow, rfl, rfl, rfl, hrom⟩
  · intro hflag
    constructor
    · simp [OW_search, hflag, hpres]
    · simp [OW_next, OW_search, hflag, hpres]
  · have h1 : (OW_reset bus (OW_resetSearch ow)).2 = 0 := by
      rw [← hpres]
      unfold OW_reset OW_resetSearch; simp only []; split <;> rfl
    have h2 : OW_resetSearch (OW_reset bus (OW_resetSearch ow)).1
        = OW_resetSearch (OW_reset bus ow).1 := by
      unfold OW_reset OW_resetSearch; simp only []; split <;> rfl
    have h3 : (OW_resetSearch ow).LastDeviceFlag = 0 := rfl
    unfold OW_first OW_search
    simp only [h3, if_true, h1, h2]

set_option maxRecDepth 100000 in
/-- Witness for C12 (amended): on a wire that returns the reset byte unchanged, `OW_next`
returns 0, the three search fields are zero and the UART log holds the reset only. -/
theorem OW_search_no_presence_witness :
    (OW_next tapeBus (exampleSession [Rx.byte 0xF0])).map
        (fun r => (r.2, r.1.LastDiscrepancy, r.1.LastFamilyDiscrepancy, r.1.LastDeviceFlag,
          r.1.huart.log))
      = some (0, 0, 0, 0,
          [Event.setBaud 9600, Event.transmit 0xF0, Event.setBaud 115200]) := by
  rw [((OW_search_no_presence tapeBus (exampleSession [Rx.byte 0xF0]) OW_CMD_SEARCHROM
    (by decide)).1 rfl).2]
  decide

set_option maxRecDepth 100000 in
/-- Counterexample to C12 as stated: a session whose `ROM_NO` holds the address
`28 01 02 03 04 05 06 07` of an earlier search, on a wire that returns the reset byte
`0xF0` unchanged (no presence).  `OW_reset` returns 0 and `OW_next` returns 0, but `ROM_NO`
still holds that address, not zeros. -/
theorem OW_search_no_presence_counterexample :
    (OW_reset tapeBus
      { exampleSession [Rx.byte 0xF0] with ROM_NO := [0x28, 1, 2, 3, 4, 5, 6, 7] }).2 = 0 ∧
    (OW_next tapeBus
      { exampleSession [Rx.byte 0xF0] with ROM_NO := [0x28, 1, 2, 3, 4, 5, 6, 7] }).map
        (fun r => (r.2, r.1.ROM_NO)) = some (0, [0x28, 1, 2, 3, 4, 5, 6, 7]) := by
  decide

/-! ### Sensor operations outside the registry, corrections, timing -/

/-- Claim C16. For a sensor index `i ≥ sensors_found` other than `DS18B20_MEASUREALL`,
`DS18B20_startMeasure` returns the registry (with its bus session and UART log) unchanged,
`DS18B20_isTempReady` returns 0, `DS18B20_getTempRaw` returns `DS18B20_TEMP_NOT_READ` with
the registry unchanged, and `DS18B20_setCorrection` returns the registry unchanged; so does
`DS18B20_setCorrection` for `DS18B20_MEASUREALL` (`sensors_found` is a `uint8_t`). -/
theorem DS18B20_out_of_range {σ : Type} (bus : Bus σ) (now : Nat) (ds : Ds18B20_t σ)
    (i : Nat) (c : Int) (hi : i ≥ ds.sensors_found) (hne : i ≠ DS18B20_MEASUREALL)
    (hfound : ds.sensors_found ≤ 255) :
    DS18B20_startMeasure bus now ds i = ds ∧
    DS18B20_isTempReady now ds i = 0 ∧
    DS18B20_getTempRaw bus ds i = (ds, DS18B20_TEMP_NOT_READ) ∧
    DS18B20_setCorrection ds i c = ds ∧
    DS18B20_setCorrection ds DS18B20_MEASUREALL c = ds := by
  refine ⟨?_, ?_, ?_, ?_, ?_⟩
  · unfold DS18B20_startMeasure
    rw [if_neg (by rintro (h | h) <;> [omega; exact hne h])]
  · unfold DS18B20_isTempReady
    rw [if_pos ⟨hne, hi⟩]
  · unfold DS18B20_getTempRaw
    rw [if_pos ⟨hne, hi⟩]
  · unfold DS18B20_setCorrection
    rw [if_pos hi]
  · unfold DS18B20_setCorrection
    rw [if_pos (by simp only [DS18B20_MEASUREALL]; omega)]

/-- Witness for C16: index 1 on a registry with one sensor. -/
theorem DS18B20_out_of_range_witness :
    DS18B20_startMeasure tapeBus 5 (exampleSensors 0 16 []) 1 = exampleSensors 0 16 [] ∧
    DS18B20_isTempReady 5 (exampleSensors 0 16 []) 1 = 0 ∧
    DS18B20_getTempRaw tapeBus (exampleSensors 0 16 []) 1
      = (exampleSensors 0 16 [], DS18B20_TEMP_NOT_READ) ∧
    DS18B20_setCorrection (exampleSensors 0 16 []) 1 7 = exampleSensors 0 16 [] ∧
    DS18B20_setCorrection (exampleSensors 0 16 []) DS18B20_MEASUREALL 7
      = exampleSensors 0 16 [] :=
  DS18B20_out_of_range tapeBus 5 (exampleSensors 0 16 []) 1 7 (by decide) (by decide)
    (by decide)

/-- Claim C18. For an index `i < sensors_found` and an offset `c`,
`DS18B20_setCorrection` stores `c` in `correction[i]` and changes nothing else: the other
entries and the length of `correction`, `sensors_found`, `ROMS`, `lastTimeMeasured`,
`timeNeeded` and the bus session (wire, UART log, status, search state) are what they
were. -/
theorem DS18B20_setCorrection_frame {σ : Type} (ds : Ds18B20_t σ) (i : Nat) (c : Int)
    (hi : i < ds.sensors_found) (hlen : ds.sensors_found ≤ ds.correction.length) :
    (DS18B20_setCorrection ds i c).correction.getD i 0 = c ∧
    (∀ j, j ≠ i → (DS18B20_setCorrection ds i c).correction.getD j 0
      = ds.correction.getD j 0) ∧
    (DS18B20_setCorrection ds i c).correction.length = ds.correction.length ∧
    (DS18B20_setCorrection ds i c).sensors_found = ds.sensors_found ∧
    (DS18B20_setCorrection ds i c).ROMS = ds.ROMS ∧
    (DS18B20_setCorrection ds i c).lastTimeMeasured = ds.lastTimeMeasured ∧
    (DS18B20_setCorrection ds i c).timeNeeded = ds.timeNeeded ∧
    (DS18B20_setCorrection ds i c).ow = ds.ow := by
  have h : DS18B20_setCorrection ds i c
      = { ds with correction := List.set ds.correction i c } := by
    unfold DS18B20_setCorrection
    rw [if_neg (by omega)]
  rw [h]
  refine ⟨?_, ?_, by simp, rfl, rfl, rfl, rfl, rfl⟩
  · simp only []
    rw [List.getD_eq_getElem _ _ (by simp; omega)]
    simp
  · intro j hj
    simp only [List.getD_eq_getElem?_getD]
    rw [List.getElem?_set_ne (Ne.symm hj)]

/-- Witness for C18: the offset -24 stored for sensor 0 of a registry with one sensor. -/
theorem DS18B20_setCorrection_frame_witness :
    (DS18B20_setCorrection (exampleSensors 5 16 []) 0 (-24)).correction = [-24, 0, 0] ∧
    (DS18B20_setCorrection (exampleSensors 5 16 []) 0 (-24)).correction.getD 0 0 = -24 ∧
    (DS18B20_setCorrection (exampleSensors 5 16 []) 0 (-24)).ow
      = (exampleSensors 5 16 []).ow :=
  ⟨by decide,
   (DS18B20_setCorrection_frame (exampleSensors 5 16 []) 0 (-24) (by decide) (by decide)).1,
   (DS18B20_setCorrection_frame (exampleSensors 5 16 []) 0 (-24) (by decide)
     (by decide)).2.2.2.2.2.2.2⟩


/-- The discovery loop changes nothing but `ROMS`, `sensors_found` and the session, and
keeps `sensors_found` within the capacity. -/
theorem DS18B20_init_loop_frame {σ : Type} (MAX : Nat) (bus : Bus σ) (fuel : Nat) :
    ∀ (ds : Ds18B20_t σ) (status : Nat) (d : Ds18B20_t σ),
      DS18B20_init_loop MAX bus fuel ds status = some d →
      d.correction = ds.correction ∧ d.lastTimeMeasured = ds.lastTimeMeasured ∧
      d.timeNeeded = ds.timeNeeded ∧ (ds.sensors_found ≤ MAX → d.sensors_found ≤ MAX) := by
  induction fuel with
  | zero => intro ds status d h; simp [DS18B20_init_loop] at h
  | succ fuel ih =>
    intro ds status d h
    rw [DS18B20_init_loop] at h
    by_cases hc : status ≠ 0 ∧ ds.sensors_found < MAX
    · rw [if_pos hc] at h
      simp only [] at h
      split at h
      · exact absurd h (by simp)
      · rename_i r hr
        obtain ⟨i1, i2, i3, i4⟩ := ih _ _ d h
        refine ⟨?_, ?_, ?_, ?_⟩
        · rw [i1]; simp only []; split <;> rfl
        · rw [i2]; simp only []; split <;> rfl
        · rw [i3]; simp only []; split <;> rfl
        · intro _
          apply i4
          simp only []
          split
          · have := Nat.mod_le (ds.sensors_found + 1) 256
            simp only []
            omega
          · simp only []; omega
    · rw [if_neg hc] at h
      cases h
      exact ⟨rfl, rfl, rfl, fun h => h⟩

/-- Fields of the registry that `DS18B20_init` returns. -/
theorem DS18B20_init_fields {σ : Type} (MAX size : Nat) (bus : Bus σ) (fuel : Nat)
    (mem : List Nat) (huart : UART_HandleTypeDef σ) (precision : Nat) (d : Ds18B20_t σ)
    (h : DS18B20_init MAX size bus fuel mem huart precision = some d) :
    d.timeNeeded = (if precision = DS18B20_11BITS then 380
      else if precision = DS18B20_10BITS then 195
      else if precision = DS18B20_9BITS then 100 else 760) ∧
    d.correction = List.replicate MAX 0 ∧ d.lastTimeMeasured = List.replicate MAX 0 ∧
    d.sensors_found ≤ MAX := by
  unfold DS18B20_init at h
  cases hz : DS18B20_init_zeroFill size 257 0 mem with
  | none => simp [hz] at h
  | some p =>
    obtain ⟨r, hr⟩ := OW_first_isSome bus (OW_init (Ds18B20_zero MAX huart).ow huart)
    simp only [hz, hr] at h
    cases hl : DS18B20_init_loop MAX bus fuel
      { sensors_found := (Ds18B20_zero MAX huart).sensors_found,
        correction := (Ds18B20_zero MAX huart).correction,
        lastTimeMeasured := (Ds18B20_zero MAX huart).lastTimeMeasured,
        ROMS := (Ds18B20_zero MAX huart).ROMS,
        timeNeeded := (Ds18B20_zero MAX huart).timeNeeded, ow := r.1 } r.2 with
    | none => simp [hl] at h
    | some d1 =>
      simp only [hl, Option.some.injEq] at h
      obtain ⟨f1, f2, f3, f4⟩ := DS18B20_init_loop_frame MAX bus fuel _ r.2 d1 hl
      rw [← h]
      exact ⟨rfl, f1, f2, f4 (Nat.zero_le _)⟩

/-- `DS18B20_init` returns when the structure has at most 255 bytes and the enumeration ends
within the bound. -/
theorem DS18B20_init_isSome {σ : Type} (MAX size : Nat) (bus : Bus σ) (fuel : Nat)
    (mem : List Nat) (huart : UART_HandleTypeDef σ) (precision : Nat) (hsize : size ≤ 255)
    (hlen : (searchAddresses bus fuel true
      (OW_init (Ds18B20_zero MAX huart).ow huart)).length < fuel) :
    (DS18B20_init MAX size bus fuel mem huart precision).isSome = true := by
  obtain ⟨r, hr⟩ := OW_first_isSome bus (OW_init (Ds18B20_zero MAX huart).ow huart)
  obtain ⟨p, hp⟩ := Option.isSome_iff_exists.mp
    (DS18B20_init_zeroFill_isSome size hsize 257 0 mem (Nat.zero_le _) (by omega))
  obtain ⟨f, rfl⟩ : ∃ f, fuel = f + 1 := ⟨fuel - 1, by omega⟩
  rw [searchAddresses] at hlen
  simp only [if_true, hr] at hlen
  have hloop := DS18B20_init_loop_isSome MAX bus f
    { Ds18B20_zero MAX huart with ow := r.1 } r.2
    (by
      intro h0
      rw [if_neg h0] at hlen
      simpa using hlen)
  obtain ⟨d1, hd1⟩ := Option.isSome_iff_exists.mp hloop
  unfold DS18B20_init
  simp only [hp, hr]
  have hd1' : DS18B20_init_loop MAX bus (f + 1)
      { sensors_found := (Ds18B20_zero MAX huart).sensors_found,
        correction := (Ds18B20_zero MAX huart).correction,
        lastTimeMeasured := (Ds18B20_zero MAX huart).lastTimeMeasured,
        ROMS := (Ds18B20_zero MAX huart).ROMS,
        timeNeeded := (Ds18B20_zero MAX huart).timeNeeded, ow := r.1 } r.2 = some d1 := hd1
  simp only [hd1', Option.isSome_some]

/-- Claim C17. `DS18B20_init` returns as soon as the zero-fill loop terminates and the
enumeration ends within the bound, and whenever it returns, for every precision byte,
`timeNeeded` is 100 for `DS18B20_9BITS` (0x1F), 195 for `DS18B20_10BITS` (0x3F), 380 for
`DS18B20_11BITS` (0x5F) and 760 for every other value (`DS18B20_12BITS` included),
whatever the bus `bus` answered during discovery. -/
theorem DS18B20_init_timeNeeded {σ : Type} (MAX size : Nat) (bus : Bus σ) (mem : List Nat)
    (huart : UART_HandleTypeDef σ) (precision : Nat) :
    (∀ fuel, size ≤ 255 →
      (searchAddresses bus fuel true (OW_init (Ds18B20_zero MAX huart).ow huart)).length < fuel →
      (DS18B20_init MAX size bus fuel mem huart precision).isSome = true) ∧
    (∀ fuel d, DS18B20_init MAX size bus fuel mem huart precision = some d →
      d.timeNeeded = (if precision = DS18B20_9BITS then 100
        else if precision = DS18B20_10BITS then 195
        else if precision = DS18B20_11BITS then 380 else 760)) := by
  refine ⟨fun fuel hs hl => DS18B20_init_isSome MAX size bus fuel mem huart precision hs hl, ?_⟩
  intro fuel d h
  rw [(DS18B20_init_fields MAX size bus fuel mem huart precision d h).1]
  simp only [DS18B20_9BITS, DS18B20_10BITS, DS18B20_11BITS]
  split_ifs <;> omega


set_option maxRecDepth 1000000 in
/-- Witness for C17: 9-bit precision on a bus with one device gives 100 ms. -/
theorem DS18B20_init_timeNeeded_witness :
    (DS18B20_init 3 68 simBus 3 (List.replicate 68 0xAA)
      (simSession [[0x28, 0xFF, 1, 2, 3, 4, 5, 0x62]]).huart DS18B20_9BITS).map
        (fun d => d.timeNeeded) = some 100 := by
  obtain ⟨d, hd⟩ := Option.isSome_iff_exists.mp
    ((DS18B20_init_timeNeeded 3 68 simBus (List.replicate 68 0xAA)
      (simSession [[0x28, 0xFF, 1, 2, 3, 4, 5, 0x62]]).huart DS18B20_9BITS).1 3 (by decide)
      (by decide))
  rw [hd, Option.map_some']
  exact congrArg some (((DS18B20_init_timeNeeded 3 68 simBus (List.replicate 68 0xAA)
    (simSession [[0x28, 0xFF, 1, 2, 3, 4, 5, 0x62]]).huart DS18B20_9BITS).2 3 d hd).trans
    (by decide))

/-- Stamping the entries `0 .. n` of an array keeps its length. -/
theorem foldl_set_length (t : Nat) : ∀ (n : Nat) (l : List Nat),
    ((List.range n).foldl (fun l i => List.set l i t) l).length = l.length := by
  intro n
  induction n with
  | zero => intro l; rfl
  | succ n ih =>
    intro l
    rw [List.range_succ, List.foldl_append]
    simp only [List.foldl_cons, List.foldl_nil, List.length_set]
    exact ih l

/-- Stamping the entries `0 .. n` of an array stores the stamp in each of them. -/
theorem foldl_set_getD (t : Nat) : ∀ (n : Nat) (l : List Nat) (j : Nat), j < n → j < l.length →
    ((List.range n).foldl (fun l i => List.set l i t) l).getD j 0 = t := by
  intro n
  induction n with
  | zero => intro l j hj; omega
  | succ n ih =>
    intro l j hj hl
    rw [List.range_succ, List.foldl_append]
    simp only [List.foldl_cons, List.foldl_nil]
    by_cases hjn : j = n
    · subst hjn
      rw [List.getD_eq_getElem _ _ (by rw [List.length_set, foldl_set_length]; exact hl)]
      simp
    · simp only [List.getD_eq_getElem?_getD]
      rw [List.getElem?_set_ne (Ne.symm hjn)]
      have := ih l j (by omega) hl
      simpa [List.getD_eq_getElem?_getD] using this

/-- After `DS18B20_startMeasure` on a target whose bus reset detected presence, the time
stamp that `DS18B20_isTempReady` consults for that target is the tick of the call. -/
theorem DS18B20_startMeasure_stamp {σ : Type} (bus : Bus σ) (t : Nat) (ds : Ds18B20_t σ)
    (sensor : Nat)
    (hvalid : sensor < ds.sensors_found ∨ (sensor = DS18B20_MEASUREALL ∧ 0 < ds.sensors_found))
    (hlen : ds.sensors_found ≤ ds.lastTimeMeasured.length)
    (hpres : (OW_reset bus ds.ow).2 ≠ 0) :
    (DS18B20_startMeasure bus t ds sensor).sensors_found = ds.sensors_found ∧
    (DS18B20_startMeasure bus t ds sensor).timeNeeded = ds.timeNeeded ∧
    (DS18B20_startMeasure bus t ds sensor).lastTimeMeasured.getD
      (if sensor = DS18B20_MEASUREALL then 0 else sensor) 0 = t := by
  have hv : sensor < ds.sensors_found ∨ sensor = DS18B20_MEASUREALL := by
    rcases hvalid with h | h
    · exact Or.inl h
    · exact Or.inr h.1
  unfold DS18B20_startMeasure
  rw [if_pos hv]
  by_cases hall : sensor = DS18B20_MEASUREALL
  · have hpos : 0 < ds.sensors_found := by
      rcases hvalid with h | h
      · omega
      · exact h.2
    rw [if_pos hall]
    simp only []
    rw [if_pos hpres, if_pos hall]
    exact ⟨rfl, rfl, foldl_set_getD t _ _ 0 hpos (by omega)⟩
  · have hlt : sensor < ds.sensors_found := by
      rcases hvalid with h | h
      · exact h
      · exact absurd h.1 hall
    rw [if_neg hall]
    simp only []
    rw [if_pos hpres, if_neg hall]
    refine ⟨rfl, rfl, ?_⟩
    simp only []
    rw [List.getD_eq_getElem _ _ (by rw [List.length_set]; omega)]
    simp

/-- When the bus reset of `DS18B20_startMeasure` detects no presence, or when no sensor was
found, the call records no time stamp: `lastTimeMeasured`, `sensors_found` and `timeNeeded`
are what they were, whatever the target. -/
theorem DS18B20_startMeasure_no_stamp {σ : Type} (bus : Bus σ) (t : Nat) (ds : Ds18B20_t σ)
    (sensor : Nat) (h : (OW_reset bus ds.ow).2 = 0 ∨ ds.sensors_found = 0) :
    (DS18B20_startMeasure bus t ds sensor).lastTimeMeasured = ds.lastTimeMeasured ∧
    (DS18B20_startMeasure bus t ds sensor).sensors_found = ds.sensors_found ∧
    (DS18B20_startMeasure bus t ds sensor).timeNeeded = ds.timeNeeded := by
  unfold DS18B20_startMeasure
  by_cases hv : sensor < ds.sensors_found ∨ sensor = DS18B20_MEASUREALL
  · rw [if_pos hv]
    by_cases hall : sensor = DS18B20_MEASUREALL
    · rw [if_pos hall]
      simp only []
      by_cases hp : (OW_reset bus ds.ow).2 ≠ 0
      · rw [if_pos hp]
        have h0 : ds.sensors_found = 0 := by
          rcases h with h | h
          · exact absurd h hp
          · exact h
        refine ⟨?_, rfl, rfl⟩
        simp only [h0, List.range_zero, List.foldl_nil]
      · rw [if_neg hp]
        exact ⟨rfl, rfl, rfl⟩
    · rw [if_neg hall]
      simp only []
      by_cases hp : (OW_reset bus ds.ow).2 ≠ 0
      · have h0 : ds.sensors_found = 0 := by
          rcases h with h | h
          · exact absurd h hp
          · exact h
        rcases hv with hv | hv
        · omega
        · exact absurd hv hall
      · rw [if_neg hp]
        exact ⟨rfl, rfl, rfl⟩
  · rw [if_neg hv]
    exact ⟨rfl, rfl, rfl⟩

/-- Claim C11, amended. For a registry `ds` returned by `DS18B20_init`, any target and
32-bit ticks `t`, `d` (`0 ≤ d < 2^32`, the tick counter wraps).  First part: when the
target is an index below `sensors_found`, or `DS18B20_MEASUREALL` with at least one sensor
found, and the bus reset of `DS18B20_startMeasure`, called at tick `t`, detects presence,
then `DS18B20_isTempReady` for that target at tick `t + d` returns 1 when `d ≥ timeNeeded`
and 0 otherwise; it returns 0 for `d = 0`, and with 9-bit resolution it returns 0 at
`d = 99` and 1 at `d = 100`.  Second part: when that reset detects no presence, or no
sensor was found, `DS18B20_startMeasure` records no time stamp (`lastTimeMeasured`,
`sensors_found` and `timeNeeded` are unchanged) and `DS18B20_isTempReady` for the target
returns, at every tick, what it returns on the registry before the call: it judges the
previous stamp. -/
theorem DS18B20_isTempReady_after_start {σ : Type} (MAX size : Nat) (bus : Bus σ) (fuel : Nat)
    (mem : List Nat) (huart : UART_HandleTypeDef σ) (precision : Nat) (ds : Ds18B20_t σ)
    (sensor t d : Nat)
    (hinit : DS18B20_init MAX size bus fuel mem huart precision = some ds)
    (ht : t < 2 ^ 32) (hd : d < 2 ^ 32) :
    ((sensor < ds.sensors_found ∨ (sensor = DS18B20_MEASUREALL ∧ 0 < ds.sensors_found)) →
      (OW_reset bus ds.ow).2 ≠ 0 →
      DS18B20_isTempReady ((t + d) % 2 ^ 32) (DS18B20_startMeasure bus t ds sensor) sensor
        = (if d ≥ ds.timeNeeded then 1 else 0) ∧
      (d = 0 →
        DS18B20_isTempReady ((t + d) % 2 ^ 32) (DS18B20_startMeasure bus t ds sensor) sensor
          = 0) ∧
      (precision = DS18B20_9BITS →
        (d = 99 → DS18B20_isTempReady ((t + d) % 2 ^ 32)
          (DS18B20_startMeasure bus t ds sensor) sensor = 0) ∧
        (d = 100 → DS18B20_isTempReady ((t + d) % 2 ^ 32)
          (DS18B20_startMeasure bus t ds sensor) sensor = 1))) ∧
    (((OW_reset bus ds.ow).2 = 0 ∨ ds.sensors_found = 0) →
      (DS18B20_startMeasure bus t ds sensor).lastTimeMeasured = ds.lastTimeMeasured ∧
      (DS18B20_startMeasure bus t ds sensor).sensors_found = ds.sensors_found ∧
      (DS18B20_startMeasure bus t ds sensor).timeNeeded = ds.timeNeeded ∧
      ∀ now, DS18B20_isTempReady now (DS18B20_startMeasure bus t ds sensor) sensor
        = DS18B20_isTempReady now ds sensor) := by
  constructor
  · intro hvalid hpres
    obtain ⟨f1, _, f3, f4⟩ := DS18B20_init_fields MAX size bus fuel mem huart precision ds hinit
    have hlen : ds.sensors_found ≤ ds.lastTimeMeasured.length := by
      rw [f3, List.length_replicate]; exact f4
    obtain ⟨s1, s2, s3⟩ := DS18B20_startMeasure_stamp bus t ds sensor hvalid hlen hpres
    have hmain : DS18B20_isTempReady ((t + d) % 2 ^ 32) (DS18B20_startMeasure bus t ds sensor)
        sensor = (if d ≥ ds.timeNeeded then 1 else 0) := by
      unfold DS18B20_isTempReady
      rw [if_neg (by
        rintro ⟨h1, h2⟩
        rw [s1] at h2
        rcases hvalid with h | h
        · omega
        · exact h1 h.1)]
      simp only []
      rw [s3, s2]
      have : ((t + d) % 2 ^ 32 + 2 ^ 32 - t) % 2 ^ 32 = d := by
        norm_num at ht hd ⊢
        omega
      rw [this]
    have hpos : 0 < ds.timeNeeded := by
      rw [f1]; split_ifs <;> omega
    refine ⟨hmain, ?_, ?_⟩
    · intro h0
      rw [hmain, if_neg (by omega)]
    · intro hp
      have h100 : ds.timeNeeded = 100 := by
        rw [f1, hp]; decide
      constructor
      · intro h; rw [hmain, if_neg (by omega)]
      · intro h; rw [hmain, if_pos (by omega)]
  · intro hno
    obtain ⟨n1, n2, n3⟩ := DS18B20_startMeasure_no_stamp bus t ds sensor hno
    refine ⟨n1, n2, n3, ?_⟩
    intro now
    unfold DS18B20_isTempReady
    rw [n1, n2, n3]

set_option maxRecDepth 1000000 in
/-- Witness for C11 (amended): a registry discovered with 9-bit resolution on a bus with
one device; a measurement started at tick 1000 is not ready at ticks 1000 and 1099 and is
ready at tick 1100; started for all sensors at tick `2^32 - 50`, it is not ready at tick 49
and is ready at tick 50, after the tick counter wrapped.  On a bus without devices the
registry has no sensor, and `DS18B20_isTempReady` for all sensors at tick 1000 returns the
same before and after `DS18B20_startMeasure` at tick 1000. -/
theorem DS18B20_isTempReady_after_start_witness :
    (DS18B20_init 3 68 simBus 3 (List.replicate 68 0xAA)
      (simSession [[0x28, 0xFF, 1, 2, 3, 4, 5, 0x62]]).huart DS18B20_9BITS).map
        (fun ds =>
          (DS18B20_isTempReady 1000 (DS18B20_startMeasure simBus 1000 ds 0) 0,
           DS18B20_isTempReady 1099 (DS18B20_startMeasure simBus 1000 ds 0) 0,
           DS18B20_isTempReady 1100 (DS18B20_startMeasure simBus 1000 ds 0) 0,
           DS18B20_isTempReady 49 (DS18B20_startMeasure simBus 4294967246 ds
             DS18B20_MEASUREALL) DS18B20_MEASUREALL,
           DS18B20_isTempReady 50 (DS18B20_startMeasure simBus 4294967246 ds
             DS18B20_MEASUREALL) DS18B20_MEASUREALL))
      = some (0, 0, 1, 0, 1) ∧
    (DS18B20_init 3 68 simBus 3 (List.replicate 68 0xAA) (simSession []).huart
      DS18B20_9BITS).map
        (fun ds => DS18B20_isTempReady 1000
          (DS18B20_startMeasure simBus 1000 ds DS18B20_MEASUREALL) DS18B20_MEASUREALL)
      = (DS18B20_init 3 68 simBus 3 (List.replicate 68 0xAA) (simSession []).huart
          DS18B20_9BITS).map (fun ds => DS18B20_isTempReady 1000 ds DS18B20_MEASUREALL) := by
  constructor
  · have hfacts : (DS18B20_init 3 68 simBus 3 (List.replicate 68 0xAA)
        (simSession [[0x28, 0xFF, 1, 2, 3, 4, 5, 0x62]]).huart DS18B20_9BITS).map
          (fun ds => (ds.sensors_found, (OW_reset simBus ds.ow).2)) = some (1, 1) := by
      decide
    obtain ⟨ds, hds⟩ := Option.isSome_iff_exists.mp
      (DS18B20_init_isSome 3 68 simBus 3 (List.replicate 68 0xAA)
        (simSession [[0x28, 0xFF, 1, 2, 3, 4, 5, 0x62]]).huart DS18B20_9BITS (by decide)
        (by decide))
    rw [hds, Option.map_some', Option.some.injEq, Prod.mk.injEq] at hfacts
    rw [hds, Option.map_some']
    have hfound : 0 < ds.sensors_found := by rw [hfacts.1]; decide
    have hpres : (OW_reset simBus ds.ow).2 ≠ 0 := by rw [hfacts.2]; decide
    have a := (DS18B20_isTempReady_after_start 3 68 simBus 3 _ _ DS18B20_9BITS ds 0 1000 0 hds
      (by decide) (by decide)).1 (Or.inl hfound) hpres
    have b := (DS18B20_isTempReady_after_start 3 68 simBus 3 _ _ DS18B20_9BITS ds 0 1000 99 hds
      (by decide) (by decide)).1 (Or.inl hfound) hpres
    have c := (DS18B20_isTempReady_after_start 3 68 simBus 3 _ _ DS18B20_9BITS ds 0 1000 100 hds
      (by decide) (by decide)).1 (Or.inl hfound) hpres
    have e := (DS18B20_isTempReady_after_start 3 68 simBus 3 _ _ DS18B20_9BITS ds
      DS18B20_MEASUREALL 4294967246 99 hds (by decide) (by decide)).1
      (Or.inr ⟨rfl, hfound⟩) hpres
    have f := (DS18B20_isTempReady_after_start 3 68 simBus 3 _ _ DS18B20_9BITS ds
      DS18B20_MEASUREALL 4294967246 100 hds (by decide) (by decide)).1
      (Or.inr ⟨rfl, hfound⟩) hpres
    have a1 := a.2.1 rfl
    have b1 := (b.2.2 rfl).1 rfl
    have c1 := (c.2.2 rfl).2 rfl
    have e1 := (e.2.2 rfl).1 rfl
    have f1 := (f.2.2 rfl).2 rfl
    norm_num at a1 b1 c1 e1 f1
    rw [a1, b1, c1, e1, f1]
  · have hfacts : (DS18B20_init 3 68 simBus 3 (List.replicate 68 0xAA) (simSession []).huart
        DS18B20_9BITS).map (fun ds => ds.sensors_found) = some 0 := by
      decide
    obtain ⟨ds, hds⟩ := Option.isSome_iff_exists.mp
      (DS18B20_init_isSome 3 68 simBus 3 (List.replicate 68 0xAA) (simSession []).huart
        DS18B20_9BITS (by decide) (by decide))
    rw [hds, Option.map_some', Option.some.injEq] at hfacts
    rw [hds, Option.map_some', Option.map_some']
    exact congrArg some (((DS18B20_isTempReady_after_start 3 68 simBus 3 _ _ DS18B20_9BITS ds
      DS18B20_MEASUREALL 1000 0 hds (by decide) (by decide)).2 (Or.inr hfacts)).2.2.2 1000)

set_option maxRecDepth 1000000 in
/-- Counterexample to C11 as stated: `DS18B20_init` with 9-bit resolution on a bus without
devices returns a registry with `sensors_found = 0` and `timeNeeded = 100`.
`DS18B20_startMeasure(DS18B20_MEASUREALL)` at tick 1000 finds no presence and stamps
nothing, and `DS18B20_isTempReady(DS18B20_MEASUREALL)` at the same tick (`d = 0`) returns
1, because `lastTimeMeasured[0]` is still 0. -/
theorem DS18B20_isTempReady_after_start_counterexample :
    (DS18B20_init 3 68 simBus 3 (List.replicate 68 0xAA) (simSession []).huart
      DS18B20_9BITS).map
        (fun ds => (ds.sensors_found, ds.timeNeeded,
          DS18B20_isTempReady 1000 (DS18B20_startMeasure simBus 1000 ds DS18B20_MEASUREALL)
            DS18B20_MEASUREALL))
      = some (0, 100, 1) := by
  decide

/-! ### Session status across a sequence of transfers -/

/-- One exchange on a tape wire consumes one entry of the tape and receives it. -/
theorem tapeBus_drop (tape : List Rx) (k baud s : Nat) :
    tapeBus (tape.drop k) baud s = (tape.drop (k + 1), tapeAt tape k) := by
  by_cases h : k < tape.length
  · rw [List.drop_eq_getElem_cons h]
    simp only [tapeBus, tapeAt]
    rw [List.getD_eq_getElem _ _ h]
  · have h1 : tape.drop k = [] := List.drop_eq_nil_of_le (by omega)
    have h2 : tape.drop (k + 1) = [] := List.drop_eq_nil_of_le (by omega)
    rw [h1, h2]
    simp only [tapeBus, tapeAt]
    rw [List.getD_eq_default _ _ (by omega)]

/-- `OW_sendBit` on a tape wire: one entry consumed, its outcome is the status. -/
theorem tape_sendBit (tape : List Rx) (k : Nat) (ow : OneWire_t (List Rx)) (b : Nat)
    (hw : ow.huart.wire = tape.drop k) :
    (OW_sendBit tapeBus ow b).huart.wire = tape.drop (k + 1) ∧
    (OW_sendBit tapeBus ow b).status = (tapeAt tape k).status := by
  simp [OW_sendBit, HAL_UART_exchange, hw, tapeBus_drop]

/-- `OW_receiveBit` on a tape wire: one entry consumed, its outcome is the status and the
bit is 1 exactly when the receive buffer holds `0xFF`. -/
theorem tape_receiveBit (tape : List Rx) (k : Nat) (ow : OneWire_t (List Rx))
    (hw : ow.huart.wire = tape.drop k) :
    (OW_receiveBit tapeBus ow).1.huart.wire = tape.drop (k + 1) ∧
    (OW_receiveBit tapeBus ow).1.status = (tapeAt tape k).status ∧
    (OW_receiveBit tapeBus ow).2 = (if (tapeAt tape k).buffer none = 0xFF then 1 else 0) := by
  simp [OW_receiveBit, HAL_UART_exchange, hw, tapeBus_drop]

/-- The loop of `OW_sendByte` on a tape wire. -/
theorem tape_sendByte_loop (tape : List Rx) (bits : List Nat) :
    ∀ (k : Nat) (ow : OneWire_t (List Rx)), ow.huart.wire = tape.drop k →
      (OW_sendByte_loop tapeBus bits ow).huart.wire = tape.drop (k + bits.length) ∧
      (bits ≠ [] → (OW_sendByte_loop tapeBus bits ow).status
        = (tapeAt tape (k + bits.length - 1)).status) := by
  induction bits with
  | nil => intro k ow hw; exact ⟨hw, fun h => absurd rfl h⟩
  | cons b rest ih =>
    intro k ow hw
    obtain ⟨w1, s1⟩ := tape_sendBit tape k ow b hw
    obtain ⟨w2, s2⟩ := ih (k + 1) _ w1
    rw [OW_sendByte_loop, List.length_cons]
    refine ⟨by rw [w2]; congr 1; omega, fun _ => ?_⟩
    cases rest with
    | nil => simpa [OW_sendByte_loop] using s1
    | cons c rest2 =>
      rw [s2 (by simp)]
      congr 2
      simp only [List.length_cons]
      omega

/-- The loop of `OW_receiveByte` on a tape wire. -/
theorem tape_receiveByte_loop (tape : List Rx) (n : Nat) :
    ∀ (k : Nat) (ow : OneWire_t (List Rx)) (acc : List Nat), ow.huart.wire = tape.drop k →
      (OW_receiveByte_loop tapeBus n ow acc).1.huart.wire = tape.drop (k + n) ∧
      (0 < n → (OW_receiveByte_loop tapeBus n ow acc).1.status
        = (tapeAt tape (k + n - 1)).status) := by
  induction n with
  | zero => intro k ow acc hw; exact ⟨hw, fun h => absurd h (by omega)⟩
  | succ n ih =>
    intro k ow acc hw
    obtain ⟨w1, s1, _⟩ := tape_receiveBit tape k ow hw
    obtain ⟨w2, s2⟩ := ih (k + 1) _ (acc ++ [(OW_receiveBit tapeBus ow).2]) w1
    rw [OW_receiveByte_loop]
    refine ⟨by rw [w2]; congr 1; omega, fun _ => ?_⟩
    cases n with
    | zero => simpa [OW_receiveByte_loop] using s1
    | succ m =>
      rw [s2 (by omega)]
      congr 2
      omega

/-- The array `byteToBits` fills has eight entries. -/
theorem byteToBits_length (b : Nat) : (byteToBits b).length = 8 := by
  simp [byteToBits, byteToBits_loop]

/-- Every transfer call on a tape wire consumes as many entries as it has bits, and leaves
as status the outcome of its last receive. -/
theorem tape_run (tape : List Rx) (op : BusOp) (k : Nat) (ow : OneWire_t (List Rx))
    (hw : ow.huart.wire = tape.drop (k + 1)) :
    (op.run tapeBus ow).huart.wire = tape.drop (k + op.exchanges + 1) ∧
    (op.run tapeBus ow).status = (tapeAt tape (k + op.exchanges)).status := by
  cases op with
  | sendBit b =>
    obtain ⟨w, s⟩ := tape_sendBit tape (k + 1) ow b hw
    exact ⟨w, s⟩
  | receiveBit =>
    obtain ⟨w, s, _⟩ := tape_receiveBit tape (k + 1) ow hw
    exact ⟨w, s⟩
  | sendByte b =>
    obtain ⟨w, s⟩ := tape_sendByte_loop tape (byteToBits b) (k + 1) ow hw
    rw [byteToBits_length] at w s
    refine ⟨?_, ?_⟩
    · simp only [BusOp.run, OW_sendByte, BusOp.exchanges]
      rw [w]
    · simp only [BusOp.run, OW_sendByte, BusOp.exchanges]
      rw [s (by intro h; have := byteToBits_length b; rw [h] at this; simp at this)]
      rfl
  | receiveByte =>
    obtain ⟨w, s⟩ := tape_receiveByte_loop tape 8 (k + 1) ow [] hw
    refine ⟨?_, ?_⟩
    · simp only [BusOp.run, OW_receiveByte, BusOp.exchanges]
      rw [w]
    · simp only [BusOp.run, OW_receiveByte, BusOp.exchanges]
      rw [s (by omega)]
      rfl

/-- A sequence of transfer calls on a tape wire leaves as status the outcome of the last
receive made so far. -/
theorem tape_runOps (tape : List Rx) (ops : List BusOp) :
    ∀ (k : Nat) (ow : OneWire_t (List Rx)), ow.huart.wire = tape.drop (k + 1) →
      ow.status = (tapeAt tape k).status →
      (runOps tapeBus ow ops).huart.wire = tape.drop (k + exchangeCount ops + 1) ∧
      (runOps tapeBus ow ops).status = (tapeAt tape (k + exchangeCount ops)).status := by
  induction ops with
  | nil => intro k ow hw hs; exact ⟨hw, hs⟩
  | cons op rest ih =>
    intro k ow hw hs
    obtain ⟨w1, s1⟩ := tape_run tape op k ow hw
    obtain ⟨w2, s2⟩ := ih (k + op.exchanges) _ w1 s1
    have hc : exchangeCount (op :: rest) = op.exchanges + exchangeCount rest := by
      simp [exchangeCount]
    have hr : runOps tapeBus ow (op :: rest) = runOps tapeBus (op.run tapeBus ow) rest := rfl
    rw [hr, hc, w2, s2]
    exact ⟨by congr 1; omega, by congr 2; omega⟩

/-- Claim C15, amended. On a wire that replays any sequence of receive outcomes: after
`OW_reset` and any sequence of bit and byte transfers, the session status is the outcome of
the last receive made (entry `exchangeCount ops` of the tape: the reset took entry 0 and
every bit one more), whatever happened to earlier receives; so the next `OW_reset`
re-initialises the UART (`OW_resetUART`, before the reset pulse) exactly when that last
receive was not successful. -/
theorem runOps_status (ow : OneWire_t (List Rx)) (ops : List BusOp) :
    (runOps tapeBus (OW_reset tapeBus ow).1 ops).status
      = (tapeAt ow.huart.wire (exchangeCount ops)).status ∧
    (OW_reset tapeBus (runOps tapeBus (OW_reset tapeBus ow).1 ops)).1.huart.log
      = (runOps tapeBus (OW_reset tapeBus ow).1 ops).huart.log
          ++ (if (tapeAt ow.huart.wire (exchangeCount ops)).status ≠ HAL_OK
              then [Event.uartReset] else [])
          ++ [Event.setBaud OW_RESET_SPEED, Event.transmit 0xF0, Event.setBaud OW_WORK_SPEED] := by
  have hw : (OW_reset tapeBus ow).1.huart.wire = ow.huart.wire.drop (0 + 1) := by
    have := tapeBus_drop ow.huart.wire 0 OW_RESET_SPEED 0xF0
    rw [List.drop_zero] at this
    by_cases h : ow.status ≠ HAL_OK
    · simp [OW_reset, h, OW_resetUART, OW_setBaudRate, HAL_UART_exchange, this]
    · simp [OW_reset, h, OW_setBaudRate, HAL_UART_exchange, this]
  have hs : (OW_reset tapeBus ow).1.status = (tapeAt ow.huart.wire 0).status := by
    have := tapeBus_drop ow.huart.wire 0 OW_RESET_SPEED 0xF0
    rw [List.drop_zero] at this
    by_cases h : ow.status ≠ HAL_OK
    · simp [OW_reset, h, OW_resetUART, OW_setBaudRate, HAL_UART_exchange, this]
    · simp [OW_reset, h, OW_setBaudRate, HAL_UART_exchange, this]
  obtain ⟨_, s⟩ := tape_runOps ow.huart.wire ops 0 _ hw hs
  rw [Nat.zero_add] at s
  refine ⟨s, ?_⟩
  rw [OW_reset_log, s]

set_option maxRecDepth 100000 in
/-- Witness for C15 (amended): after a reset, a bit whose receive times out leaves
`HAL_TIMEOUT`, and the next reset starts with a re-initialisation of the UART. -/
theorem runOps_status_witness :
    (runOps tapeBus (OW_reset tapeBus (exampleSession [Rx.byte 0xE0, Rx.timeout 0])).1
      [BusOp.sendBit 1]).status = HAL_TIMEOUT ∧
    (OW_reset tapeBus (runOps tapeBus
      (OW_reset tapeBus (exampleSession [Rx.byte 0xE0, Rx.timeout 0])).1
      [BusOp.sendBit 1])).1.huart.log
      = [Event.setBaud 9600, Event.transmit 0xF0, Event.setBaud 115200, Event.transmit 0xFF,
         Event.uartReset, Event.setBaud 9600, Event.transmit 0xF0, Event.setBaud 115200] :=
  ⟨(runOps_status (exampleSession [Rx.byte 0xE0, Rx.timeout 0]) [BusOp.sendBit 1]).1.trans
      (by decide),
   (runOps_status (exampleSession [Rx.byte 0xE0, Rx.timeout 0]) [BusOp.sendBit 1]).2.trans
      (by decide)⟩

set_option maxRecDepth 100000 in
/-- Counterexample to C15 as stated: after a reset with presence, two bits are sent; the
receive of the first times out, the receive of the second succeeds.  The status is
`HAL_TIMEOUT` after the first bit and `HAL_OK` after the second, and the next `OW_reset`
sends its reset pulse without re-initialising the UART. -/
theorem runOps_status_counterexample :
    (runOps tapeBus
      (OW_reset tapeBus (exampleSession [Rx.byte 0xE0, Rx.timeout 0, Rx.byte 0xFF])).1
      [BusOp.sendBit 1]).status = HAL_TIMEOUT ∧
    (runOps tapeBus
      (OW_reset tapeBus (exampleSession [Rx.byte 0xE0, Rx.timeout 0, Rx.byte 0xFF])).1
      [BusOp.sendBit 1, BusOp.sendBit 1]).status = HAL_OK ∧
    (OW_reset tapeBus (runOps tapeBus
      (OW_reset tapeBus (exampleSession [Rx.byte 0xE0, Rx.timeout 0, Rx.byte 0xFF])).1
      [BusOp.sendBit 1, BusOp.sendBit 1])).1.huart.log
      = [Event.setBaud 9600, Event.transmit 0xF0, Event.setBaud 115200, Event.transmit 0xFF,
         Event.transmit 0xFF, Event.setBaud 9600, Event.transmit 0xF0,
         Event.setBaud 115200] := by
  decide


/-! ### The zero-fill loop of `DS18B20_init` -/

/-- For a structure of at most 255 bytes the zero-fill loop of `DS18B20_init` terminates
with every byte zero. -/
theorem DS18B20_init_zeroFill_zero (size : Nat) (hsize : size ≤ 255) (fuel : Nat) :
    ∀ (i : Nat) (p : List Nat), i ≤ size → size - i < fuel → p.length = size →
      p.take i = List.replicate i 0 →
      DS18B20_init_zeroFill size fuel i p = some (List.replicate size 0) := by
  induction fuel with
  | zero => intro i p _ h; omega
  | succ fuel ih =>
    intro i p hi hf hlen htake
    rw [DS18B20_init_zeroFill]
    by_cases h : i < size
    · rw [if_pos h, Nat.mod_eq_of_lt (by omega)]
      apply ih (i + 1) _ (by omega) (by omega) (by rw [List.length_set]; exact hlen)
      rw [take_set_succ 0 p i (by omega), htake, List.replicate_succ']
    · rw [if_neg h]
      have : i = size := by omega
      subst this
      rw [← hlen, List.take_length] at htake
      rw [htake, hlen]

/-- Claim C19, at the failing input. With `MAX_DS18B20_SENSORS = 17` the structure
`Ds18B20_t` has 264 bytes (32-bit target); the zero-fill loop of `DS18B20_init`, whose
counter is a `uint8_t`, then never leaves: within any number `n` of loop tests it has not
terminated, so `DS18B20_init` does not return, whatever the prior content `mem` of the
structure, the bus and the precision.  For the default capacity 3 (68 bytes) the loop does
terminate with every byte zero. -/
theorem DS18B20_init_zeroFill_diverges {σ : Type} (bus : Bus σ) (fuel n : Nat)
    (mem : List Nat) (huart : UART_HandleTypeDef σ) (precision : Nat) :
    DS18B20_init_zeroFill 264 n 0 mem = none ∧
    DS18B20_init 17 264 bus fuel mem huart precision = none ∧
    DS18B20_init_zeroFill 68 257 0 (List.replicate 68 0xAA) = some (List.replicate 68 0) :=
  ⟨DS18B20_init_zeroFill_none 264 (by decide) n 0 mem (by decide),
   by
    unfold DS18B20_init
    rw [DS18B20_init_zeroFill_none 264 (by decide) 257 0 mem (by decide)],
   DS18B20_init_zeroFill_zero 68 (by decide) 257 0 _ (by decide) (by decide) (by decide)
     (by decide)⟩

/-! ### The state a search call leaves -/

/-- A decoded bit is 0 or 1. -/
theorem slotBit_le (rx : Rx) : slotBit rx = 0 ∨ slotBit rx = 1 := by
  unfold slotBit; split <;> simp

/-- The last 0 branch among the first `n` positions is at most `n`. -/
theorem lastZeroBranch_le (tape : List Rx) (rom : List Nat) (n : Nat) :
    lastZeroBranch tape rom n ≤ n := by
  induction n with
  | zero => exact Nat.le_refl _
  | succ n ih =>
    rw [lastZeroBranch]
    split
    · exact Nat.le_refl _
    · omega

/-- The last 0 branch among the first `n` positions depends on the first `n` address bits
only. -/
theorem lastZeroBranch_congr (tape : List Rx) (rom rom2 : List Nat) (n : Nat)
    (h : ∀ j < n, romBit rom j = romBit rom2 j) :
    lastZeroBranch tape rom n = lastZeroBranch tape rom2 n := by
  induction n with
  | zero => rfl
  | succ n ih =>
    rw [lastZeroBranch, lastZeroBranch, ih (fun j hj => h j (by omega))]
    simp only [zeroBranchAt, h n (Nat.lt_succ_self n)]

/-- `OW_reset` on a tape wire consumes the first entry and keeps the search state. -/
theorem tape_reset (ow : OneWire_t (List Rx)) :
    (OW_reset tapeBus ow).1.huart.wire = ow.huart.wire.drop 1 ∧
    (OW_reset tapeBus ow).1.ROM_NO = ow.ROM_NO ∧
    (OW_reset tapeBus ow).1.LastDeviceFlag = ow.LastDeviceFlag := by
  have := tapeBus_drop ow.huart.wire 0 OW_RESET_SPEED 0xF0
  rw [List.drop_zero] at this
  by_cases h : ow.status ≠ HAL_OK
  · simp [OW_reset, h, OW_resetUART, OW_setBaudRate, HAL_UART_exchange, this]
  · simp [OW_reset, h, OW_setBaudRate, HAL_UART_exchange, this]

/-- The loop of `OW_sendByte` keeps the search state. -/
theorem OW_sendByte_loop_frame {σ : Type} (bus : Bus σ) (bits : List Nat) :
    ∀ ow : OneWire_t σ, (OW_sendByte_loop bus bits ow).ROM_NO = ow.ROM_NO ∧
      (OW_sendByte_loop bus bits ow).LastDeviceFlag = ow.LastDeviceFlag := by
  induction bits with
  | nil => intro ow; exact ⟨rfl, rfl⟩
  | cons b rest ih =>
    intro ow
    rw [OW_sendByte_loop]
    exact ih (OW_sendBit bus ow b)

/-- One execution of the loop body of `OW_search` on a tape wire, `i` address bits being
done. -/
theorem tape_search_body (tape : List Rx) (ow : OneWire_t (List Rx)) (i lz : Nat)
    (hw : ow.huart.wire = tape.drop (9 + 3 * i)) (hi : i < 64) (hlen : ow.ROM_NO.length = 8) :
    ((OW_search_body tapeBus ow (searchLocalsAt i lz)).2 = true ∧
      (OW_search_body tapeBus ow (searchLocalsAt i lz)).1.2 = searchLocalsAt i lz ∧
      (OW_search_body tapeBus ow (searchLocalsAt i lz)).1.1.LastDeviceFlag
        = ow.LastDeviceFlag) ∨
    ((OW_search_body tapeBus ow (searchLocalsAt i lz)).2 = false ∧
      (OW_search_body tapeBus ow (searchLocalsAt i lz)).1.2 = searchLocalsAt (i + 1)
        (if zeroBranchAt tape (OW_search_body tapeBus ow (searchLocalsAt i lz)).1.1.ROM_NO i
          then i + 1 else lz) ∧
      (∀ j, j ≠ i → romBit (OW_search_body tapeBus ow (searchLocalsAt i lz)).1.1.ROM_NO j
        = romBit ow.ROM_NO j) ∧
      (OW_search_body tapeBus ow (searchLocalsAt i lz)).1.1.ROM_NO.length = 8 ∧
      (OW_search_body tapeBus ow (searchLocalsAt i lz)).1.1.LastDeviceFlag
        = ow.LastDeviceFlag ∧
      (OW_search_body tapeBus ow (searchLocalsAt i lz)).1.1.huart.wire
        = tape.drop (9 + 3 * (i + 1))) := by
  obtain ⟨w1, _, v1⟩ := tape_receiveBit tape (9 + 3 * i) ow hw
  obtain ⟨w2, _, v2⟩ := tape_receiveBit tape (9 + 3 * i + 1) (OW_receiveBit tapeBus ow).1 w1
  have e10 : 9 + 3 * i + 1 = 10 + 3 * i := by omega
  rw [e10] at v2
  have v1' : (OW_receiveBit tapeBus ow).2 = slotBit (tapeAt tape (9 + 3 * i)) := v1
  have v2' : (OW_receiveBit tapeBus (OW_receiveBit tapeBus ow).1).2
      = slotBit (tapeAt tape (10 + 3 * i)) := v2
  by_cases hb : slotBit (tapeAt tape (9 + 3 * i)) = 1 ∧ slotBit (tapeAt tape (10 + 3 * i)) = 1
  · left
    have hb2 : (OW_receiveBit tapeBus ow).2 = 1 ∧
        (OW_receiveBit tapeBus (OW_receiveBit tapeBus ow).1).2 = 1 := by
      rw [v1', v2']; exact hb
    unfold OW_search_body
    simp only [if_pos hb2]
    and_intros <;> trivial
  · right
    have hD : ∀ D : Nat, D = 0 ∨ D = 1 → (decide (D = 1)).toNat = D := by
      intro D h
      rcases h with h | h <;> subst h <;> rfl
    have hdir01 : ∀ (a b : Nat) (c1 c2 c3 : Prop) [Decidable c1] [Decidable c2] [Decidable c3],
        (a = 0 ∨ a = 1) →
        ((if a ≠ b then a else if c1 then (if c2 then 1 else 0) else (if c3 then 1 else 0))
          = 0 ∨
         (if a ≠ b then a else if c1 then (if c2 then 1 else 0) else (if c3 then 1 else 0))
          = 1) := by
      intro a b c1 c2 c3 _ _ _ ha
      split_ifs <;> first | exact ha | simp
    obtain ⟨s1, s2, s3, _, s5, s6⟩ := OW_search_body_spec tapeBus ow (searchLocalsAt i lz)
      (slotBit (tapeAt tape (9 + 3 * i))) (slotBit (tapeAt tape (10 + 3 * i)))
      (decide ((if slotBit (tapeAt tape (9 + 3 * i)) ≠ slotBit (tapeAt tape (10 + 3 * i))
        then slotBit (tapeAt tape (9 + 3 * i))
        else if (searchLocalsAt i lz).id_bit_number < ow.LastDiscrepancy then
          (if (ow.ROM_NO.getD (searchLocalsAt i lz).rom_byte_number 0
            &&& (searchLocalsAt i lz).rom_byte_mask) > 0 then 1 else 0)
        else (if (searchLocalsAt i lz).id_bit_number = ow.LastDiscrepancy then 1 else 0))
        = 1)).toNat
      v1' v2' hb (hD _ (hdir01 _ _ _ _ _ (slotBit_le _)))
    generalize hB : decide ((if slotBit (tapeAt tape (9 + 3 * i))
          ≠ slotBit (tapeAt tape (10 + 3 * i))
        then slotBit (tapeAt tape (9 + 3 * i))
        else if (searchLocalsAt i lz).id_bit_number < ow.LastDiscrepancy then
          (if (ow.ROM_NO.getD (searchLocalsAt i lz).rom_byte_number 0
            &&& (searchLocalsAt i lz).rom_byte_mask) > 0 then 1 else 0)
        else (if (searchLocalsAt i lz).id_bit_number = ow.LastDiscrepancy then 1 else 0))
        = 1) = B at s2 s3 s6
    have hrom : ∀ j, romBit (OW_search_body tapeBus ow (searchLocalsAt i lz)).1.1.ROM_NO j
        = if j = i then B else romBit ow.ROM_NO j := by
      intro j
      rw [s3]
      exact romBit_set ow.ROM_NO i j B hlen hi
    refine ⟨s1, ?_, ?_, ?_, s5, ?_⟩
    · rw [s2]
      have := searchLocalsAt_step i
        (if zeroBranchAt tape (OW_search_body tapeBus ow (searchLocalsAt i lz)).1.1.ROM_NO i
          then i + 1 else lz) hi
      rw [← this]
      congr 1
      have hz : zeroBranchAt tape (OW_search_body tapeBus ow (searchLocalsAt i lz)).1.1.ROM_NO i
          = (slotBit (tapeAt tape (9 + 3 * i)) == 0 && slotBit (tapeAt tape (10 + 3 * i)) == 0
              && !B) := by
        unfold zeroBranchAt
        rw [hrom i, if_pos rfl]
      rw [hz]
      rcases slotBit_le (tapeAt tape (9 + 3 * i)) with ha | ha <;>
        rcases slotBit_le (tapeAt tape (10 + 3 * i)) with hc | hc <;>
        cases B <;> simp [ha, hc, searchLocalsAt] at hb ⊢
    · intro j hj
      rw [hrom j, if_neg hj]
    · rw [s3]; simpa using hlen
    · rw [s6]
      simp only [HAL_UART_exchange, w2, tapeBus_drop]
      exact congrArg (fun k => List.drop k tape) (by omega)

/-- The loop of `OW_search` on a tape wire: it is left either through `break`, with the bit
counter below 65, or after 64 bits, with `last_zero` the last discrepancy at which the pass
took the 0 branch. -/
theorem tape_search_loop (tape : List Rx) (n : Nat) :
    ∀ (i : Nat) (ow : OneWire_t (List Rx)), i + n = 64 → 0 < n →
      ow.huart.wire = tape.drop (9 + 3 * i) → ow.ROM_NO.length = 8 →
      ∃ ow2 v2, OW_search_loop tapeBus n ow (searchLocalsAt i (lastZeroBranch tape ow.ROM_NO i))
          = some (ow2, v2) ∧
        ow2.LastDeviceFlag = ow.LastDeviceFlag ∧
        (v2.id_bit_number < 65 ∨
          v2 = searchLocalsAt 64 (lastZeroBranch tape ow2.ROM_NO 64)) := by
  induction n with
  | zero => intro i ow _ h; omega
  | succ n ih =>
    intro i ow hin _ hw hlen
    have hi : i < 64 := by omega
    rw [OW_search_loop]
    have hbody := tape_search_body tape ow i (lastZeroBranch tape ow.ROM_NO i) hw hi hlen
    generalize OW_search_body tapeBus ow (searchLocalsAt i (lastZeroBranch tape ow.ROM_NO i))
      = X at hbody ⊢
    rcases hbody with ⟨b1, b2, b3⟩ | ⟨b1, b2, b3, b4, b5, b6⟩
    · simp only [b1, if_true]
      refine ⟨_, _, rfl, b3, Or.inl ?_⟩
      rw [b2]
      simp only [searchLocalsAt]
      omega
    · have hlz : (if zeroBranchAt tape X.1.1.ROM_NO i then i + 1
            else lastZeroBranch tape ow.ROM_NO i)
          = lastZeroBranch tape X.1.1.ROM_NO (i + 1) := by
        rw [lastZeroBranch_congr tape ow.ROM_NO X.1.1.ROM_NO i
          (fun j hj => (b3 j (by omega)).symm)]
        rfl
      rw [hlz] at b2
      simp only [b1, Bool.false_eq_true, if_false]
      by_cases hlast : i + 1 < 64
      · have hlt : X.1.2.rom_byte_number < 8 := by
          rw [b2]; simp only [searchLocalsAt]; omega
        rw [if_pos hlt, b2]
        obtain ⟨ow2, v2, c1, c2, c3⟩ := ih (i + 1) _ (by omega) (by omega) b6 b4
        exact ⟨ow2, v2, c1, c2.trans b5, c3⟩
      · have h64 : i + 1 = 64 := by omega
        have hlt : ¬ X.1.2.rom_byte_number < 8 := by
          rw [b2]; simp only [searchLocalsAt]; omega
        rw [if_neg hlt]
        refine ⟨_, _, rfl, b5, Or.inr ?_⟩
        rw [b2, h64]

/-- Every call of `OW_search` on a tape wire returns and leaves the search state of
`searchPost`. -/
theorem tape_search_post (ow : OneWire_t (List Rx)) (command : Nat)
    (hlen : ow.ROM_NO.length = 8) :
    ∃ r, OW_search tapeBus ow command = some r ∧ searchPost ow.huart.wire r := by
  by_cases hflag : ow.LastDeviceFlag = 0
  · by_cases hres : (OW_reset tapeBus ow).2 = 0
    · refine ⟨(OW_resetSearch (OW_reset tapeBus ow).1, 0), ?_, Or.inr ⟨rfl, rfl, rfl, rfl⟩⟩
      simp [OW_search, hflag, hres]
    · obtain ⟨r1, r2, r3⟩ := tape_reset ow
      obtain ⟨s1, _⟩ := tape_sendByte_loop ow.huart.wire (byteToBits command) 1
        (OW_reset tapeBus ow).1 r1
      obtain ⟨f1, f2⟩ := OW_sendByte_loop_frame tapeBus (byteToBits command)
        (OW_reset tapeBus ow).1
      rw [byteToBits_length] at s1
      obtain ⟨ow2, v2, l1, l2, l3⟩ := tape_search_loop ow.huart.wire 64 0
        (OW_sendByte tapeBus (OW_reset tapeBus ow).1 command) rfl (by decide) s1
        (by rw [OW_sendByte, f1, r2]; exact hlen)
      have l1' : OW_search_loop tapeBus 64 (OW_sendByte tapeBus (OW_reset tapeBus ow).1 command)
          { id_bit_number := 1, last_zero := 0, rom_byte_number := 0, rom_byte_mask := 1 }
          = some (ow2, v2) := l1
      have hflag2 : ow2.LastDeviceFlag = 0 := by
        rw [l2, OW_sendByte, f2, r3, hflag]
      unfold OW_search
      simp only [hflag, if_true, if_neg hres, l1']
      rcases l3 with hlt | hv
      · refine ⟨(OW_resetSearch ow2, 0), ?_, Or.inr ⟨rfl, rfl, rfl, rfl⟩⟩
        simp [hlt]
      · have hid : ¬ (v2.id_bit_number < 65) := by rw [hv]; simp [searchLocalsAt]
        have hlz : v2.last_zero = lastZeroBranch ow.huart.wire ow2.ROM_NO 64 := by rw [hv]; rfl
        simp only [hid, not_false_eq_true, if_true, hlz]
        by_cases hz : ow2.ROM_NO.getD 0 0 = 0
        · have hz2 : ow2.ROM_NO[0]?.getD 0 = 0 := by simpa using hz
          by_cases hL : lastZeroBranch ow.huart.wire ow2.ROM_NO 64 = 0
          · refine ⟨(OW_resetSearch { ow2 with
              LastDiscrepancy := lastZeroBranch ow.huart.wire ow2.ROM_NO 64,
              LastDeviceFlag := 1 }, 0), ?_, Or.inr ⟨rfl, rfl, rfl, rfl⟩⟩
            simp [hL, hz2]
          · refine ⟨(OW_resetSearch { ow2 with
              LastDiscrepancy := lastZeroBranch ow.huart.wire ow2.ROM_NO 64 }, 0), ?_,
              Or.inr ⟨rfl, rfl, rfl, rfl⟩⟩
            simp [hL, hz2]
        · have hz2 : ¬ ow2.ROM_NO[0]?.getD 0 = 0 := by simpa using hz
          by_cases hL : lastZeroBranch ow.huart.wire ow2.ROM_NO 64 = 0
          · refine ⟨({ ow2 with
              LastDiscrepancy := lastZeroBranch ow.huart.wire ow2.ROM_NO 64,
              LastDeviceFlag := 1 }, 1), ?_, Or.inl ⟨rfl, hz, rfl, ?_, ?_⟩⟩
            · simp [hL, hz2]
            · exact lastZeroBranch_le _ _ _
            · simp [hL]
          · refine ⟨({ ow2 with
              LastDiscrepancy := lastZeroBranch ow.huart.wire ow2.ROM_NO 64 }, 1), ?_,
              Or.inl ⟨rfl, hz, rfl, ?_, ?_⟩⟩
            · simp [hL, hz2]
            · exact lastZeroBranch_le _ _ _
            · simp [hL, hflag2]
  · refine ⟨(OW_resetSearch ow, 0), ?_, Or.inr ⟨rfl, rfl, rfl, rfl⟩⟩
    simp [OW_search, hflag]

/-- Claim C20. On a wire that replays any sequence of receive outcomes (`tapeBus`), from
any session state (with its eight-byte `ROM_NO`), each of `OW_search`, `OW_first` and
`OW_next` returns, and leaves the state `searchPost`: either it returned 1, `ROM_NO[0]` is
non-zero, `LastDiscrepancy` is the position (at most 64) of the last discrepancy at which
this pass took the 0 branch (0 when there was none), and `LastDeviceFlag = 1` exactly when
`LastDiscrepancy = 0`; or it returned 0 and `LastDiscrepancy`, `LastFamilyDiscrepancy`
and `LastDeviceFlag` are all 0.  `LastDiscrepancy` is 0 after `OW_resetSearch`, and after
a call that leaves `LastDeviceFlag = 1` (the final device was found). -/
theorem OW_search_post_state (ow : OneWire_t (List Rx)) (command : Nat)
    (hlen : ow.ROM_NO.length = 8) :
    (∃ r, OW_search tapeBus ow command = some r ∧ searchPost ow.huart.wire r) ∧
    (∃ r, OW_first tapeBus ow = some r ∧ searchPost ow.huart.wire r) ∧
    (∃ r, OW_next tapeBus ow = some r ∧ searchPost ow.huart.wire r) ∧
    (OW_resetSearch ow).LastDiscrepancy = 0 ∧
    (∀ r, OW_search tapeBus ow command = some r → r.1.LastDeviceFlag = 1 →
      r.1.LastDiscrepancy = 0) := by
  refine ⟨tape_search_post ow command hlen, tape_search_post (OW_resetSearch ow) _ hlen,
    tape_search_post ow _ hlen, rfl, ?_⟩
  intro r hr hf
  obtain ⟨r2, h1, h2⟩ := tape_search_post ow command hlen
  rw [hr, Option.some.injEq] at h1
  subst h1
  rcases h2 with ⟨_, _, _, _, h⟩ | ⟨_, h, _, _⟩
  · exact h.mp hf
  · exact h

set_option maxRecDepth 1000000 in
/-- Witness for C20: on the tape of a single device `28 FF 01 02 03 04 05 62`, `OW_first`
returns 1 with that address, `LastDiscrepancy = 0` and `LastDeviceFlag = 1`; on a tape
with a discrepancy at the first bit and ones after it, `OW_first` takes the 0 branch there
and returns 1 with `LastDiscrepancy = 1` and `LastDeviceFlag = 0`; on a tape that ends after
the presence pulse every receive times out, the address read is zero and `OW_first`
returns 0 with the three search fields 0. -/
theorem OW_search_post_state_witness :
    (∃ r, OW_first tapeBus (exampleSession (deviceTape [0x28, 0xFF, 1, 2, 3, 4, 5, 0x62]))
        = some r ∧
      searchPost (exampleSession (deviceTape [0x28, 0xFF, 1, 2, 3, 4, 5, 0x62])).huart.wire r) ∧
    (OW_first tapeBus (exampleSession (deviceTape [0x28, 0xFF, 1, 2, 3, 4, 5, 0x62]))).map
        (fun r => (r.2, r.1.ROM_NO, r.1.LastDiscrepancy, r.1.LastDeviceFlag))
      = some (1, [0x28, 0xFF, 1, 2, 3, 4, 5, 0x62], 0, 1) ∧
    (OW_first tapeBus (exampleSession (Rx.byte 0xE0 :: (List.replicate 8 (Rx.byte 0xFF) ++
        ([Rx.byte 0x00, Rx.byte 0x00, Rx.byte 0x00] ++
          (List.replicate 63 [Rx.byte 0xFF, Rx.byte 0x00, Rx.byte 0xFF]).flatten))))).map
        (fun r => (r.2, r.1.ROM_NO, r.1.LastDiscrepancy, r.1.LastDeviceFlag))
      = some (1, [0xFE, 0xFF, 0xFF, 0xFF, 0xFF, 0xFF, 0xFF, 0xFF], 1, 0) ∧
    (OW_first tapeBus (exampleSession [Rx.byte 0xE0])).map
        (fun r => (r.2, r.1.LastDiscrepancy, r.1.LastFamilyDiscrepancy, r.1.LastDeviceFlag))
      = some (0, 0, 0, 0) :=
  ⟨(OW_search_post_state (exampleSession (deviceTape [0x28, 0xFF, 1, 2, 3, 4, 5, 0x62]))
      OW_CMD_SEARCHROM rfl).2.1, by decide, by decide, by decide⟩

/-! ### Reset slot that times out -/

/-- Claim C24. When the receive in the reset slot times out, whatever the receive buffer
would have held (`resetBack` is initialised to 0 and stays 0), `OW_reset` returns 1, that
is, reports presence, and leaves `HAL_TIMEOUT` as the session status. -/
theorem OW_reset_timeout {σ : Type} (bus : Bus σ) (ow : OneWire_t σ) (stale : Nat)
    (h : (bus ow.huart.wire OW_RESET_SPEED 0xF0).2 = Rx.timeout stale) :
    (OW_reset bus ow).2 = 1 ∧ (OW_reset bus ow).1.status = HAL_TIMEOUT := by
  by_cases hs : ow.status ≠ HAL_OK
  · simp [OW_reset, hs, OW_resetUART, OW_setBaudRate, HAL_UART_exchange, h, Rx.status,
      Rx.buffer]
  · simp [OW_reset, hs, OW_setBaudRate, HAL_UART_exchange, h, Rx.status, Rx.buffer]

set_option maxRecDepth 100000 in
/-- Witness for C24: a wire on which the reset slot times out. -/
theorem OW_reset_timeout_witness :
    (OW_reset tapeBus (exampleSession [Rx.timeout 0xF0])).2 = 1 ∧
    (OW_reset tapeBus (exampleSession [Rx.timeout 0xF0])).1.status = HAL_TIMEOUT :=
  OW_reset_timeout tapeBus (exampleSession [Rx.timeout 0xF0]) 0xF0 rfl

/-! ### Bounds of the search loop -/

/-- More iterations allowed do not change the result of a loop that was left. -/
theorem OW_search_loop_mono {σ : Type} (bus : Bus σ) (n : Nat) :
    ∀ (ow : OneWire_t σ) (v : SearchLocals) (r : OneWire_t σ × SearchLocals),
      OW_search_loop bus n ow v = some r → OW_search_loop bus (n + 1) ow v = some r := by
  induction n with
  | zero => intro ow v r h; simp [OW_search_loop] at h
  | succ n ih =>
    intro ow v r h
    rw [OW_search_loop] at h
    rw [OW_search_loop]
    by_cases h1 : (OW_search_body bus ow v).2 = true
    · simp only [h1, if_true] at h ⊢
      exact h
    · simp only [h1, Bool.false_eq_true, if_false] at h ⊢
      by_cases h2 : (OW_search_body bus ow v).1.2.rom_byte_number < 8
      · rw [if_pos h2] at h ⊢
        exact ih _ _ _ h
      · rw [if_neg h2] at h ⊢
        exact h

/-- The loop of `OW_search`, entered with `i` bits done, is left within `64 - i`
iterations, with the bit counter between `i + 1` and 65 and the byte index at most 8; at
the start of every iteration the bit counter is between `i + 1` and 64, it is not at the
top of its 8-bit range, and the byte index is at most 7. -/
theorem OW_search_loop_trace_bounds {σ : Type} (bus : Bus σ) (n : Nat) :
    ∀ (i : Nat) (ow : OneWire_t σ) (lz : Nat), i < 64 →
      (OW_search_loop_trace bus n ow (searchLocalsAt i lz)).length ≤ 64 - i ∧
      (∀ v ∈ OW_search_loop_trace bus n ow (searchLocalsAt i lz),
        i + 1 ≤ v.id_bit_number ∧ v.id_bit_number ≤ 64 ∧ v.rom_byte_number ≤ 7 ∧
        v.rom_byte_number = (v.id_bit_number - 1) / 8 ∧
        v.rom_byte_mask = 2 ^ ((v.id_bit_number - 1) % 8)) := by
  induction n with
  | zero =>
    intro i ow lz hi
    exact ⟨Nat.zero_le _, fun v hv => absurd hv (List.not_mem_nil v)⟩
  | succ n ih =>
    intro i ow lz hi
    have hhead : i + 1 ≤ (searchLocalsAt i lz).id_bit_number ∧
        (searchLocalsAt i lz).id_bit_number ≤ 64 ∧ (searchLocalsAt i lz).rom_byte_number ≤ 7 ∧
        (searchLocalsAt i lz).rom_byte_number = ((searchLocalsAt i lz).id_bit_number - 1) / 8 ∧
        (searchLocalsAt i lz).rom_byte_mask
          = 2 ^ (((searchLocalsAt i lz).id_bit_number - 1) % 8) := by
      simp only [searchLocalsAt, Nat.add_sub_cancel]
      refine ⟨Nat.le_refl _, by omega, by omega, trivial, trivial⟩
    rw [OW_search_loop_trace]
    rcases OW_search_body_locals bus ow i lz hi with hb | ⟨hb, lz2, hv⟩
    · simp only [hb, if_true, List.length_singleton, List.mem_singleton]
      refine ⟨by omega, ?_⟩
      intro v hv
      rw [hv]
      exact hhead
    · simp only [hb, hv, Bool.false_eq_true, if_false]
      by_cases hlt : (searchLocalsAt (i + 1) lz2).rom_byte_number < 8
      · rw [if_pos hlt]
        have hi2 : i + 1 < 64 := by
          simp only [searchLocalsAt] at hlt
          omega
        obtain ⟨l1, l2⟩ := ih (i + 1) (OW_search_body bus ow (searchLocalsAt i lz)).1.1 lz2 hi2
        refine ⟨by rw [List.length_cons]; omega, ?_⟩
        intro v hv
        rcases List.mem_cons.mp hv with h | h
        · rw [h]; exact hhead
        · obtain ⟨a, b, c, d, e⟩ := l2 v h
          exact ⟨by omega, b, c, d, e⟩
      · rw [if_neg hlt]
        simp only [List.length_singleton, List.mem_singleton]
        refine ⟨by omega, ?_⟩
        intro v hv
        rw [hv]
        exact hhead

/-- When the body of the loop of `OW_search` leaves through `break`, the loop variables
are what they were. -/
theorem OW_search_body_break {σ : Type} (bus : Bus σ) (ow : OneWire_t σ) (v : SearchLocals)
    (h : (OW_search_body bus ow v).2 = true) : (OW_search_body bus ow v).1.2 = v := by
  by_cases hc : (OW_receiveBit bus ow).2 = 1 ∧
      (OW_receiveBit bus (OW_receiveBit bus ow).1).2 = 1
  · unfold OW_search_body
    simp only [if_pos hc]
  · have := (OW_search_body_spec bus ow v _ _ _ rfl rfl hc rfl).1
    rw [this] at h
    cases h

/-- The loop of `OW_search`, entered with `i` bits done and allowed `64 - i` iterations, is
left, with the bit counter between 1 and 65 and the byte index at most 8. -/
theorem OW_search_loop_result {σ : Type} (bus : Bus σ) (n : Nat) :
    ∀ (i : Nat) (ow : OneWire_t σ) (lz : Nat), i + n = 64 → 0 < n →
      ∃ r, OW_search_loop bus n ow (searchLocalsAt i lz) = some r ∧
        1 ≤ r.2.id_bit_number ∧ r.2.id_bit_number ≤ 65 ∧ r.2.rom_byte_number ≤ 8 := by
  induction n with
  | zero => intro i ow lz _ h; omega
  | succ n ih =>
    intro i ow lz hin _
    rw [OW_search_loop]
    rcases OW_search_body_locals bus ow i lz (by omega) with hb | ⟨hb, lz2, hv⟩
    · simp only [hb, if_true]
      refine ⟨_, rfl, ?_⟩
      rw [OW_search_body_break bus ow _ hb]
      simp only [searchLocalsAt]
      omega
    · simp only [hb, Bool.false_eq_true, if_false]
      by_cases hlt : (OW_search_body bus ow (searchLocalsAt i lz)).1.2.rom_byte_number < 8
      · rw [if_pos hlt, hv]
        rw [hv] at hlt
        apply ih (i + 1) _ _ (by omega)
        simp only [searchLocalsAt] at hlt
        omega
      · rw [if_neg hlt]
        refine ⟨_, rfl, ?_⟩
        rw [hv]
        simp only [searchLocalsAt]
        omega

/-- The loop of `OW_search` gives the same result whatever the number of iterations
allowed, from 64 on. -/
theorem OW_search_loop_fuel {σ : Type} (bus : Bus σ) (ow : OneWire_t σ) (v : SearchLocals)
    (r : OneWire_t σ × SearchLocals) (h : OW_search_loop bus 64 ow v = some r) (k : Nat) :
    OW_search_loop bus (64 + k) ow v = some r := by
  induction k with
  | zero => exact h
  | succ k ih => exact OW_search_loop_mono bus (64 + k) ow v r ih

/-- Claim C21. For every bus (every sequence of observed bytes) and every session state, the
bit loop of `OW_search`, started as `OW_search` starts it: is left after at most 64
executions of its body, however many are allowed; at the start of each execution
`id_bit_number` is between 1 and 64 (so the increment never wraps the `uint8_t`) and the
index `rom_byte_number` used for `ROM_NO` is between 0 and 7; and on exit `id_bit_number`
is between 1 and 65 and `rom_byte_number` at most 8. -/
theorem OW_search_loop_bounds {σ : Type} (bus : Bus σ) (ow : OneWire_t σ) (k : Nat) :
    (OW_search_loop_trace bus k ow
      { id_bit_number := 1, last_zero := 0, rom_byte_number := 0, rom_byte_mask := 1 }).length
      ≤ 64 ∧
    (∀ v ∈ OW_search_loop_trace bus k ow
        { id_bit_number := 1, last_zero := 0, rom_byte_number := 0, rom_byte_mask := 1 },
      1 ≤ v.id_bit_number ∧ v.id_bit_number ≤ 64 ∧ v.id_bit_number + 1 < 256 ∧
      v.rom_byte_number ≤ 7) ∧
    (∃ r, OW_search_loop bus 64 ow
        { id_bit_number := 1, last_zero := 0, rom_byte_number := 0, rom_byte_mask := 1 }
        = some r ∧
      OW_search_loop bus (64 + k) ow
        { id_bit_number := 1, last_zero := 0, rom_byte_number := 0, rom_byte_mask := 1 }
        = some r ∧
      1 ≤ r.2.id_bit_number ∧ r.2.id_bit_number ≤ 65 ∧ r.2.rom_byte_number ≤ 8) ∧
    (OW_search bus ow OW_CMD_SEARCHROM).isSome = true := by
  have h0 : ({ id_bit_number := 1, last_zero := 0, rom_byte_number := 0, rom_byte_mask := 1 }
      : SearchLocals) = searchLocalsAt 0 0 := rfl
  rw [h0]
  obtain ⟨t1, t2⟩ := OW_search_loop_trace_bounds bus k 0 ow 0 (by decide)
  obtain ⟨r, r1, r2⟩ := OW_search_loop_result bus 64 0 ow 0 rfl (by decide)
  refine ⟨t1, ?_, ⟨r, r1, OW_search_loop_fuel bus ow _ r r1 k, r2⟩, OW_search_isSome bus ow _⟩
  intro v hv
  obtain ⟨a, b, c, _, _⟩ := t2 v hv
  exact ⟨by omega, b, by omega, c⟩

set_option maxRecDepth 1000000 in
/-- Witness for C21: on the tape of a single device the body runs 64 times, the last time
with bit counter 64 and byte index 7; on a tape where the third bit and its complement
both read 1 the loop is left in the third iteration; on a wire where every receive times
out the body runs 64 times as well, even when 1000 iterations are allowed. -/
theorem OW_search_loop_bounds_witness :
    (OW_search_loop_trace tapeBus 1000
        (exampleSession ((deviceTape [0x28, 0xFF, 1, 2, 3, 4, 5, 0x62]).drop 9))
        { id_bit_number := 1, last_zero := 0, rom_byte_number := 0, rom_byte_mask := 1 }).length
      ≤ 64 ∧
    (({ id_bit_number := 64, last_zero := 0, rom_byte_number := 7, rom_byte_mask := 128 }
        : SearchLocals) ∈ OW_search_loop_trace tapeBus 1000
        (exampleSession ((deviceTape [0x28, 0xFF, 1, 2, 3, 4, 5, 0x62]).drop 9))
        { id_bit_number := 1, last_zero := 0, rom_byte_number := 0, rom_byte_mask := 1 } ∧
      (1 ≤ 64 ∧ 64 ≤ 64 ∧ 64 + 1 < 256 ∧ 7 ≤ 7)) ∧
    (OW_search_loop_trace tapeBus 1000
        (exampleSession ((deviceTape [0x28, 0xFF, 1, 2, 3, 4, 5, 0x62]).drop 9))
        { id_bit_number := 1, last_zero := 0, rom_byte_number := 0, rom_byte_mask := 1 }).map
        (fun v => (v.id_bit_number, v.rom_byte_number))
      = (List.range 64).map (fun i => (i + 1, i / 8)) ∧
    (OW_search_loop_trace tapeBus 1000
        (exampleSession [Rx.byte 0, Rx.byte 0xFF, Rx.byte 0, Rx.byte 0, Rx.byte 0xFF,
          Rx.byte 0, Rx.byte 0xFF, Rx.byte 0xFF])
        { id_bit_number := 1, last_zero := 0, rom_byte_number := 0, rom_byte_mask := 1 }).map
        (fun v => (v.id_bit_number, v.rom_byte_number))
      = [(1, 0), (2, 0), (3, 0)] ∧
    (OW_search_loop_trace tapeBus 1000 (exampleSession [])
        { id_bit_number := 1, last_zero := 0, rom_byte_number := 0, rom_byte_mask := 1 }).length
      = 64 :=
  ⟨(OW_search_loop_bounds tapeBus
      (exampleSession ((deviceTape [0x28, 0xFF, 1, 2, 3, 4, 5, 0x62]).drop 9)) 1000).1,
   ⟨by decide, (OW_search_loop_bounds tapeBus
      (exampleSession ((deviceTape [0x28, 0xFF, 1, 2, 3, 4, 5, 0x62]).drop 9)) 1000).2.1
      { id_bit_number := 64, last_zero := 0, rom_byte_number := 7, rom_byte_mask := 128 }
      (by decide)⟩,
   by decide, by decide, by decide⟩

/-! ### Single-bit errors and the CRC check -/

/-- Shifting right distributes over exclusive or. -/
theorem shiftRight_xor (a b k : Nat) : (a ^^^ b) >>> k = (a >>> k) ^^^ (b >>> k) := by
  apply Nat.eq_of_testBit_eq
  intro i
  simp only [Nat.testBit_shiftRight, Nat.testBit_xor]

/-- One step of the inner loop of `OW_CRC8` is linear over GF(2). -/
theorem crc_step_linear (c1 c2 b1 b2 : Nat) :
    (if ((c1 ^^^ c2) ^^^ (b1 ^^^ b2)) &&& 0x01 ≠ 0 then ((c1 ^^^ c2) >>> 1) ^^^ 0x8C
      else (c1 ^^^ c2) >>> 1)
    = (if (c1 ^^^ b1) &&& 0x01 ≠ 0 then (c1 >>> 1) ^^^ 0x8C else c1 >>> 1) ^^^
      (if (c2 ^^^ b2) &&& 0x01 ≠ 0 then (c2 >>> 1) ^^^ 0x8C else c2 >>> 1) := by
  have hx : ((c1 ^^^ c2) ^^^ (b1 ^^^ b2)) &&& 1
      = ((c1 ^^^ b1) &&& 1) ^^^ ((c2 ^^^ b2) &&& 1) := by
    rw [← Nat.and_xor_distrib_right]
    congr 1
    simp only [Nat.xor_assoc]
    congr 1
    rw [← Nat.xor_assoc, Nat.xor_comm c2 b1, Nat.xor_assoc]
  rw [hx, shiftRight_xor]
  have h1 : (c1 ^^^ b1) &&& 1 = 0 ∨ (c1 ^^^ b1) &&& 1 = 1 := by
    rw [Nat.and_one_is_mod]; omega
  have h2 : (c2 ^^^ b2) &&& 1 = 0 ∨ (c2 ^^^ b2) &&& 1 = 1 := by
    rw [Nat.and_one_is_mod]; omega
  generalize c1 >>> 1 = x
  generalize c2 >>> 1 = y
  rcases h1 with h1 | h1 <;> rcases h2 with h2 | h2 <;> simp [h1, h2]
  · rw [Nat.xor_assoc]
  · rw [Nat.xor_assoc, Nat.xor_comm y 140, Nat.xor_assoc]
  · rw [Nat.xor_comm y 140, Nat.xor_assoc, Nat.xor_cancel_left]

/-- The inner loop of `OW_CRC8` is linear over GF(2). -/
theorem OW_CRC8_bits_linear (n : Nat) : ∀ c1 c2 b1 b2 : Nat,
    OW_CRC8_bits n (c1 ^^^ c2) (b1 ^^^ b2)
      = OW_CRC8_bits n c1 b1 ^^^ OW_CRC8_bits n c2 b2 := by
  induction n with
  | zero => intro c1 c2 b1 b2; rfl
  | succ n ih =>
    intro c1 c2 b1 b2
    simp only [OW_CRC8_bits]
    rw [crc_step_linear, shiftRight_xor, ih]

/-- The outer loop of `OW_CRC8` is linear over GF(2). -/
theorem OW_CRC8_loop_linear (len : Nat) : ∀ (a e : List Nat) (c d : Nat),
    a.length = e.length →
    OW_CRC8_loop len (List.zipWith (fun x y => x ^^^ y) a e) (c ^^^ d)
      = OW_CRC8_loop len a c ^^^ OW_CRC8_loop len e d := by
  induction len with
  | zero => intro a e c d _; rfl
  | succ len ih =>
    intro a e c d hlen
    cases a with
    | nil =>
      cases e with
      | nil =>
        simp only [OW_CRC8_loop, List.zipWith_nil_left, List.headD_nil, List.tail_nil]
        have := OW_CRC8_bits_linear 8 c d 0 0
        rw [Nat.xor_self] at this
        rw [this]
        have h := ih [] [] (OW_CRC8_bits 8 c 0) (OW_CRC8_bits 8 d 0) rfl
        simpa using h
      | cons y e => simp at hlen
    | cons x a =>
      cases e with
      | nil => simp at hlen
      | cons y e =>
        simp only [OW_CRC8_loop, List.zipWith_cons_cons, List.headD_cons, List.tail_cons]
        rw [OW_CRC8_bits_linear]
        exact ih a e _ _ (by simpa using hlen)

/-- Changing one entry by a mask is adding the block that holds the mask there and zeros
elsewhere. -/
theorem set_xor_eq_zipWith : ∀ (l : List Nat) (j m : Nat), j < l.length →
    List.set l j (l.getD j 0 ^^^ m)
      = List.zipWith (fun x y => x ^^^ y) l (List.set (List.replicate l.length 0) j m) := by
  intro l
  induction l with
  | nil => intro j m h; simp at h
  | cons x l ih =>
    intro j m h
    cases j with
    | zero =>
      simp only [List.set_cons_zero, List.getD_cons_zero, List.length_cons,
        List.replicate_succ, List.zipWith_cons_cons, List.cons.injEq, true_and]
      clear ih h
      induction l with
      | nil => rfl
      | cons y l ih2 =>
        simp only [List.length_cons, List.replicate_succ, List.zipWith_cons_cons,
          Nat.xor_zero, List.cons.injEq, true_and]
        exact ih2
    | succ j =>
      simp only [List.set_cons_succ, List.getD_cons_succ, List.length_cons,
        List.replicate_succ, List.zipWith_cons_cons, Nat.xor_zero, List.cons.injEq, true_and]
      exact ih j m (by simpa using h)

/-- The loop of `OW_CRC8` reads the first `len` entries only. -/
theorem OW_CRC8_loop_set_beyond (len : Nat) : ∀ (a : List Nat) (j x c : Nat), len ≤ j →
    OW_CRC8_loop len (List.set a j x) c = OW_CRC8_loop len a c := by
  induction len with
  | zero => intro a j x c _; rfl
  | succ len ih =>
    intro a j x c hj
    cases a with
    | nil => rfl
    | cons y a =>
      cases j with
      | zero => omega
      | succ j =>
        simp only [OW_CRC8_loop, List.set_cons_succ, List.headD_cons, List.tail_cons]
        exact ih a j x _ (by omega)


set_option maxRecDepth 1000000 in
/-- The CRC of seven bytes with a single bit set is not zero. -/
theorem OW_CRC8_unit7 : ∀ k < 56,
    OW_CRC8_loop 7 (List.set (List.replicate 8 0) (k / 8) (2 ^ (k % 8))) 0 ≠ 0 := by
  decide

set_option maxRecDepth 1000000 in
/-- The CRC of eight bytes with a single bit set is not zero. -/
theorem OW_CRC8_unit8 : ∀ k < 64,
    OW_CRC8_loop 8 (List.set (List.replicate 9 0) (k / 8) (2 ^ (k % 8))) 0 ≠ 0 := by
  decide

/-- Claim C23. For `n = 8` (a ROM code) and `n = 9` (a scratchpad): when the last byte of
an `n`-byte block is the `OW_CRC8` of the `n - 1` bytes before it, then after flipping any
one of the `8 n` bits of the block the `OW_CRC8` of its first `n - 1` bytes differs from
its last byte, so the validation check fails. -/
theorem OW_CRC8_single_bit (n : Nat) (block : List Nat) (k : Nat) (hn : n = 8 ∨ n = 9)
    (hlen : block.length = n) (hcrc : OW_CRC8 block (n - 1) = block.getD (n - 1) 0)
    (hk : k < 8 * n) :
    OW_CRC8 (flipBit block k) (n - 1) ≠ (flipBit block k).getD (n - 1) 0 := by
  have hmod : (n - 1) % 256 = n - 1 := by
    rcases hn with h | h <;> subst h <;> rfl
  have hpow : 2 ^ (k % 8) ≠ 0 := Nat.pos_iff_ne_zero.mp (Nat.two_pow_pos _)
  unfold OW_CRC8 at hcrc ⊢
  rw [hmod] at hcrc ⊢
  by_cases hlast : k / 8 = n - 1
  · have hget : (flipBit block k).getD (n - 1) 0
        = block.getD (n - 1) 0 ^^^ 2 ^ (k % 8) := by
      unfold flipBit
      rw [hlast, List.getD_eq_getElem _ _ (by rw [List.length_set]; omega)]
      simp only [List.getElem_set_self]
    have hsame : OW_CRC8_loop (n - 1) (flipBit block k) 0 = OW_CRC8_loop (n - 1) block 0 := by
      unfold flipBit
      rw [hlast, OW_CRC8_loop_set_beyond (n - 1) block (n - 1) _ 0 (Nat.le_refl _)]
    rw [hget, hsame, hcrc]
    intro h
    have h2 : block.getD (n - 1) 0 ^^^ 0 = block.getD (n - 1) 0 ^^^ 2 ^ (k % 8) := by
      rw [Nat.xor_zero]; exact h
    exact hpow (Nat.xor_right_inj.mp h2).symm
  · have hj : k / 8 < n - 1 := by omega
    have hget : (flipBit block k).getD (n - 1) 0 = block.getD (n - 1) 0 := by
      unfold flipBit
      simp only [List.getD_eq_getElem?_getD]
      rw [List.getElem?_set_ne hlast]
    have hunit : OW_CRC8_loop (n - 1)
        (List.set (List.replicate block.length 0) (k / 8) (2 ^ (k % 8))) 0 ≠ 0 := by
      rcases hn with h | h
      · subst h
        rw [hlen]
        exact OW_CRC8_unit7 k (by omega)
      · subst h
        rw [hlen]
        exact OW_CRC8_unit8 k (by omega)
    have hlin : OW_CRC8_loop (n - 1) (flipBit block k) 0
        = OW_CRC8_loop (n - 1) block 0 ^^^ OW_CRC8_loop (n - 1)
            (List.set (List.replicate block.length 0) (k / 8) (2 ^ (k % 8))) 0 := by
      unfold flipBit
      rw [set_xor_eq_zipWith block (k / 8) _ (by omega)]
      have := OW_CRC8_loop_linear (n - 1) block
        (List.set (List.replicate block.length 0) (k / 8) (2 ^ (k % 8))) 0 0 (by simp)
      rw [Nat.xor_self] at this
      exact this
    rw [hget, hlin, ← hcrc]
    intro h
    have h2 : OW_CRC8_loop (n - 1) block 0 ^^^ OW_CRC8_loop (n - 1)
        (List.set (List.replicate block.length 0) (k / 8) (2 ^ (k % 8))) 0
        = OW_CRC8_loop (n - 1) block 0 ^^^ 0 := by
      rw [Nat.xor_zero]; exact h
    exact hunit (Nat.xor_right_inj.mp h2)

set_option maxRecDepth 100000 in
/-- Witness for C23: the ROM code `28 FF 01 02 03 04 05 62` with bit 13 flipped
(`28 DF ..`) and the scratchpad `F2 F9 7F FF 7F FF 0C 10 6C` with bit 70 of its CRC byte
flipped (`.. 2C`) both fail the check. -/
theorem OW_CRC8_single_bit_witness :
    flipBit [0x28, 0xFF, 1, 2, 3, 4, 5, 0x62] 13 = [0x28, 0xDF, 1, 2, 3, 4, 5, 0x62] ∧
    OW_CRC8 (flipBit [0x28, 0xFF, 1, 2, 3, 4, 5, 0x62] 13) (8 - 1)
      ≠ (flipBit [0x28, 0xFF, 1, 2, 3, 4, 5, 0x62] 13).getD (8 - 1) 0 ∧
    flipBit [0xF2, 0xF9, 0x7F, 0xFF, 0x7F, 0xFF, 0x0C, 0x10, 0x6C] 70
      = [0xF2, 0xF9, 0x7F, 0xFF, 0x7F, 0xFF, 0x0C, 0x10, 0x2C] ∧
    OW_CRC8 (flipBit [0xF2, 0xF9, 0x7F, 0xFF, 0x7F, 0xFF, 0x0C, 0x10, 0x6C] 70) (9 - 1)
      ≠ (flipBit [0xF2, 0xF9, 0x7F, 0xFF, 0x7F, 0xFF, 0x0C, 0x10, 0x6C] 70).getD (9 - 1) 0 :=
  ⟨by decide,
   OW_CRC8_single_bit 8 [0x28, 0xFF, 1, 2, 3, 4, 5, 0x62] 13 (Or.inl rfl) rfl (by decide)
     (by decide),
   by decide,
   OW_CRC8_single_bit 9 [0xF2, 0xF9, 0x7F, 0xFF, 0x7F, 0xFF, 0x0C, 0x10, 0x6C] 70 (Or.inr rfl)
     rfl (by decide) (by decide)⟩

/-! ### `OW_first` and stale search state -/

/-- `OW_receiveBit` depends on the UART handle only. -/
theorem OW_receiveBit_congr {σ : Type} (bus : Bus σ) (a b : OneWire_t σ)
    (h : a.huart = b.huart) :
    (OW_receiveBit bus a).2 = (OW_receiveBit bus b).2 ∧
    (OW_receiveBit bus a).1.huart = (OW_receiveBit bus b).1.huart ∧
    (OW_receiveBit bus a).1.status = (OW_receiveBit bus b).1.status := by
  unfold OW_receiveBit
  simp only [h]
  exact ⟨trivial, trivial, trivial⟩

/-- The bit `OW_receiveBit` returns is 0 or 1. -/
theorem OW_receiveBit_le {σ : Type} (bus : Bus σ) (a : OneWire_t σ) :
    (OW_receiveBit bus a).2 = 0 ∨ (OW_receiveBit bus a).2 = 1 := by
  unfold OW_receiveBit
  simp only []
  split
  · exact Or.inr rfl
  · exact Or.inl rfl

/-- Status and `LastFamilyDiscrepancy` after one execution of the loop body of `OW_search`
that does not leave through `break`. -/
theorem OW_search_body_spec2 {σ : Type} (bus : Bus σ) (ow : OneWire_t σ) (v : SearchLocals)
    (id_bit cmp_id_bit dir : Nat)
    (h1 : (OW_receiveBit bus ow).2 = id_bit)
    (h2 : (OW_receiveBit bus (OW_receiveBit bus ow).1).2 = cmp_id_bit)
    (h : ¬ (id_bit = 1 ∧ cmp_id_bit = 1))
    (hdir : dir = if id_bit ≠ cmp_id_bit then id_bit
      else if v.id_bit_number < ow.LastDiscrepancy then
        (if (ow.ROM_NO.getD v.rom_byte_number 0 &&& v.rom_byte_mask) > 0 then 1 else 0)
      else (if v.id_bit_number = ow.LastDiscrepancy then 1 else 0)) :
    (OW_search_body bus ow v).1.1.status
      = (HAL_UART_exchange bus (OW_receiveBit bus (OW_receiveBit bus ow).1).1.huart
          (if dir ≠ 0 then WIRE_1 else WIRE_0)).2.status ∧
    (OW_search_body bus ow v).1.1.LastFamilyDiscrepancy
      = (if id_bit = cmp_id_bit ∧ dir = 0 ∧ v.id_bit_number < 9 then v.id_bit_number
          else ow.LastFamilyDiscrepancy) := by
  subst h1 h2
  have hR1 : ∀ o : OneWire_t σ, (OW_receiveBit bus o).1.ROM_NO = o.ROM_NO := fun _ => rfl
  have hL1 : ∀ o : OneWire_t σ, (OW_receiveBit bus o).1.LastDiscrepancy = o.LastDiscrepancy :=
    fun _ => rfl
  have hF1 : ∀ o : OneWire_t σ,
      (OW_receiveBit bus o).1.LastFamilyDiscrepancy = o.LastFamilyDiscrepancy := fun _ => rfl
  unfold OW_search_body
  simp only [if_neg h]
  by_cases hne : (OW_receiveBit bus ow).2 ≠ (OW_receiveBit bus (OW_receiveBit bus ow).1).2
  · simp only [if_pos hne] at hdir ⊢
    subst hdir
    have hne2 : ¬ ((OW_receiveBit bus ow).2 = (OW_receiveBit bus (OW_receiveBit bus ow).1).2 ∧
        (OW_receiveBit bus ow).2 = 0 ∧ v.id_bit_number < 9) := fun hh => hne hh.1
    simp only [if_neg hne2]
    and_intros <;> trivial
  · have heq := not_not.mp hne
    simp only [if_neg hne, hR1, hL1] at hdir ⊢
    rw [← hdir]
    by_cases hd0 : dir = 0
    · simp only [if_pos hd0, heq, true_and]
      by_cases h9 : v.id_bit_number < 9
      · simp only [if_pos h9,
          if_pos (show dir = 0 ∧ v.id_bit_number < 9 from ⟨hd0, h9⟩)]
        and_intros <;> trivial
      · simp only [if_neg h9,
          if_neg (show ¬ (dir = 0 ∧ v.id_bit_number < 9) from fun hh => h9 hh.2)]
        and_intros <;> trivial
    · simp only [if_neg hd0, heq, true_and,
        if_neg (show ¬ (dir = 0 ∧ v.id_bit_number < 9) from fun hh => hd0 hh.1)]
      and_intros <;> trivial


/-- `OW_reset` treats two sessions that differ in `ROM_NO` only alike. -/
theorem OW_reset_congr {σ : Type} (bus : Bus σ) (a b : OneWire_t σ) (h : sameButROM a b) :
    (OW_reset bus a).2 = (OW_reset bus b).2 ∧ sameButROM (OW_reset bus a).1 (OW_reset bus b).1 ∧
    (OW_reset bus a).1.ROM_NO = a.ROM_NO ∧ (OW_reset bus b).1.ROM_NO = b.ROM_NO ∧
    (OW_reset bus a).1.LastDiscrepancy = a.LastDiscrepancy := by
  obtain ⟨h1, h2, h3, h4, h5⟩ := h
  unfold sameButROM
  by_cases hs : a.status ≠ HAL_OK
  · have hs2 : b.status ≠ HAL_OK := by rw [← h2]; exact hs
    simp [OW_reset, hs, hs2, OW_resetUART, OW_setBaudRate, HAL_UART_exchange, h1, h3, h4, h5]
  · have hs2 : ¬ b.status ≠ HAL_OK := by rw [← h2]; exact hs
    simp [OW_reset, hs, hs2, OW_setBaudRate, HAL_UART_exchange, h1, h3, h4, h5]

/-- The loop of `OW_sendByte` treats two sessions that differ in `ROM_NO` only alike. -/
theorem OW_sendByte_loop_congr {σ : Type} (bus : Bus σ) (bits : List Nat) :
    ∀ (a b : OneWire_t σ), sameButROM a b →
      sameButROM (OW_sendByte_loop bus bits a) (OW_sendByte_loop bus bits b) ∧
      (OW_sendByte_loop bus bits a).ROM_NO = a.ROM_NO ∧
      (OW_sendByte_loop bus bits b).ROM_NO = b.ROM_NO ∧
      (OW_sendByte_loop bus bits a).LastDiscrepancy = a.LastDiscrepancy := by
  induction bits with
  | nil => intro a b h; exact ⟨h, rfl, rfl, rfl⟩
  | cons x rest ih =>
    intro a b h
    rw [OW_sendByte_loop, OW_sendByte_loop]
    have hstep : sameButROM (OW_sendBit bus a x) (OW_sendBit bus b x) := by
      obtain ⟨h1, h2, h3, h4, h5⟩ := h
      unfold sameButROM OW_sendBit
      simp only [h1]
      exact ⟨trivial, trivial, h3, h4, h5⟩
    obtain ⟨i1, i2, i3, i4⟩ := ih _ _ hstep
    exact ⟨i1, i2, i3, i4⟩

/-- One execution of the loop body of `OW_search` with `LastDiscrepancy = 0`, from two
sessions that differ in `ROM_NO` only and whose addresses agree on the first `i` bits: both
leave the same way with the same loop variables, the sessions still differ in `ROM_NO`
only, and unless the body left through `break` the addresses now agree on `i + 1` bits. -/
theorem OW_search_body_stale {σ : Type} (bus : Bus σ) (a b : OneWire_t σ) (i lz : Nat)
    (hi : i < 64) (hsame : sameButROM a b) (hLD : a.LastDiscrepancy = 0)
    (hwa : romWellFormed a.ROM_NO) (hwb : romWellFormed b.ROM_NO)
    (hagree : ∀ j < i, romBit a.ROM_NO j = romBit b.ROM_NO j) :
    (OW_search_body bus a (searchLocalsAt i lz)).2
      = (OW_search_body bus b (searchLocalsAt i lz)).2 ∧
    (OW_search_body bus a (searchLocalsAt i lz)).1.2
      = (OW_search_body bus b (searchLocalsAt i lz)).1.2 ∧
    sameButROM (OW_search_body bus a (searchLocalsAt i lz)).1.1
      (OW_search_body bus b (searchLocalsAt i lz)).1.1 ∧
    ((OW_search_body bus a (searchLocalsAt i lz)).2 = false →
      (OW_search_body bus a (searchLocalsAt i lz)).1.1.LastDiscrepancy = 0 ∧
      romWellFormed (OW_search_body bus a (searchLocalsAt i lz)).1.1.ROM_NO ∧
      romWellFormed (OW_search_body bus b (searchLocalsAt i lz)).1.1.ROM_NO ∧
      ∀ j < i + 1, romBit (OW_search_body bus a (searchLocalsAt i lz)).1.1.ROM_NO j
        = romBit (OW_search_body bus b (searchLocalsAt i lz)).1.1.ROM_NO j) := by
  obtain ⟨g1, g2, g3, g4, g5⟩ := hsame
  have hLDb : b.LastDiscrepancy = 0 := by rw [← g3]; exact hLD
  obtain ⟨e1, e2, e3⟩ := OW_receiveBit_congr bus a b g1
  obtain ⟨f1, f2, f3⟩ := OW_receiveBit_congr bus (OW_receiveBit bus a).1 (OW_receiveBit bus b).1 e2
  by_cases hc : (OW_receiveBit bus a).2 = 1 ∧ (OW_receiveBit bus (OW_receiveBit bus a).1).2 = 1
  · have hcb : (OW_receiveBit bus b).2 = 1 ∧
        (OW_receiveBit bus (OW_receiveBit bus b).1).2 = 1 := by
      rw [← e1, ← f1]; exact hc
    have ba : OW_search_body bus a (searchLocalsAt i lz)
        = (((OW_receiveBit bus (OW_receiveBit bus a).1).1, searchLocalsAt i lz), true) := by
      unfold OW_search_body
      simp only [if_pos hc]
    have bb : OW_search_body bus b (searchLocalsAt i lz)
        = (((OW_receiveBit bus (OW_receiveBit bus b).1).1, searchLocalsAt i lz), true) := by
      unfold OW_search_body
      simp only [if_pos hcb]
    rw [ba, bb]
    exact ⟨rfl, rfl, ⟨f2, f3, g3, g4, g5⟩, fun h => absurd h (by simp)⟩
  · have hcb : ¬ ((OW_receiveBit bus b).2 = 1 ∧
        (OW_receiveBit bus (OW_receiveBit bus b).1).2 = 1) := by
      rw [← e1, ← f1]; exact hc
    have hD : ∀ D : Nat, D = 0 ∨ D = 1 → (decide (D = 1)).toNat = D := by
      intro D h
      rcases h with h | h <;> subst h <;> rfl
    have hid : (searchLocalsAt i lz).id_bit_number ≠ 0 := by
      simp only [searchLocalsAt]; omega
    have hdir01 : (if (OW_receiveBit bus a).2 ≠ (OW_receiveBit bus (OW_receiveBit bus a).1).2
          then (OW_receiveBit bus a).2 else 0) = 0 ∨
        (if (OW_receiveBit bus a).2 ≠ (OW_receiveBit bus (OW_receiveBit bus a).1).2
          then (OW_receiveBit bus a).2 else 0) = 1 := by
      split
      · exact OW_receiveBit_le bus a
      · exact Or.inl rfl
    generalize hB : decide ((if (OW_receiveBit bus a).2
          ≠ (OW_receiveBit bus (OW_receiveBit bus a).1).2
          then (OW_receiveBit bus a).2 else 0) = 1) = B
    have hBa : B.toNat = if (OW_receiveBit bus a).2
          ≠ (OW_receiveBit bus (OW_receiveBit bus a).1).2 then (OW_receiveBit bus a).2
        else if (searchLocalsAt i lz).id_bit_number < a.LastDiscrepancy then
          (if (a.ROM_NO.getD (searchLocalsAt i lz).rom_byte_number 0
            &&& (searchLocalsAt i lz).rom_byte_mask) > 0 then 1 else 0)
        else (if (searchLocalsAt i lz).id_bit_number = a.LastDiscrepancy then 1 else 0) := by
      rw [hLD, if_neg (Nat.not_lt_zero _), if_neg hid, ← hB]
      exact hD _ hdir01
    have hBb : B.toNat = if (OW_receiveBit bus b).2
          ≠ (OW_receiveBit bus (OW_receiveBit bus b).1).2 then (OW_receiveBit bus b).2
        else if (searchLocalsAt i lz).id_bit_number < b.LastDiscrepancy then
          (if (b.ROM_NO.getD (searchLocalsAt i lz).rom_byte_number 0
            &&& (searchLocalsAt i lz).rom_byte_mask) > 0 then 1 else 0)
        else (if (searchLocalsAt i lz).id_bit_number = b.LastDiscrepancy then 1 else 0) := by
      rw [hLDb, if_neg (Nat.not_lt_zero _), if_neg hid, ← e1, ← f1, ← hB]
      exact hD _ hdir01
    obtain ⟨sa1, sa2, sa3, sa4, sa5, sa6⟩ := OW_search_body_spec bus a (searchLocalsAt i lz)
      _ _ B.toNat rfl rfl hc hBa
    obtain ⟨sb1, sb2, sb3, sb4, sb5, sb6⟩ := OW_search_body_spec bus b (searchLocalsAt i lz)
      _ _ B.toNat rfl rfl hcb hBb
    obtain ⟨ta1, ta2⟩ := OW_search_body_spec2 bus a (searchLocalsAt i lz)
      _ _ B.toNat rfl rfl hc hBa
    obtain ⟨tb1, tb2⟩ := OW_search_body_spec2 bus b (searchLocalsAt i lz)
      _ _ B.toNat rfl rfl hcb hBb
    have hroma : ∀ j, romBit (OW_search_body bus a (searchLocalsAt i lz)).1.1.ROM_NO j
        = if j = i then B else romBit a.ROM_NO j := by
      intro j
      rw [sa3]
      exact romBit_set a.ROM_NO i j B hwa.1 hi
    have hromb : ∀ j, romBit (OW_search_body bus b (searchLocalsAt i lz)).1.1.ROM_NO j
        = if j = i then B else romBit b.ROM_NO j := by
      intro j
      rw [sb3]
      exact romBit_set b.ROM_NO i j B hwb.1 hi
    refine ⟨by rw [sa1, sb1], ?_, ⟨?_, ?_, ?_, ?_, ?_⟩, fun _ => ⟨?_, ⟨?_, ?_⟩, ⟨?_, ?_⟩, ?_⟩⟩
    · rw [sa2, sb2, e1, f1]
    · rw [sa6, sb6, f2]
    · rw [ta1, tb1, f2]
    · rw [sa4, sb4, g3]
    · rw [ta2, tb2, e1, f1, g4]
    · rw [sa5, sb5, g5]
    · rw [sa4, hLD]
    · rw [sa3]; simpa using hwa.1
    · rw [sa3]
      exact rom_set_lt a.ROM_NO (i / 8) (i % 8) B (Nat.mod_lt _ (by decide)) hwa.2
    · rw [sb3]; simpa using hwb.1
    · rw [sb3]
      exact rom_set_lt b.ROM_NO (i / 8) (i % 8) B (Nat.mod_lt _ (by decide)) hwb.2
    · intro j hj
      rw [hroma j, hromb j]
      by_cases hji : j = i
      · rw [if_pos hji, if_pos hji]
      · rw [if_neg hji, if_neg hji]
        exact hagree j (by omega)

/-- The loop of `OW_search` with `LastDiscrepancy = 0`, from two sessions that differ in
`ROM_NO` only: both runs are left the same way, the sessions still differ in `ROM_NO` only,
and after 64 bits the addresses are equal. -/
theorem OW_search_loop_stale {σ : Type} (bus : Bus σ) (n : Nat) :
    ∀ (i : Nat) (a b : OneWire_t σ) (lz : Nat), i + n = 64 → 0 < n → sameButROM a b →
      a.LastDiscrepancy = 0 → romWellFormed a.ROM_NO → romWellFormed b.ROM_NO →
      (∀ j < i, romBit a.ROM_NO j = romBit b.ROM_NO j) →
      ∃ a2 b2 v2, OW_search_loop bus n a (searchLocalsAt i lz) = some (a2, v2) ∧
        OW_search_loop bus n b (searchLocalsAt i lz) = some (b2, v2) ∧
        sameButROM a2 b2 ∧ (¬ v2.id_bit_number < 65 → a2.ROM_NO = b2.ROM_NO) := by
  induction n with
  | zero => intro i a b lz _ h; omega
  | succ n ih =>
    intro i a b lz hin _ hsame hLD hwa hwb hagree
    have hi : i < 64 := by omega
    obtain ⟨c1, c2, c3, c4⟩ := OW_search_body_stale bus a b i lz hi hsame hLD hwa hwb hagree
    rw [OW_search_loop, OW_search_loop]
    rcases OW_search_body_locals bus a i lz hi with hb | ⟨hb, lz2, hv⟩
    · have hb2 := c1 ▸ hb
      simp only [hb, hb2, if_true]
      refine ⟨_, _, _, rfl, ?_, c3, ?_⟩
      · rw [c2]
      · intro h
        rw [OW_search_body_break bus a _ hb] at h
        simp only [searchLocalsAt] at h
        omega
    · have hb2 := c1 ▸ hb
      obtain ⟨d1, d2, d3, d4⟩ := c4 hb
      have hv2 : (OW_search_body bus b (searchLocalsAt i lz)).1.2 = searchLocalsAt (i + 1) lz2 :=
        c2.symm.trans hv
      simp only [hb, hb2, Bool.false_eq_true, if_false, hv, hv2]
      by_cases hlt : (searchLocalsAt (i + 1) lz2).rom_byte_number < 8
      · rw [if_pos hlt, if_pos hlt]
        have hi2 : i + 1 < 64 := by
          simp only [searchLocalsAt] at hlt
          omega
        exact ih (i + 1) _ _ lz2 (by omega) (by omega) c3 d1 d2 d3 d4
      · rw [if_neg hlt, if_neg hlt]
        refine ⟨(OW_search_body bus a (searchLocalsAt i lz)).1.1,
          (OW_search_body bus b (searchLocalsAt i lz)).1.1, searchLocalsAt (i + 1) lz2,
          by rw [← hv], by rw [← hv2], c3, fun _ => ?_⟩
        have h64 : i + 1 = 64 := by
          simp only [searchLocalsAt] at hlt
          omega
        exact rom_ext _ _ d2 d3 (fun j hj => d4 j (by omega))


/-- A search from two sessions with `LastDiscrepancy = 0` and `LastDeviceFlag = 0` that
differ in `ROM_NO` only: same value returned, the sessions afterwards differ in `ROM_NO`
only, and not at all when 1 is returned. -/
theorem OW_search_stale {σ : Type} (bus : Bus σ) (a b : OneWire_t σ) (command : Nat)
    (hsame : sameButROM a b) (hLD : a.LastDiscrepancy = 0) (hflag : a.LastDeviceFlag = 0)
    (hwa : romWellFormed a.ROM_NO) (hwb : romWellFormed b.ROM_NO) :
    ∃ r1 r2, OW_search bus a command = some r1 ∧ OW_search bus b command = some r2 ∧
      r1.2 = r2.2 ∧ sameButROM r1.1 r2.1 ∧ (r1.2 = 1 → r1.1.ROM_NO = r2.1.ROM_NO) := by
  have hflagb : b.LastDeviceFlag = 0 := by rw [← hsame.2.2.2.2]; exact hflag
  obtain ⟨r1, r2, r3, r4, r5⟩ := OW_reset_congr bus a b hsame
  by_cases hres : (OW_reset bus a).2 = 0
  · have hresb : (OW_reset bus b).2 = 0 := by rw [← r1]; exact hres
    refine ⟨(OW_resetSearch (OW_reset bus a).1, 0), (OW_resetSearch (OW_reset bus b).1, 0),
      ?_, ?_, rfl, ⟨r2.1, r2.2.1, rfl, rfl, rfl⟩, fun h => absurd h Nat.zero_ne_one⟩
    · simp [OW_search, hflag, hres]
    · simp [OW_search, hflagb, hresb]
  · have hresb : ¬ (OW_reset bus b).2 = 0 := by rw [← r1]; exact hres
    obtain ⟨s1, s2, s3, s4⟩ := OW_sendByte_loop_congr bus (byteToBits command) _ _ r2
    obtain ⟨a2, b2, v2, l1, l2, l3, l4⟩ := OW_search_loop_stale bus 64 0
      (OW_sendByte bus (OW_reset bus a).1 command) (OW_sendByte bus (OW_reset bus b).1 command)
      0 rfl (by decide) s1 (by rw [OW_sendByte, s4, r5, hLD])
      (by rw [OW_sendByte, s2, r3]; exact hwa) (by rw [OW_sendByte, s3, r4]; exact hwb)
      (fun j hj => absurd hj (Nat.not_lt_zero j))
    have l1' : OW_search_loop bus 64 (OW_sendByte bus (OW_reset bus a).1 command)
        { id_bit_number := 1, last_zero := 0, rom_byte_number := 0, rom_byte_mask := 1 }
        = some (a2, v2) := l1
    have l2' : OW_search_loop bus 64 (OW_sendByte bus (OW_reset bus b).1 command)
        { id_bit_number := 1, last_zero := 0, rom_byte_number := 0, rom_byte_mask := 1 }
        = some (b2, v2) := l2
    obtain ⟨k1, k2, k3, k4, k5⟩ := l3
    unfold OW_search
    simp only [hflag, hflagb, if_true, if_neg hres, if_neg hresb, l1', l2']
    by_cases hlt : v2.id_bit_number < 65
    · refine ⟨(OW_resetSearch a2, 0), (OW_resetSearch b2, 0), ?_, ?_, rfl,
        ⟨k1, k2, rfl, rfl, rfl⟩, fun h => absurd h Nat.zero_ne_one⟩
      · simp [hlt]
      · simp [hlt]
    · have hrom := l4 hlt
      simp only [hlt, not_false_eq_true, if_true]
      by_cases hz : a2.ROM_NO.getD 0 0 = 0
      · have hzb : b2.ROM_NO.getD 0 0 = 0 := by rw [← hrom]; exact hz
        have hz2 : a2.ROM_NO[0]?.getD 0 = 0 := by simpa using hz
        have hzb2 : b2.ROM_NO[0]?.getD 0 = 0 := by simpa using hzb
        by_cases hL : v2.last_zero = 0
        · refine ⟨(OW_resetSearch { a2 with LastDiscrepancy := v2.last_zero, LastDeviceFlag := 1 }, 0),
            (OW_resetSearch { b2 with LastDiscrepancy := v2.last_zero, LastDeviceFlag := 1 }, 0), ?_, ?_, rfl,
            ⟨k1, k2, rfl, rfl, rfl⟩, fun h => absurd h Nat.zero_ne_one⟩
          · simp [hL, hz2]
          · simp [hL, hzb2]
        · refine ⟨(OW_resetSearch { a2 with LastDiscrepancy := v2.last_zero }, 0),
            (OW_resetSearch { b2 with LastDiscrepancy := v2.last_zero }, 0), ?_, ?_, rfl,
            ⟨k1, k2, rfl, rfl, rfl⟩, fun h => absurd h Nat.zero_ne_one⟩
          · simp [hL, hz2]
          · simp [hL, hzb2]
      · have hzb : ¬ b2.ROM_NO.getD 0 0 = 0 := by rw [← hrom]; exact hz
        have hz2 : ¬ a2.ROM_NO[0]?.getD 0 = 0 := by simpa using hz
        have hzb2 : ¬ b2.ROM_NO[0]?.getD 0 = 0 := by simpa using hzb
        by_cases hL : v2.last_zero = 0
        · refine ⟨({ a2 with LastDiscrepancy := v2.last_zero, LastDeviceFlag := 1 }, 1),
            ({ b2 with LastDiscrepancy := v2.last_zero, LastDeviceFlag := 1 }, 1), ?_, ?_, rfl,
            ⟨k1, k2, rfl, k4, rfl⟩, fun _ => hrom⟩
          · simp [hL, hz2]
          · simp [hL, hzb2]
        · refine ⟨({ a2 with LastDiscrepancy := v2.last_zero }, 1),
            ({ b2 with LastDiscrepancy := v2.last_zero }, 1), ?_, ?_, rfl,
            ⟨k1, k2, rfl, k4, k5⟩, fun _ => hrom⟩
          · simp [hL, hz2]
          · simp [hL, hzb2]

/-- Claim C22. For any bus and any two sessions with the same UART handle (wire, baud rate,
log) and status, whatever their `LastDiscrepancy`, `LastFamilyDiscrepancy`,
`LastDeviceFlag` and (eight-byte) `ROM_NO`: `OW_first` returns in both, with the same value,
the same UART handle afterwards (so the same bytes were transmitted and the same answers
consumed), the same status, the same `LastDiscrepancy`, `LastFamilyDiscrepancy` and
`LastDeviceFlag`; and when the value is 1, the same `ROM_NO`. -/
theorem OW_first_stale_state {σ : Type} (bus : Bus σ) (a b : OneWire_t σ)
    (hhuart : a.huart = b.huart) (hstatus : a.status = b.status)
    (hwa : romWellFormed a.ROM_NO) (hwb : romWellFormed b.ROM_NO) :
    ∃ r1 r2, OW_first bus a = some r1 ∧ OW_first bus b = some r2 ∧
      r1.2 = r2.2 ∧ r1.1.huart = r2.1.huart ∧ r1.1.huart.log = r2.1.huart.log ∧
      r1.1.status = r2.1.status ∧
      r1.1.LastDiscrepancy = r2.1.LastDiscrepancy ∧
      r1.1.LastFamilyDiscrepancy = r2.1.LastFamilyDiscrepancy ∧
      r1.1.LastDeviceFlag = r2.1.LastDeviceFlag ∧
      (r1.2 = 1 → r1.1.ROM_NO = r2.1.ROM_NO) := by
  obtain ⟨r1, r2, h1, h2, h3, ⟨k1, k2, k3, k4, k5⟩, h5⟩ := OW_search_stale bus
    (OW_resetSearch a) (OW_resetSearch b) OW_CMD_SEARCHROM
    ⟨hhuart, hstatus, rfl, rfl, rfl⟩ rfl rfl hwa hwb
  exact ⟨r1, r2, h1, h2, h3, k1, by rw [k1], k2, k3, k4, k5, h5⟩


set_option maxRecDepth 1000000 in
/-- Witness for C22: on the tape of a single device, a fresh session and a session that
carries `LastDiscrepancy = 5`, `LastFamilyDiscrepancy = 3`, `LastDeviceFlag = 1` and an old
address give the same result of `OW_first`, address and UART log included, while `OW_next`
tells them apart. -/
theorem OW_first_stale_state_witness :
    (∃ r1 r2, OW_first tapeBus (exampleSession (deviceTape [0x28, 0xFF, 1, 2, 3, 4, 5, 0x62]))
        = some r1 ∧
      OW_first tapeBus { exampleSession (deviceTape [0x28, 0xFF, 1, 2, 3, 4, 5, 0x62]) with
        LastDiscrepancy := 5, LastFamilyDiscrepancy := 3, LastDeviceFlag := 1
        ROM_NO := [1, 2, 3, 4, 5, 6, 7, 8] } = some r2 ∧
      r1.2 = r2.2 ∧ r1.1.huart = r2.1.huart ∧ r1.1.huart.log = r2.1.huart.log ∧
      r1.1.status = r2.1.status ∧
      r1.1.LastDiscrepancy = r2.1.LastDiscrepancy ∧
      r1.1.LastFamilyDiscrepancy = r2.1.LastFamilyDiscrepancy ∧
      r1.1.LastDeviceFlag = r2.1.LastDeviceFlag ∧
      (r1.2 = 1 → r1.1.ROM_NO = r2.1.ROM_NO)) ∧
    (OW_first tapeBus { exampleSession (deviceTape [0x28, 0xFF, 1, 2, 3, 4, 5, 0x62]) with
        LastDiscrepancy := 5, LastFamilyDiscrepancy := 3, LastDeviceFlag := 1
        ROM_NO := [1, 2, 3, 4, 5, 6, 7, 8] }).map
        (fun r => (r.2, r.1.ROM_NO, r.1.LastDiscrepancy, r.1.LastFamilyDiscrepancy,
          r.1.LastDeviceFlag))
      = some (1, [0x28, 0xFF, 1, 2, 3, 4, 5, 0x62], 0, 0, 1) ∧
    (OW_next tapeBus (exampleSession (deviceTape [0x28, 0xFF, 1, 2, 3, 4, 5, 0x62]))).map
        (fun r => r.2) = some 1 ∧
    (OW_next tapeBus { exampleSession (deviceTape [0x28, 0xFF, 1, 2, 3, 4, 5, 0x62]) with
        LastDiscrepancy := 5, LastFamilyDiscrepancy := 3, LastDeviceFlag := 1
        ROM_NO := [1, 2, 3, 4, 5, 6, 7, 8] }).map (fun r => r.2) = some 0 :=
  ⟨OW_first_stale_state tapeBus (exampleSession (deviceTape [0x28, 0xFF, 1, 2, 3, 4, 5, 0x62]))
      { exampleSession (deviceTape [0x28, 0xFF, 1, 2, 3, 4, 5, 0x62]) with
        LastDiscrepancy := 5, LastFamilyDiscrepancy := 3, LastDeviceFlag := 1
        ROM_NO := [1, 2, 3, 4, 5, 6, 7, 8] } rfl rfl (by decide) (by decide),
   by decide, by decide, by decide⟩

end OneWire
